import Mathlib

/-!
Verification of the knowledge-graph ingestion and query engine of Team Synapse
(`services/neo4j_service.py` and `mcp_tools/neo4j_tools.py`).

The Python service and its Cypher queries are shallowly embedded:
* the graph database state is a `Graph` of typed nodes (each carrying an
  optional `tenantId`, mirroring Neo4j where a property set from a null
  parameter is simply absent) plus relationship lists of node-id pairs;
* every `tx.run` of the write path becomes a pure state transformer in
  `Except DbErr`, so the `session.execute_write` rollback semantics is the
  statement "an error yields the original graph";
* Cypher `MERGE` on a pattern containing a null property raises
  (Neo4j: "Cannot merge node using null property value"), which the merge
  operations reproduce;
* a fault oracle `fault : Nat → Bool` models the database failing any given
  `tx.run` call (network blip, constraint violation, ...), numbered in
  execution order.

String primitives are implemented on `List Char` so that all definitions
evaluate by kernel reduction; case-folding is ASCII (`Char.toLower`), which
covers the identifiers and names the service manipulates.
-/

/-- Char-list lexicographic strict order by code point (Neo4j's string order). -/
def lcLt : List Char → List Char → Bool
  | [], [] => false
  | [], _ :: _ => true
  | _ :: _, [] => false
  | a :: as, b :: bs =>
    Nat.blt a.toNat b.toNat || (a == b && lcLt as bs)

/-- Char-list substring containment (`needle` occurs inside `hay`). -/
def lcContains : List Char → List Char → Bool
  | _, [] => true
  | [], _ :: _ => false
  | h :: t, n :: ns => List.isPrefixOf (n :: ns) (h :: t) || lcContains t (n :: ns)

/-- ASCII whitespace recognized by Python's `str.strip()` (on this data). -/
def isWS (c : Char) : Bool :=
  c == ' ' || c == '\t' || c == '\n' || c == '\r' || c == '\x0b' || c == '\x0c'

/-- Python `s.strip()`. -/
def pyStrip (s : String) : String :=
  ⟨((s.data.dropWhile isWS).reverse.dropWhile isWS).reverse⟩

/-- Python `s.lower()` (ASCII case-folding). -/
def pyLower (s : String) : String :=
  ⟨s.data.map Char.toLower⟩

/-- Python / Cypher substring containment `needle in hay` resp.
`hay CONTAINS needle`.  The empty string is contained in everything. -/
def strContains (hay needle : String) : Bool :=
  lcContains hay.data needle.data

/-- Cypher string `a >= b` (lexicographic by code point). -/
def strGe (a b : String) : Bool :=
  !lcLt a.data b.data

/-- Cypher string `a < b`. -/
def strLt (a b : String) : Bool :=
  lcLt a.data b.data

/-- An invite attendee as consumed by `_create_action_items`
(`attendee.get("name")`, `attendee.get("email")` may each be missing). -/
structure Attendee where
  name : Option String
  email : Option String
deriving DecidableEq, Repr

/-- The fuzzy match of `_create_action_items` (neo4j_service.py:253-257):
`assignee_lower == att_name.lower() or assignee_lower in att_name.lower()
or att_name.lower() in assignee_lower`. -/
def attMatches (assigneeLower attName : String) : Bool :=
  assigneeLower == pyLower attName
    || strContains (pyLower attName) assigneeLower
    || strContains assigneeLower (pyLower attName)

/-- The attendee-scanning loop of `_create_action_items`
(neo4j_service.py:242-260): names and emails are stripped, an attendee with
both fields empty is skipped, the first attendee whose non-empty stripped
name fuzzy-matches wins; its stripped email (empty → none) and stripped name
are returned, otherwise `(none, assignee)`. -/
def resolveGo (assigneeLower assignee : String) : List Attendee → Option String × String
  | [] => (none, assignee)
  | att :: rest =>
    let an := pyStrip (att.name.getD "")
    let ae := pyStrip (att.email.getD "")
    if an == "" && ae == "" then resolveGo assigneeLower assignee rest
    else if an != "" && attMatches assigneeLower an then
      ((if ae == "" then none else some ae), an)
    else resolveGo assigneeLower assignee rest

/-- Entity resolution for an action item's assignee: returns the resolved
`(email?, canonical name)` merge data (neo4j_service.py:240-260). -/
def resolveAssignee (assignee : String) (attendees : List Attendee) : Option String × String :=
  resolveGo (pyLower assignee) assignee attendees

/-- The matching criterion exactly as the specification words it: the
attendee's name (as given) case-insensitively equals, contains, or is
contained in the assignee string.  Used to compare spec and code. -/
def specAttMatches (assignee attName : String) : Bool :=
  pyLower assignee == pyLower attName
    || strContains (pyLower attName) (pyLower assignee)
    || strContains (pyLower assignee) (pyLower attName)

/-- The code's effective match predicate on a whole attendee record:
stripped name non-empty and fuzzy-matching. -/
def codeAttMatch (assignee : String) (att : Attendee) : Bool :=
  let an := pyStrip (att.name.getD "")
  an != "" && attMatches (pyLower assignee) an

example : resolveAssignee "Sarah" [⟨some "Sarah Connor", some "sarah@x.com"⟩] =
    (some "sarah@x.com", "Sarah Connor") := by decide

example : resolveAssignee "Sarah Connor" [⟨some "Sarah Connor", some "sarah@x.com"⟩] =
    (some "sarah@x.com", "Sarah Connor") := by decide

example : resolveAssignee "Bob" [⟨some "", some "e@x.com"⟩] = (none, "Bob") := by decide

example : specAttMatches "Bob" "" = true := by decide

/-! ## Graph data model

Node properties mirror the parameter maps of the Cypher `CREATE`/`MERGE`
statements.  A property whose parameter may be Python `None` is an `Option`
(Neo4j stores no property when the value is null). -/

/-- Node identity (Neo4j internal node id).  Fresh ids are allocated from
`Graph.nextId`. -/
abbrev NodeId := Nat

/-- Properties of a `Meeting` node (`_create_meeting_node`). -/
structure MeetingNode where
  meetingId : String
  tenantId : Option String
  title : String
  summary : String
  meetingDate : String
  sentiment : String
  processingTimestamp : String
  originalFilename : String
  transcript : String
  personaMode : String
  topics : List String
  meetingType : String
  duration : Option Nat
  urgencyLevel : String
  requiresFollowUp : Bool
deriving DecidableEq, Repr

/-- Properties of an `ActionItem` node (`_create_action_items`). -/
structure ActionItemNode where
  actionId : String
  tenantId : Option String
  task : String
  assignee : String
  dueDate : String
  priority : String
  status : String
  blockers : List String
  estimatedEffort : String
  assigneeRole : String
deriving DecidableEq, Repr

/-- Properties of a `Decision` node (`_create_decisions`).  Note the text is
stored under `description`; there is no `decision` property. -/
structure DecisionNode where
  decisionId : String
  tenantId : Option String
  description : String
deriving DecidableEq, Repr

/-- Properties of a `Person` node.  The email-keyed merge sets all fields;
the name-keyed merge creates only `name` and `tenantId`. -/
structure PersonNode where
  email : Option String
  name : Option String
  role : Option String
  tenantId : Option String
  createdAt : Option String
  lastSeenAt : Option String
deriving DecidableEq, Repr

/-- Properties of a `Client` or `Project` node (`_create_clients`,
`_create_projects`): just `name` and `tenantId`. -/
structure NamedEntity where
  name : String
  tenantId : Option String
deriving DecidableEq, Repr

/-- The graph database state: node lists (id, properties) per label and
relationship lists of (source id, target id) per relationship type. -/
@[ext]
structure Graph where
  nextId : NodeId
  meetings : List (NodeId × MeetingNode)
  actions : List (NodeId × ActionItemNode)
  decisionNodes : List (NodeId × DecisionNode)
  persons : List (NodeId × PersonNode)
  clients : List (NodeId × NamedEntity)
  projects : List (NodeId × NamedEntity)
  hasActionItem : List (NodeId × NodeId)
  hasDecision : List (NodeId × NodeId)
  assignedTo : List (NodeId × NodeId)
  discussedClient : List (NodeId × NodeId)
  relatesToProject : List (NodeId × NodeId)
deriving DecidableEq, Repr

/-- The empty database. -/
def Graph.empty : Graph :=
  ⟨0, [], [], [], [], [], [], [], [], [], [], []⟩

/-! ## Input payload

The `analysis` dictionary consumed by `store_meeting_data`; every key read
with `.get` is an `Option` (absent key). -/

/-- One element of `analysis["actionItems"]`. -/
structure ActionItemInput where
  task : Option String
  assignee : Option String
  dueDate : Option String
  priority : Option String
  status : Option String
  blockers : Option (List String)
  estimatedEffort : Option String
  assigneeRole : Option String
deriving DecidableEq, Repr

/-- `analysis["metadata"]`. -/
structure MetadataInput where
  urgencyLevel : Option String
  requiresFollowUp : Option Bool
deriving DecidableEq, Repr

/-- `analysis["inviteMetadata"]`. -/
structure InviteMetadataInput where
  attendees : Option (List Attendee)
deriving DecidableEq, Repr

/-- The analysis record passed to `store_meeting_data`.  List-valued keys
use `[]` for "absent" (the code reads them with `.get(key, [])` and treats
the empty list and a missing key identically). -/
structure Analysis where
  meetingId : Option String
  tenantId : Option String
  meetingTitle : Option String
  summary : Option String
  meetingDate : Option String
  sentiment : Option String
  processingTimestamp : Option String
  originalFilename : Option String
  transcript : Option String
  personaMode : Option String
  topics : Option (List String)
  meetingType : Option String
  duration : Option Nat
  metadata : Option MetadataInput
  actionItems : List ActionItemInput
  keyDecisions : List String
  mentionedClients : List String
  mentionedProjects : List String
  inviteMetadata : Option InviteMetadataInput
deriving DecidableEq, Repr

/-- A blank analysis record (every optional key absent, every list empty). -/
def Analysis.blank : Analysis :=
  ⟨none, none, none, none, none, none, none, none, none, none, none,
   none, none, none, [], [], [], [], none⟩

/-- Python `s[:10000]`: truncate to the first 10000 characters. -/
def truncate10000 (s : String) : String :=
  ⟨s.data.take 10000⟩

/-- The parameter map of the Meeting `CREATE` (neo4j_service.py:167-183);
`now` stands for `datetime.utcnow().isoformat()`. -/
def meetingNodeOf (now mid : String) (a : Analysis) : MeetingNode :=
  let metadata := a.metadata.getD ⟨none, none⟩
  { meetingId := mid
  , tenantId := a.tenantId
  , title := a.meetingTitle.getD "Untitled Meeting"
  , summary := a.summary.getD ""
  , meetingDate := a.meetingDate.getD "unknown"
  , sentiment := a.sentiment.getD "neutral"
  , processingTimestamp := a.processingTimestamp.getD now
  , originalFilename := a.originalFilename.getD ""
  , transcript := truncate10000 (a.transcript.getD "")
  , personaMode := a.personaMode.getD "corporate"
  , topics := a.topics.getD []
  , meetingType := a.meetingType.getD "other"
  , duration := a.duration
  , urgencyLevel := metadata.urgencyLevel.getD "normal"
  , requiresFollowUp := metadata.requiresFollowUp.getD false }

/-- The parameter map of the ActionItem `CREATE` (neo4j_service.py:218-233),
for the item at index `idx`. -/
def actionNodeOf (τ : Option String) (mid : String) (idx : Nat) (item : ActionItemInput) :
    ActionItemNode :=
  { actionId := mid ++ "_action_" ++ toString idx
  , tenantId := τ
  , task := item.task.getD ""
  , assignee := item.assignee.getD "unassigned"
  , dueDate := item.dueDate.getD "none"
  , priority := item.priority.getD "unspecified"
  , status := item.status.getD "pending"
  , blockers := item.blockers.getD []
  , estimatedEffort := item.estimatedEffort.getD "unknown"
  , assigneeRole := item.assigneeRole.getD "" }

/-! ## Write path

`store_meeting_data` runs `_store_meeting_transaction` inside a single
`session.execute_write`.  Each `tx.run` may be failed by the fault oracle;
a Cypher `MERGE` whose pattern contains a null property fails intrinsically.
Any failure aborts the transaction and the caller keeps the pre-call graph. -/

/-- A database-layer error. -/
inductive DbErr where
  /-- The fault oracle failed this `tx.run` (models any backend error). -/
  | injected : Nat → DbErr
  /-- Cypher `MERGE` on a pattern with a null property value. -/
  | nullMerge : DbErr
deriving DecidableEq, Repr

/-- Run one `tx.run` call: step `n` fails if the fault oracle says so,
otherwise the statement's own semantics `f` runs. -/
def txRun (fault : Nat → Bool) (n : Nat) (g : Graph)
    (f : Graph → Except DbErr Graph) : Except DbErr (Nat × Graph) :=
  if fault n then .error (.injected n)
  else match f g with
    | .ok g' => .ok (n + 1, g')
    | .error e => .error e

/-- Ids of the meetings matched by `MATCH (m:Meeting {meetingId: $mid})`
(no tenant filter in that pattern). -/
def matchedMeetingIds (g : Graph) (mid : String) : List NodeId :=
  (g.meetings.filter (fun me => me.2.meetingId == mid)).map (fun me => me.1)

/-- `CREATE (m:Meeting {...})` — append the meeting node. -/
def createMeetingOp (now mid : String) (a : Analysis) (g : Graph) : Graph :=
  { g with nextId := g.nextId + 1
         , meetings := g.meetings ++ [(g.nextId, meetingNodeOf now mid a)] }

/-- One row of the ActionItem statement: `CREATE` the node and the
`HAS_ACTION_ITEM` relationship for matched meeting `m`. -/
def createActionRow (node : ActionItemNode) (m : NodeId) (g : Graph) : Graph :=
  { g with nextId := g.nextId + 1
         , actions := g.actions ++ [(g.nextId, node)]
         , hasActionItem := g.hasActionItem ++ [(m, g.nextId)] }

/-- The ActionItem statement (`MATCH (m:Meeting {meetingId}) CREATE (a) ...`):
one node and one relationship per matched meeting row. -/
def createActionOp (τ : Option String) (mid : String) (idx : Nat)
    (item : ActionItemInput) (g : Graph) : Graph :=
  (matchedMeetingIds g mid).foldl
    (fun g' m => createActionRow (actionNodeOf τ mid idx item) m g') g

/-- One row of the Decision statement for matched meeting `m`. -/
def createDecisionRow (node : DecisionNode) (m : NodeId) (g : Graph) : Graph :=
  { g with nextId := g.nextId + 1
         , decisionNodes := g.decisionNodes ++ [(g.nextId, node)]
         , hasDecision := g.hasDecision ++ [(m, g.nextId)] }

/-- The Decision statement (`MATCH (m) CREATE (d:Decision {...}) ...`). -/
def createDecisionOp (τ : Option String) (mid : String) (idx : Nat)
    (text : String) (g : Graph) : Graph :=
  (matchedMeetingIds g mid).foldl
    (fun g' m => createDecisionRow
      ⟨mid ++ "_decision_" ++ toString idx, τ, text⟩ m g') g

/-- Cypher relationship `MERGE`: add the edge only if absent. -/
def addEdgeIfAbsent (es : List (NodeId × NodeId)) (e : NodeId × NodeId) :
    List (NodeId × NodeId) :=
  if es.contains e then es else es ++ [e]

/-- `WITH p MATCH (a:ActionItem {actionId: $actionId}) MERGE (p)-[:ASSIGNED_TO]->(a)`:
link person `pid` to every ActionItem node carrying `actionId` (the `MATCH`
has no tenant filter). -/
def linkAssigned (actionId : String) (pid : NodeId) (g : Graph) : Graph :=
  let es := (g.actions.filter (fun ae => ae.2.actionId == actionId)).foldl
    (fun es ae => addEdgeIfAbsent es (pid, ae.1)) g.assignedTo
  { g with assignedTo := es }

/-- The email-keyed Person statement (neo4j_service.py:263-272):
`MERGE (p:Person {email, tenantId}) ON CREATE SET name/role/createdAt
ON MATCH SET name = coalesce(p.name, $name), role = coalesce($role, p.role),
lastSeenAt = datetime()`, then link to the ActionItem.  A null `tenantId`
makes the `MERGE` raise. -/
def mergePersonEmailOp (τ : Option String) (email name role now actionId : String)
    (g : Graph) : Except DbErr Graph :=
  match τ with
  | none => .error .nullMerge
  | some t =>
    let isKey := fun (pe : NodeId × PersonNode) =>
      pe.2.email == some email && pe.2.tenantId == some t
    let matched := g.persons.filter isKey
    if matched.isEmpty then
      let pid := g.nextId
      let p : PersonNode :=
        ⟨some email, some name, some role, some t, some now, none⟩
      let g1 := { g with nextId := pid + 1, persons := g.persons ++ [(pid, p)] }
      .ok (linkAssigned actionId pid g1)
    else
      let g1 := { g with persons := g.persons.map (fun pe =>
        if isKey pe then
          (pe.1, { pe.2 with
            name := some (pe.2.name.getD name)
            role := some role
            lastSeenAt := some now })
        else pe) }
      .ok (matched.foldl (fun g2 pe => linkAssigned actionId pe.1 g2) g1)

/-- The name-keyed fallback Person statement (neo4j_service.py:282-287):
`MERGE (p:Person {name, tenantId})` with no SET clauses, then link. -/
def mergePersonNameOp (τ : Option String) (name actionId : String)
    (g : Graph) : Except DbErr Graph :=
  match τ with
  | none => .error .nullMerge
  | some t =>
    let isKey := fun (pe : NodeId × PersonNode) =>
      pe.2.name == some name && pe.2.tenantId == some t
    let matched := g.persons.filter isKey
    if matched.isEmpty then
      let pid := g.nextId
      let p : PersonNode := ⟨none, some name, none, some t, none, none⟩
      let g1 := { g with nextId := pid + 1, persons := g.persons ++ [(pid, p)] }
      .ok (linkAssigned actionId pid g1)
    else
      .ok (matched.foldl (fun g2 pe => linkAssigned actionId pe.1 g2) g)

/-- One row of the Client statement: `MERGE (c:Client {name, tenantId})
MERGE (m)-[:DISCUSSED_CLIENT]->(c)` for matched meeting `m`.  Executed only
when at least one meeting row matched; raises on a null tenant. -/
def mergeClientRow (τ : Option String) (name : String) (m : NodeId)
    (g : Graph) : Except DbErr Graph :=
  match τ with
  | none => .error .nullMerge
  | some t =>
    let isKey := fun (ce : NodeId × NamedEntity) =>
      ce.2.name == name && ce.2.tenantId == some t
    let matched := g.clients.filter isKey
    if matched.isEmpty then
      let cid := g.nextId
      let g1 := { g with nextId := cid + 1
                       , clients := g.clients ++ [(cid, (⟨name, some t⟩ : NamedEntity))] }
      .ok { g1 with discussedClient := addEdgeIfAbsent g1.discussedClient (m, cid) }
    else
      .ok { g with discussedClient :=
        matched.foldl (fun es ce => addEdgeIfAbsent es (m, ce.1)) g.discussedClient }

/-- Monadic fold of a row operation over the matched rows. -/
def foldRows (f : NodeId → Graph → Except DbErr Graph) :
    List NodeId → Graph → Except DbErr Graph
  | [], g => .ok g
  | m :: ms, g =>
    match f m g with
    | .ok g' => foldRows f ms g'
    | .error e => .error e

/-- The Client statement (`MATCH (m:Meeting {meetingId}) MERGE (c) MERGE ...`):
the merges run once per matched meeting row (zero rows → no-op). -/
def mergeClientOp (τ : Option String) (name mid : String) (g : Graph) :
    Except DbErr Graph :=
  foldRows (mergeClientRow τ name) (matchedMeetingIds g mid) g

/-- One row of the Project statement (`MERGE (p:Project {name, tenantId})
MERGE (m)-[:RELATES_TO_PROJECT]->(p)`). -/
def mergeProjectRow (τ : Option String) (name : String) (m : NodeId)
    (g : Graph) : Except DbErr Graph :=
  match τ with
  | none => .error .nullMerge
  | some t =>
    let isKey := fun (pe : NodeId × NamedEntity) =>
      pe.2.name == name && pe.2.tenantId == some t
    let matched := g.projects.filter isKey
    if matched.isEmpty then
      let pid := g.nextId
      let g1 := { g with nextId := pid + 1
                       , projects := g.projects ++ [(pid, (⟨name, some t⟩ : NamedEntity))] }
      .ok { g1 with relatesToProject := addEdgeIfAbsent g1.relatesToProject (m, pid) }
    else
      .ok { g with relatesToProject :=
        matched.foldl (fun es pe => addEdgeIfAbsent es (m, pe.1)) g.relatesToProject }

/-- The Project statement. -/
def mergeProjectOp (τ : Option String) (name mid : String) (g : Graph) :
    Except DbErr Graph :=
  foldRows (mergeProjectRow τ name) (matchedMeetingIds g mid) g

/-- The per-item loop of `_create_action_items`: one `tx.run` creating the
ActionItem (plus `HAS_ACTION_ITEM`), then — when the assignee is non-empty
and not `"unassigned"` — entity resolution and one `tx.run` merging the
Person and the `ASSIGNED_TO` link. -/
def runItems (fault : Nat → Bool) (τ : Option String) (atts : List Attendee)
    (mid now : String) :
    Nat → Nat → List ActionItemInput → Graph → Except DbErr (Nat × Graph)
  | _, n, [], g => .ok (n, g)
  | idx, n, item :: rest, g =>
    match txRun fault n g (fun g' => .ok (createActionOp τ mid idx item g')) with
    | .error e => .error e
    | .ok (n, g) =>
      let assignee := item.assignee.getD "unassigned"
      if assignee != "" && assignee != "unassigned" then
        let r := resolveAssignee assignee atts
        let actionId := mid ++ "_action_" ++ toString idx
        match txRun fault n g (fun g' =>
          match r.1 with
          | some email =>
            mergePersonEmailOp τ email r.2 (item.assigneeRole.getD "") now actionId g'
          | none => mergePersonNameOp τ r.2 actionId g') with
        | .error e => .error e
        | .ok (n, g) => runItems fault τ atts mid now (idx + 1) n rest g
      else
        runItems fault τ atts mid now (idx + 1) n rest g

/-- The loop of `_create_decisions`: one `tx.run` per decision string. -/
def runDecisions (fault : Nat → Bool) (τ : Option String) (mid : String) :
    Nat → Nat → List String → Graph → Except DbErr (Nat × Graph)
  | _, n, [], g => .ok (n, g)
  | idx, n, text :: rest, g =>
    match txRun fault n g (fun g' => .ok (createDecisionOp τ mid idx text g')) with
    | .error e => .error e
    | .ok (n, g) => runDecisions fault τ mid (idx + 1) n rest g

/-- The loop of `_create_clients`: empty names are skipped before any
`tx.run`; each remaining name is one `tx.run`. -/
def runClients (fault : Nat → Bool) (τ : Option String) (mid : String) :
    Nat → List String → Graph → Except DbErr (Nat × Graph)
  | n, [], g => .ok (n, g)
  | n, c :: rest, g =>
    if c == "" then runClients fault τ mid n rest g
    else
      match txRun fault n g (mergeClientOp τ c mid) with
      | .error e => .error e
      | .ok (n, g) => runClients fault τ mid n rest g

/-- The loop of `_create_projects`. -/
def runProjects (fault : Nat → Bool) (τ : Option String) (mid : String) :
    Nat → List String → Graph → Except DbErr (Nat × Graph)
  | n, [], g => .ok (n, g)
  | n, p :: rest, g =>
    if p == "" then runProjects fault τ mid n rest g
    else
      match txRun fault n g (mergeProjectOp τ p mid) with
      | .error e => .error e
      | .ok (n, g) => runProjects fault τ mid n rest g

/-- `_store_meeting_transaction` (neo4j_service.py:102-139): Meeting node,
then action items (with Person merges), decisions, clients, projects — all
inside one transaction.  The `if xs:` guards of the Python are the
`isEmpty` tests. -/
def storeTx (fault : Nat → Bool) (now mid : String) (a : Analysis) (g : Graph) :
    Except DbErr (Nat × Graph) :=
  match txRun fault 0 g (fun g' => .ok (createMeetingOp now mid a g')) with
  | .error e => .error e
  | .ok (n, g) =>
    let atts := (a.inviteMetadata.map (fun im => im.attendees.getD [])).getD []
    match (if a.actionItems.isEmpty then .ok (n, g)
           else runItems fault a.tenantId atts mid now 0 n a.actionItems g) with
    | .error e => .error e
    | .ok (n, g) =>
      match (if a.keyDecisions.isEmpty then .ok (n, g)
             else runDecisions fault a.tenantId mid 0 n a.keyDecisions g) with
      | .error e => .error e
      | .ok (n, g) =>
        match (if a.mentionedClients.isEmpty then .ok (n, g)
               else runClients fault a.tenantId mid n a.mentionedClients g) with
        | .error e => .error e
        | .ok (n, g) =>
          match (if a.mentionedProjects.isEmpty then .ok (n, g)
                 else runProjects fault a.tenantId mid n a.mentionedProjects g) with
          | .error e => .error e
          | .ok (n, g) => .ok (n, g)

/-- `store_meeting_data` (neo4j_service.py:68-100): reject a missing or
empty `meetingId` before touching the database; otherwise run the write
transaction, returning `true` with the new graph on success and `false`
with the unchanged graph on any error. -/
def store_meeting_data (fault : Nat → Bool) (now : String) (a : Analysis)
    (g : Graph) : Bool × Graph :=
  match a.meetingId with
  | none => (false, g)
  | some mid =>
    if mid == "" then (false, g)
    else
      match storeTx fault now mid a g with
      | .ok (_, g') => (true, g')
      | .error _ => (false, g)

/-- A fault oracle that never fires (healthy database). -/
def noFault : Nat → Bool := fun _ => false

/-! ## Query layer

Read-only methods.  Each public method catches every backend exception, so
it carries a `fail : Bool` input modelling "this session/run raised"; the
ambient tenant (`config.app.tenant_id`, set at login) is an explicit
parameter. -/

/-- Stable insertion step for `sortLe`. -/
def insertLe {α : Type} (le : α → α → Bool) (x : α) : List α → List α
  | [] => [x]
  | y :: ys => if le x y then x :: y :: ys else y :: insertLe le x ys

/-- Stable insertion sort by a total boolean `le` (a deterministic
realization of Cypher's `ORDER BY`). -/
def sortLe {α : Type} (le : α → α → Bool) : List α → List α
  | [] => []
  | x :: xs => insertLe le x (sortLe le xs)

/-- First-occurrence deduplication, with the already-seen accumulator. -/
def dedupFirstAux (seen : List String) : List String → List String
  | [] => []
  | x :: xs =>
    if seen.contains x then dedupFirstAux seen xs
    else x :: dedupFirstAux (x :: seen) xs

/-- First-occurrence deduplication (Cypher `COLLECT(DISTINCT ...)`). -/
def dedupFirst (l : List String) : List String :=
  dedupFirstAux [] l

/-- A row of `get_action_items_by_person`. -/
structure ActionRow where
  task : String
  dueDate : String
  priority : String
  status : String
  meetingId : String
  meetingTitle : String
  meetingDate : String
deriving DecidableEq, Repr

/-- `ORDER BY a.priority DESC, a.dueDate`: priority strings descending
lexicographically, then due date ascending. -/
def actionRowLe (x y : ActionRow) : Bool :=
  strLt y.priority x.priority
    || (x.priority == y.priority && !strLt y.dueDate x.dueDate)

/-- One output row from an action item and its owning meeting. -/
def aipRow (a : ActionItemNode) (me : MeetingNode) : ActionRow :=
  ⟨a.task, a.dueDate, a.priority, a.status, me.meetingId, me.title, me.meetingDate⟩

/-- The `(m:Meeting {tenantId})-[:HAS_ACTION_ITEM]->(a)` part of the
`get_action_items_by_person` pattern, for the ActionItem node `aid`/`a`. -/
def aipMeetings (tenant : String) (g : Graph) (a : ActionItemNode)
    (aid : NodeId) : List ActionRow :=
  g.hasActionItem.flatMap (fun hd =>
    if hd.2 == aid then
      g.meetings.flatMap (fun me =>
        if me.1 == hd.1 && me.2.tenantId == some tenant then [aipRow a me.2]
        else [])
    else [])

/-- The `-[:ASSIGNED_TO]->(a:ActionItem {tenantId})` part, for person `pid`. -/
def aipActions (tenant : String) (g : Graph) (pid : NodeId) : List ActionRow :=
  g.assignedTo.flatMap (fun ed =>
    if ed.1 == pid then
      g.actions.flatMap (fun ae =>
        if ae.1 == ed.2 && ae.2.tenantId == some tenant then
          aipMeetings tenant g ae.2 ae.1
        else [])
    else [])

/-- The row set of the `get_action_items_by_person` Cypher
(neo4j_service.py:370-382): `(p:Person {name, tenantId})-[:ASSIGNED_TO]->
(a:ActionItem {tenantId})`, `(m:Meeting {tenantId})-[:HAS_ACTION_ITEM]->(a)`. -/
def actionRowsUnsorted (tenant name : String) (g : Graph) : List ActionRow :=
  g.persons.flatMap (fun pe =>
    if pe.2.name == some name && pe.2.tenantId == some tenant then
      aipActions tenant g pe.1
    else [])

/-- `get_action_items_by_person` (neo4j_service.py:358-392). -/
def get_action_items_by_person (tenant name : String) (g : Graph)
    (fail : Bool) : List ActionRow :=
  if fail then []
  else sortLe actionRowLe (actionRowsUnsorted tenant name g)

/-- A row of `get_meetings_by_project` / `search_meetings`. -/
structure MeetingRow where
  meetingId : String
  title : String
  summary : String
  meetingDate : String
  sentiment : String
  processingTimestamp : String
deriving DecidableEq, Repr

/-- `ORDER BY m.processingTimestamp DESC`. -/
def meetingRowLe (x y : MeetingRow) : Bool :=
  !strLt x.processingTimestamp y.processingTimestamp

/-- The meeting projection row. -/
def meetingRowOf (me : MeetingNode) : MeetingRow :=
  ⟨me.meetingId, me.title, me.summary, me.meetingDate, me.sentiment,
   me.processingTimestamp⟩

/-- The `-[:RELATES_TO_PROJECT]->(p:Project {name, tenantId})` part of the
`get_meetings_by_project` pattern, for meeting node `mi`. -/
def mbpProjects (tenant name : String) (g : Graph) (mi : NodeId)
    (me : MeetingNode) : List MeetingRow :=
  g.relatesToProject.flatMap (fun ed =>
    if ed.1 == mi then
      g.projects.flatMap (fun pe =>
        if pe.1 == ed.2 && pe.2.name == name && pe.2.tenantId == some tenant then
          [meetingRowOf me]
        else [])
    else [])

/-- `get_meetings_by_project` (neo4j_service.py:394-423). -/
def get_meetings_by_project (tenant name : String) (g : Graph)
    (fail : Bool) : List MeetingRow :=
  if fail then []
  else
    sortLe meetingRowLe (g.meetings.flatMap (fun me =>
      if me.2.tenantId == some tenant then mbpProjects tenant name g me.1 me.2
      else []))

/-- A row of `get_client_relationships`. -/
structure ClientRow where
  clientName : String
  meetingCount : Nat
  recentMeetings : List String
deriving DecidableEq, Repr

/-- The `<-[:DISCUSSED_CLIENT]-(m:Meeting {tenantId})` part of the
`get_client_relationships` pattern, for client node `ci` named `cname`. -/
def crMeetings (tenant cname : String) (g : Graph) (ci : NodeId) :
    List (String × String) :=
  g.discussedClient.flatMap (fun ed =>
    if ed.2 == ci then
      g.meetings.flatMap (fun me =>
        if me.1 == ed.1 && me.2.tenantId == some tenant then
          [(cname, me.2.title)]
        else [])
    else [])

/-- The `(client name, meeting title)` pairs underlying the
`get_client_relationships` aggregation (one per matched
`(c)<-[:DISCUSSED_CLIENT]-(m)` row). -/
def clientPairs (tenant : String) (nameFilter : Option String) (g : Graph) :
    List (String × String) :=
  g.clients.flatMap (fun ce =>
    if (match nameFilter with
        | some n => ce.2.name == n
        | none => true) && ce.2.tenantId == some tenant then
      crMeetings tenant ce.2.name g ce.1
    else [])

/-- Aggregate the pairs by client name (Cypher implicit grouping by the
non-aggregated `c.name`), with `count(m)` and `collect(m.title)[0..5]`. -/
def groupClientRows (pairs : List (String × String)) : List ClientRow :=
  (dedupFirst (pairs.map (fun p => p.1))).map (fun n =>
    let titles := (pairs.filter (fun p => p.1 == n)).map (fun p => p.2)
    ⟨n, titles.length, titles.take 5⟩)

/-- `ORDER BY meetingCount DESC` of the all-clients variant. -/
def clientRowLe (x y : ClientRow) : Bool :=
  y.meetingCount ≤ x.meetingCount

/-- `get_client_relationships` (neo4j_service.py:425-463): with a name, a
single aggregate row (no row at all if the client is unknown or unlinked);
without, one aggregate row per client ordered by meeting count descending. -/
def get_client_relationships (tenant : String) (nameFilter : Option String)
    (g : Graph) (fail : Bool) : List ClientRow :=
  if fail then []
  else
    match nameFilter with
    | some _ => groupClientRows (clientPairs tenant nameFilter g)
    | none => sortLe clientRowLe (groupClientRows (clientPairs tenant none g))

/-- `search_meetings` (neo4j_service.py:510-544): case-sensitive `CONTAINS`
over title/summary/transcript, ordered by recency, capped at `limit`. -/
def search_meetings (tenant term : String) (limit : Nat) (g : Graph)
    (fail : Bool) : List MeetingRow :=
  if fail then []
  else
    (sortLe meetingRowLe (g.meetings.flatMap (fun me =>
      if me.2.tenantId == some tenant
          && (strContains me.2.title term || strContains me.2.summary term
              || strContains me.2.transcript term) then
        [⟨me.2.meetingId, me.2.title, me.2.summary, me.2.meetingDate,
          me.2.sentiment, me.2.processingTimestamp⟩]
      else []))).take limit

/-- The zero-filled summary dictionary. -/
def zeroSummary : List (String × Nat) :=
  [("meetings", 0), ("people", 0), ("clients", 0),
   ("projects", 0), ("actionItems", 0), ("decisions", 0)]

/-- `get_knowledge_graph_summary` (neo4j_service.py:465-508).  The chained
`MATCH ... WITH ..., count(...)` produces no row as soon as one of the
grouped aggregations runs over zero rows (any label after the first with no
tenant node); `result.single()` is then `None` and the code returns the
zero-filled dictionary.  On a backend error the `except` branch returns the
empty dictionary. -/
def get_knowledge_graph_summary (tenant : String) (g : Graph) (fail : Bool) :
    List (String × Nat) :=
  if fail then []
  else
    let cMe := (g.meetings.filter (fun x => x.2.tenantId == some tenant)).length
    let cPe := (g.persons.filter (fun x => x.2.tenantId == some tenant)).length
    let cCl := (g.clients.filter (fun x => x.2.tenantId == some tenant)).length
    let cPr := (g.projects.filter (fun x => x.2.tenantId == some tenant)).length
    let cAc := (g.actions.filter (fun x => x.2.tenantId == some tenant)).length
    let cDe := (g.decisionNodes.filter (fun x => x.2.tenantId == some tenant)).length
    if cPe == 0 || cCl == 0 || cPr == 0 || cAc == 0 || cDe == 0 then zeroSummary
    else
      [("meetings", cMe), ("people", cPe), ("clients", cCl),
       ("projects", cPr), ("actionItems", cAc), ("decisions", cDe)]

/-- A row of `get_historical_context`. -/
structure HistRow where
  meetingTitle : String
  date : String
  summary : String
  decisions : List String
  actionItems : List String
deriving DecidableEq, Repr

/-- The Cypher of `get_historical_context` reads `d.decision`, but Decision
nodes are created with the text under `description` and no `decision`
property — so the read is always null. -/
def decisionPropDecision (_ : DecisionNode) : Option String := none

/-- `ORDER BY m.meetingDate DESC`. -/
def histRowLe (x y : HistRow) : Bool :=
  !strLt x.date y.date

/-- The `OPTIONAL MATCH (m)-[:HAS_DECISION]->(d:Decision {tenantId})` rows
of `get_historical_context`, for meeting node `mi`. -/
def histDecNodes (tenant : String) (g : Graph) (mi : NodeId) :
    List DecisionNode :=
  g.hasDecision.flatMap (fun ed =>
    if ed.1 == mi then
      g.decisionNodes.flatMap (fun de =>
        if de.1 == ed.2 && de.2.tenantId == some tenant then [de.2] else [])
    else [])

/-- The `OPTIONAL MATCH (m)-[:HAS_ACTION_ITEM]->(a:ActionItem {tenantId})`
task collection of `get_historical_context`, for meeting node `mi`. -/
def histTasks (tenant : String) (g : Graph) (mi : NodeId) : List String :=
  g.hasActionItem.flatMap (fun ed =>
    if ed.1 == mi then
      g.actions.flatMap (fun ae =>
        if ae.1 == ed.2 && ae.2.tenantId == some tenant then [ae.2.task] else [])
    else [])

/-- The query of `get_historical_context` (neo4j_tools.py:205-217):
meetings whose transcript contains the topic and whose `meetingDate >=`
the cutoff string, each aggregating `COLLECT(DISTINCT d.decision)` and
`COLLECT(DISTINCT a.task)` over the optional matches (Cypher `COLLECT`
drops nulls), ordered by date descending, `LIMIT 5`. -/
def get_historical_context (tenant topic cutoff : String) (g : Graph) :
    List HistRow :=
  (sortLe histRowLe (g.meetings.flatMap (fun me =>
    if me.2.tenantId == some tenant && strContains me.2.transcript topic
        && strGe me.2.meetingDate cutoff then
      [⟨me.2.title, me.2.meetingDate, me.2.summary,
        dedupFirst ((histDecNodes tenant g me.1).filterMap decisionPropDecision),
        dedupFirst (histTasks tenant g me.1)⟩]
    else []))).take 5

/-! ## Tenant restriction and well-formedness -/

/-- Does the node list `l` hold id `i` with `tenantId = t` (seen through the
tenant accessor `tid`)? -/
def keptIn {α : Type} (tid : α → Option String) (t : String)
    (l : List (NodeId × α)) (i : NodeId) : Bool :=
  l.any (fun x => x.1 == i && tid x.2 == some t)

/-- Is node id `i` a tenant-`t` Meeting node of `g`? -/
def keptMeeting (t : String) (g : Graph) (i : NodeId) : Bool :=
  keptIn MeetingNode.tenantId t g.meetings i

/-- Is node id `i` a tenant-`t` ActionItem node of `g`? -/
def keptAction (t : String) (g : Graph) (i : NodeId) : Bool :=
  keptIn ActionItemNode.tenantId t g.actions i

/-- Is node id `i` a tenant-`t` Decision node of `g`? -/
def keptDecision (t : String) (g : Graph) (i : NodeId) : Bool :=
  keptIn DecisionNode.tenantId t g.decisionNodes i

/-- Is node id `i` a tenant-`t` Person node of `g`? -/
def keptPerson (t : String) (g : Graph) (i : NodeId) : Bool :=
  keptIn PersonNode.tenantId t g.persons i

/-- Is node id `i` a tenant-`t` Client node of `g`? -/
def keptClient (t : String) (g : Graph) (i : NodeId) : Bool :=
  keptIn NamedEntity.tenantId t g.clients i

/-- Is node id `i` a tenant-`t` Project node of `g`? -/
def keptProject (t : String) (g : Graph) (i : NodeId) : Bool :=
  keptIn NamedEntity.tenantId t g.projects i

/-- The tenant-`t` view of the graph: the nodes carrying `tenantId = t` and
the relationships both of whose endpoints are such nodes.  Every tenant-`t`
query reads only this view. -/
def restrict (t : String) (g : Graph) : Graph :=
  { nextId := 0
  , meetings := g.meetings.filter (fun x => x.2.tenantId == some t)
  , actions := g.actions.filter (fun x => x.2.tenantId == some t)
  , decisionNodes := g.decisionNodes.filter (fun x => x.2.tenantId == some t)
  , persons := g.persons.filter (fun x => x.2.tenantId == some t)
  , clients := g.clients.filter (fun x => x.2.tenantId == some t)
  , projects := g.projects.filter (fun x => x.2.tenantId == some t)
  , hasActionItem :=
      g.hasActionItem.filter (fun e => keptMeeting t g e.1 && keptAction t g e.2)
  , hasDecision :=
      g.hasDecision.filter (fun e => keptMeeting t g e.1 && keptDecision t g e.2)
  , assignedTo :=
      g.assignedTo.filter (fun e => keptPerson t g e.1 && keptAction t g e.2)
  , discussedClient :=
      g.discussedClient.filter (fun e => keptMeeting t g e.1 && keptClient t g e.2)
  , relatesToProject :=
      g.relatesToProject.filter (fun e => keptMeeting t g e.1 && keptProject t g e.2) }

/-- Well-formedness of a graph state: every node id and every relationship
endpoint id is below the allocator, and each label's node ids are distinct.
`Graph.empty` is well-formed and every write operation preserves this. -/
structure WF (g : Graph) : Prop where
  m_lt : ∀ p ∈ g.meetings, p.1 < g.nextId
  a_lt : ∀ p ∈ g.actions, p.1 < g.nextId
  d_lt : ∀ p ∈ g.decisionNodes, p.1 < g.nextId
  p_lt : ∀ p ∈ g.persons, p.1 < g.nextId
  c_lt : ∀ p ∈ g.clients, p.1 < g.nextId
  pr_lt : ∀ p ∈ g.projects, p.1 < g.nextId
  hai_lt : ∀ e ∈ g.hasActionItem, e.1 < g.nextId ∧ e.2 < g.nextId
  hd_lt : ∀ e ∈ g.hasDecision, e.1 < g.nextId ∧ e.2 < g.nextId
  at_lt : ∀ e ∈ g.assignedTo, e.1 < g.nextId ∧ e.2 < g.nextId
  dc_lt : ∀ e ∈ g.discussedClient, e.1 < g.nextId ∧ e.2 < g.nextId
  rp_lt : ∀ e ∈ g.relatesToProject, e.1 < g.nextId ∧ e.2 < g.nextId
  nd_m : (g.meetings.map (fun x => x.1)).Nodup
  nd_a : (g.actions.map (fun x => x.1)).Nodup
  nd_d : (g.decisionNodes.map (fun x => x.1)).Nodup
  nd_p : (g.persons.map (fun x => x.1)).Nodup
  nd_c : (g.clients.map (fun x => x.1)).Nodup
  nd_pr : (g.projects.map (fun x => x.1)).Nodup

/-- Number of Client nodes with the given `(name, tenantId)` key. -/
def countClient (g : Graph) (name t : String) : Nat :=
  (g.clients.filter (fun ce => ce.2.name == name && ce.2.tenantId == some t)).length

/-- Number of Project nodes with the given `(name, tenantId)` key. -/
def countProject (g : Graph) (name t : String) : Nat :=
  (g.projects.filter (fun pe => pe.2.name == name && pe.2.tenantId == some t)).length

/-- The Cypher `MERGE` key of a Client or Project node: `(name, tenantId)`. -/
def entKey (name t : String) : NodeId × NamedEntity → Bool :=
  fun ce => ce.2.name == name && ce.2.tenantId == some t

/-- Multiplicity of the relationship `e` in the edge list `es`. -/
def edgeCount (es : List (NodeId × NodeId)) (e : NodeId × NodeId) : Nat :=
  (es.filter (fun x => x == e)).length

/-- The allocator bounds the client-merge loop relies on. -/
def clB (g : Graph) : Prop :=
  (∀ p ∈ g.clients, p.1 < g.nextId) ∧ (∀ e ∈ g.discussedClient, e.2 < g.nextId)

/-- The allocator bounds the project-merge loop relies on. -/
def prB (g : Graph) : Prop :=
  (∀ p ∈ g.projects, p.1 < g.nextId)
  ∧ (∀ e ∈ g.relatesToProject, e.2 < g.nextId)

/-- `ci` is the id of the one Client node keyed `(c, t)`, and no other
Client row reuses the id. -/
def clientUnique (c t : String) (ci : NodeId) (g : Graph) : Prop :=
  ci < g.nextId
  ∧ g.clients.filter (entKey c t) = [(ci, (⟨c, some t⟩ : NamedEntity))]
  ∧ (∀ ce ∈ g.clients, ce.1 = ci → ce.2 = (⟨c, some t⟩ : NamedEntity))

/-- `pj` is the id of the one Project node keyed `(q, t)`, and no other
Project row reuses the id. -/
def projectUnique (q t : String) (pj : NodeId) (g : Graph) : Prop :=
  pj < g.nextId
  ∧ g.projects.filter (entKey q t) = [(pj, (⟨q, some t⟩ : NamedEntity))]
  ∧ (∀ pe ∈ g.projects, pe.1 = pj → pe.2 = (⟨q, some t⟩ : NamedEntity))

/-! ## Concrete scenarios used by witnesses and counterexamples -/

/-- Five decisions; used to force a mid-transaction failure. -/
def payFiveDecisions : Analysis :=
  { Analysis.blank with
      meetingId := some "m"
    , tenantId := some "t1"
    , keyDecisions := ["d1", "d2", "d3", "d4", "d5"] }

/-- Fault oracle failing the fourth `tx.run` — the third decision write
(step 0 is the Meeting `CREATE`). -/
def faultStep3 : Nat → Bool := fun n => n == 3

/-- Four action items for Bob with the four priority values. -/
def payloadBob : Analysis :=
  { Analysis.blank with
      meetingId := some "m1"
    , tenantId := some "t1"
    , meetingTitle := some "Sprint"
    , actionItems := [
        ⟨some "t-high", some "Bob", none, some "high", none, none, none, none⟩,
        ⟨some "t-med", some "Bob", none, some "medium", none, none, none, none⟩,
        ⟨some "t-low", some "Bob", none, some "low", none, none, none, none⟩,
        ⟨some "t-none", some "Bob", none, none, none, none, none, none⟩] }

/-- The graph after storing `payloadBob` on an empty database. -/
def gBob : Graph :=
  (store_meeting_data noFault "ts" payloadBob Graph.empty).2

/-- Tenant-A meeting mentioning client "Acme". -/
def payloadAcmeA : Analysis :=
  { Analysis.blank with
      meetingId := some "mA"
    , tenantId := some "tenantA"
    , meetingTitle := some "Meeting A"
    , mentionedClients := ["Acme"] }

/-- Tenant-B meeting mentioning client "Acme". -/
def payloadAcmeB : Analysis :=
  { Analysis.blank with
      meetingId := some "mB"
    , tenantId := some "tenantB"
    , meetingTitle := some "Meeting B"
    , mentionedClients := ["Acme"] }

/-- The graph after tenant A stored its Acme meeting. -/
def gAcmeA : Graph :=
  (store_meeting_data noFault "ts" payloadAcmeA Graph.empty).2

/-- The live-meeting tool payload: no `tenantId` key at all, one client. -/
def payloadLive : Analysis :=
  { Analysis.blank with
      meetingId := some "live_1"
    , meetingTitle := some "Live"
    , mentionedClients := ["Acme"] }

/-- First Sarah meeting: assignee "Sarah", canonical attendee with email. -/
def paySarah1 : Analysis :=
  { Analysis.blank with
      meetingId := some "s1"
    , tenantId := some "t1"
    , actionItems := [⟨some "draft", some "Sarah", none, none, none, none, none,
        some "Engineer"⟩]
    , inviteMetadata := some ⟨some [⟨some "Sarah Connor", some "sarah@x.com"⟩]⟩ }

/-- Second Sarah meeting: assignee "Sarah Connor", same attendee list. -/
def paySarah2 : Analysis :=
  { Analysis.blank with
      meetingId := some "s2"
    , tenantId := some "t1"
    , actionItems := [⟨some "review", some "Sarah Connor", none, none, none, none,
        none, some "Manager"⟩]
    , inviteMetadata := some ⟨some [⟨some "Sarah Connor", some "sarah@x.com"⟩]⟩ }

/-- Graph after the first Sarah meeting. -/
def gSarah1 : Graph :=
  (store_meeting_data noFault "ts1" paySarah1 Graph.empty).2

/-- Graph after both Sarah meetings. -/
def gSarah2 : Graph :=
  (store_meeting_data noFault "ts2" paySarah2 gSarah1).2

/-- A meeting with a decision, in the historical-context window. -/
def payHist : Analysis :=
  { Analysis.blank with
      meetingId := some "h1"
    , tenantId := some "t1"
    , meetingTitle := some "Arch sync"
    , meetingDate := some "2099-01-01"
    , transcript := some "we chose Postgres"
    , keyDecisions := ["Use Postgres"] }

/-- Graph after storing `payHist`. -/
def gHist : Graph :=
  (store_meeting_data noFault "ts" payHist Graph.empty).2

/-- An analysis with every optional field absent (tests the defaults). -/
def payDefaults : Analysis :=
  { Analysis.blank with meetingId := some "md", tenantId := some "t1" }

/-- First meeting mentioning client "Acme" and project "Phoenix". -/
def payCP1 : Analysis :=
  { Analysis.blank with
      meetingId := some "c1"
    , tenantId := some "t1"
    , mentionedClients := ["Acme"]
    , mentionedProjects := ["Phoenix"] }

/-- Second meeting mentioning the same client and project (the client name
even twice in one payload). -/
def payCP2 : Analysis :=
  { Analysis.blank with
      meetingId := some "c2"
    , tenantId := some "t1"
    , mentionedClients := ["Acme", "Acme"]
    , mentionedProjects := ["Phoenix"] }

/-- Graph after `payCP1`. -/
def gCP1 : Graph :=
  (store_meeting_data noFault "ts" payCP1 Graph.empty).2

/-- Graph after `payCP1` then `payCP2`. -/
def gCP2 : Graph :=
  (store_meeting_data noFault "ts" payCP2 gCP1).2

/-- A graph holding one email-keyed Person with a set name and role. -/
def gC5 : Graph :=
  { Graph.empty with
      nextId := 1
    , persons := [(0, ⟨some "e@x", some "Old", some "Engineer", some "t",
        none, none⟩)] }

/-- The graph after a second email-keyed merge against `gC5` with a fresh
display name and role. -/
def gC5after : Graph :=
  match mergePersonEmailOp (some "t") "e@x" "New" "Manager" "now2" "a0" gC5 with
  | .ok g => g
  | .error _ => Graph.empty

/-- Graph after storing `payDefaults`. -/
def gDefaults : Graph :=
  (store_meeting_data noFault "ts" payDefaults Graph.empty).2

/-- The graph after tenant B also stored its Acme meeting. -/
def gAcmeB : Graph :=
  (store_meeting_data noFault "ts" payloadAcmeB gAcmeA).2

/-- A payload with no `tenantId` key and only a decision (no Person, Client
or Project merge): the one shape of tenant-less payload the write path
accepts. -/
def payNullDec : Analysis :=
  { Analysis.blank with meetingId := some "n1", keyDecisions := ["ship it"] }

/-- Graph after storing `payNullDec` on an empty database. -/
def gNullDec : Graph :=
  (store_meeting_data noFault "ts" payNullDec Graph.empty).2

/-! ## Generic list and fold lemmas -/

theorem flatMap_nil_of {α β : Type} {l : List α} {f : α → List β}
    (h : ∀ x ∈ l, f x = []) : l.flatMap f = [] := by
  simp [List.flatMap_eq_nil_iff]; exact h

theorem flatMap_congr_mem {α β : Type} {l : List α} {f f' : α → List β}
    (h : ∀ x ∈ l, f x = f' x) : l.flatMap f = l.flatMap f' := by
  induction l with
  | nil => rfl
  | cons a l ih =>
    simp only [List.flatMap_cons]
    rw [h a (by simp), ih (fun x hx => h x (by simp [hx]))]

theorem filter_flatMap_of {α β : Type} {l : List α} {f : α → List β} {q : α → Bool}
    (h : ∀ x ∈ l, q x = false → f x = []) :
    (l.filter q).flatMap f = l.flatMap f := by
  induction l with
  | nil => rfl
  | cons a l ih =>
    by_cases hq : q a
    · rw [List.filter_cons_of_pos hq]
      simp only [List.flatMap_cons]
      rw [ih (fun x hx hfx => h x (by simp [hx]) hfx)]
    · rw [List.filter_cons_of_neg hq]
      simp only [List.flatMap_cons]
      rw [h a (by simp) (by simpa using hq), ih (fun x hx hfx => h x (by simp [hx]) hfx)]
      rfl

theorem foldl_graph_pres {α β : Type} (f : Graph → α → Graph) (proj : Graph → β)
    (h : ∀ g a, proj (f g a) = proj g) :
    ∀ (l : List α) (g : Graph), proj (List.foldl f g l) = proj g := by
  intro l
  induction l with
  | nil => intro g; rfl
  | cons a l ih => intro g; rw [List.foldl_cons, ih, h]

theorem foldRows_pres {β : Type} (f : NodeId → Graph → Except DbErr Graph)
    (proj : Graph → β)
    (h : ∀ m g g', f m g = .ok g' → proj g' = proj g) :
    ∀ (ms : List NodeId) (g g' : Graph), foldRows f ms g = .ok g' → proj g' = proj g := by
  intro ms
  induction ms with
  | nil => intro g g' hr; cases hr; rfl
  | cons m ms ih =>
    intro g g' hr
    unfold foldRows at hr
    cases hf : f m g with
    | error e => rw [hf] at hr; cases hr
    | ok g1 => rw [hf] at hr; rw [ih g1 g' hr, h m g g1 hf]

theorem txRun_pure_ok {fault : Nat → Bool} {n : Nat} {g : Graph}
    {op : Graph → Graph} {p : Nat × Graph}
    (h : txRun fault n g (fun x => .ok (op x)) = .ok p) : p = (n + 1, op g) := by
  unfold txRun at h
  by_cases hf : fault n
  · simp [hf] at h
  · simp [hf] at h; exact h.symm

theorem txRun_ok_inv {fault : Nat → Bool} {n : Nat} {g : Graph}
    {f : Graph → Except DbErr Graph} {p : Nat × Graph}
    (h : txRun fault n g f = .ok p) : ∃ g', f g = .ok g' ∧ p = (n + 1, g') := by
  unfold txRun at h
  by_cases hf : fault n
  · simp [hf] at h
  · simp only [hf, if_false, Bool.false_eq_true] at h
    cases hfg : f g with
    | error e => rw [hfg] at h; cases h
    | ok g' => rw [hfg] at h; exact ⟨g', rfl, by cases h; rfl⟩

/-! ## Frame lemmas: which fields each write step leaves untouched -/

/-- Fields untouched by the action-item loop. -/
def projItems (g : Graph) :
    List (NodeId × MeetingNode) × List (NodeId × DecisionNode)
      × List (NodeId × NodeId) × List (NodeId × NamedEntity)
      × List (NodeId × NodeId) × List (NodeId × NamedEntity)
      × List (NodeId × NodeId) :=
  (g.meetings, g.decisionNodes, g.hasDecision, g.clients, g.discussedClient,
   g.projects, g.relatesToProject)

/-- Fields untouched by the decision loop. -/
def projDecs (g : Graph) :
    List (NodeId × MeetingNode) × List (NodeId × ActionItemNode)
      × List (NodeId × NodeId) × List (NodeId × PersonNode)
      × List (NodeId × NodeId) × List (NodeId × NamedEntity)
      × List (NodeId × NodeId) × List (NodeId × NamedEntity)
      × List (NodeId × NodeId) :=
  (g.meetings, g.actions, g.hasActionItem, g.persons, g.assignedTo,
   g.clients, g.discussedClient, g.projects, g.relatesToProject)

/-- Fields untouched by the client loop. -/
def projClients (g : Graph) :
    List (NodeId × MeetingNode) × List (NodeId × ActionItemNode)
      × List (NodeId × NodeId) × List (NodeId × PersonNode)
      × List (NodeId × NodeId) × List (NodeId × DecisionNode)
      × List (NodeId × NodeId) × List (NodeId × NamedEntity)
      × List (NodeId × NodeId) :=
  (g.meetings, g.actions, g.hasActionItem, g.persons, g.assignedTo,
   g.decisionNodes, g.hasDecision, g.projects, g.relatesToProject)

/-- Fields untouched by the project loop. -/
def projProjects (g : Graph) :
    List (NodeId × MeetingNode) × List (NodeId × ActionItemNode)
      × List (NodeId × NodeId) × List (NodeId × PersonNode)
      × List (NodeId × NodeId) × List (NodeId × DecisionNode)
      × List (NodeId × NodeId) × List (NodeId × NamedEntity)
      × List (NodeId × NodeId) :=
  (g.meetings, g.actions, g.hasActionItem, g.persons, g.assignedTo,
   g.decisionNodes, g.hasDecision, g.clients, g.discussedClient)

theorem createActionOp_projItems (τ : Option String) (mid : String) (idx : Nat)
    (item : ActionItemInput) (g : Graph) :
    projItems (createActionOp τ mid idx item g) = projItems g := by
  unfold createActionOp
  exact foldl_graph_pres
    (fun g' m => createActionRow (actionNodeOf τ mid idx item) m g') projItems
    (fun _ _ => rfl) _ g

theorem linkAssigned_projItems (aid : String) (pid : NodeId) (g : Graph) :
    projItems (linkAssigned aid pid g) = projItems g := rfl

theorem mergePersonEmailOp_projItems {τ : Option String}
    {email name role now aid : String} {g g' : Graph}
    (h : mergePersonEmailOp τ email name role now aid g = .ok g') :
    projItems g' = projItems g := by
  unfold mergePersonEmailOp at h
  cases τ with
  | none => cases h
  | some t =>
    simp only at h
    split at h
    · cases h
      rfl
    · cases h
      rw [foldl_graph_pres (fun g2 (pe : NodeId × PersonNode) => linkAssigned aid pe.1 g2)
        projItems (fun _ _ => rfl)]
      rfl

theorem mergePersonNameOp_projItems {τ : Option String} {name aid : String}
    {g g' : Graph}
    (h : mergePersonNameOp τ name aid g = .ok g') :
    projItems g' = projItems g := by
  unfold mergePersonNameOp at h
  cases τ with
  | none => cases h
  | some t =>
    simp only at h
    split at h
    · cases h
      rfl
    · cases h
      rw [foldl_graph_pres (fun g2 (pe : NodeId × PersonNode) => linkAssigned aid pe.1 g2)
        projItems (fun _ _ => rfl)]

theorem runItems_frame {fault : Nat → Bool} {τ : Option String}
    {atts : List Attendee} {mid now : String} :
    ∀ {items : List ActionItemInput} {idx n : Nat} {g : Graph} {n' : Nat} {g' : Graph},
    runItems fault τ atts mid now idx n items g = .ok (n', g') →
    projItems g' = projItems g := by
  intro items
  induction items with
  | nil =>
    intro idx n g n' g' h
    unfold runItems at h
    cases h
    rfl
  | cons item rest ih =>
    intro idx n g n' g' h
    unfold runItems at h
    cases htx : txRun fault n g
        (fun g'' => .ok (createActionOp τ mid idx item g'')) with
    | error e => rw [htx] at h; cases h
    | ok p =>
      rw [htx] at h
      have hp := txRun_pure_ok htx
      subst hp
      simp only at h
      split at h
      · cases htx2 : txRun fault (n + 1) (createActionOp τ mid idx item g)
            (fun g'' =>
              match (resolveAssignee (item.assignee.getD "unassigned") atts).1 with
              | some email =>
                mergePersonEmailOp τ email
                  (resolveAssignee (item.assignee.getD "unassigned") atts).2
                  (item.assigneeRole.getD "") now (mid ++ "_action_" ++ toString idx) g''
              | none =>
                mergePersonNameOp τ
                  (resolveAssignee (item.assignee.getD "unassigned") atts).2
                  (mid ++ "_action_" ++ toString idx) g'') with
        | error e => rw [htx2] at h; cases h
        | ok p2 =>
          rw [htx2] at h
          obtain ⟨g2, hf, hp2⟩ := txRun_ok_inv htx2
          subst hp2
          have h2 : projItems g2 = projItems (createActionOp τ mid idx item g) := by
            cases hr : (resolveAssignee (item.assignee.getD "unassigned") atts).1 with
            | some email =>
              rw [hr] at hf
              exact mergePersonEmailOp_projItems hf
            | none =>
              rw [hr] at hf
              exact mergePersonNameOp_projItems hf
          rw [ih h, h2, createActionOp_projItems]
      · rw [ih h, createActionOp_projItems]

theorem createDecisionOp_projDecs (τ : Option String) (mid : String) (idx : Nat)
    (text : String) (g : Graph) :
    projDecs (createDecisionOp τ mid idx text g) = projDecs g := by
  unfold createDecisionOp
  exact foldl_graph_pres
    (fun g' m => createDecisionRow ⟨mid ++ "_decision_" ++ toString idx, τ, text⟩ m g')
    projDecs (fun _ _ => rfl) _ g

theorem runDecisions_frame {fault : Nat → Bool} {τ : Option String} {mid : String} :
    ∀ {texts : List String} {idx n : Nat} {g : Graph} {n' : Nat} {g' : Graph},
    runDecisions fault τ mid idx n texts g = .ok (n', g') →
    projDecs g' = projDecs g := by
  intro texts
  induction texts with
  | nil =>
    intro idx n g n' g' h
    unfold runDecisions at h
    cases h
    rfl
  | cons text rest ih =>
    intro idx n g n' g' h
    unfold runDecisions at h
    cases htx : txRun fault n g (fun g'' => .ok (createDecisionOp τ mid idx text g'')) with
    | error e => rw [htx] at h; cases h
    | ok p =>
      rw [htx] at h
      have hp := txRun_pure_ok htx
      subst hp
      rw [ih h, createDecisionOp_projDecs]

theorem mergeClientRow_projClients {τ : Option String} {name : String}
    {m : NodeId} {g g' : Graph}
    (h : mergeClientRow τ name m g = .ok g') :
    projClients g' = projClients g := by
  unfold mergeClientRow at h
  cases τ with
  | none => cases h
  | some t =>
    simp only at h
    split at h <;> cases h <;> rfl

theorem mergeClientOp_projClients {τ : Option String} {name mid : String}
    {g g' : Graph}
    (h : mergeClientOp τ name mid g = .ok g') :
    projClients g' = projClients g :=
  foldRows_pres _ projClients (fun _ _ _ hr => mergeClientRow_projClients hr)
    _ _ _ h

theorem runClients_frame {fault : Nat → Bool} {τ : Option String} {mid : String} :
    ∀ {names : List String} {n : Nat} {g : Graph} {n' : Nat} {g' : Graph},
    runClients fault τ mid n names g = .ok (n', g') →
    projClients g' = projClients g := by
  intro names
  induction names with
  | nil =>
    intro n g n' g' h
    unfold runClients at h
    cases h
    rfl
  | cons c rest ih =>
    intro n g n' g' h
    unfold runClients at h
    split at h
    · exact ih h
    · cases htx : txRun fault n g (mergeClientOp τ c mid) with
      | error e => rw [htx] at h; cases h
      | ok p =>
        rw [htx] at h
        obtain ⟨g1, hf, hp⟩ := txRun_ok_inv htx
        subst hp
        rw [ih h, mergeClientOp_projClients hf]

theorem mergeProjectRow_projProjects {τ : Option String} {name : String}
    {m : NodeId} {g g' : Graph}
    (h : mergeProjectRow τ name m g = .ok g') :
    projProjects g' = projProjects g := by
  unfold mergeProjectRow at h
  cases τ with
  | none => cases h
  | some t =>
    simp only at h
    split at h <;> cases h <;> rfl

theorem mergeProjectOp_projProjects {τ : Option String} {name mid : String}
    {g g' : Graph}
    (h : mergeProjectOp τ name mid g = .ok g') :
    projProjects g' = projProjects g :=
  foldRows_pres _ projProjects (fun _ _ _ hr => mergeProjectRow_projProjects hr)
    _ _ _ h

theorem runProjects_frame {fault : Nat → Bool} {τ : Option String} {mid : String} :
    ∀ {names : List String} {n : Nat} {g : Graph} {n' : Nat} {g' : Graph},
    runProjects fault τ mid n names g = .ok (n', g') →
    projProjects g' = projProjects g := by
  intro names
  induction names with
  | nil =>
    intro n g n' g' h
    unfold runProjects at h
    cases h
    rfl
  | cons c rest ih =>
    intro n g n' g' h
    unfold runProjects at h
    split at h
    · exact ih h
    · cases htx : txRun fault n g (mergeProjectOp τ c mid) with
      | error e => rw [htx] at h; cases h
      | ok p =>
        rw [htx] at h
        obtain ⟨g1, hf, hp⟩ := txRun_ok_inv htx
        subst hp
        rw [ih h, mergeProjectOp_projProjects hf]

/-- Inversion of a successful `storeTx` into its five stages. -/
theorem storeTx_inv {fault : Nat → Bool} {now mid : String} {a : Analysis}
    {g : Graph} {n' : Nat} {g' : Graph}
    (h : storeTx fault now mid a g = .ok (n', g')) :
    ∃ n1 g1 n2 g2 n3 g3 n4 g4,
      txRun fault 0 g (fun x => .ok (createMeetingOp now mid a x)) = .ok (n1, g1)
      ∧ (if a.actionItems.isEmpty then .ok (n1, g1)
         else runItems fault a.tenantId
           ((a.inviteMetadata.map (fun im => im.attendees.getD [])).getD [])
           mid now 0 n1 a.actionItems g1) = .ok (n2, g2)
      ∧ (if a.keyDecisions.isEmpty then .ok (n2, g2)
         else runDecisions fault a.tenantId mid 0 n2 a.keyDecisions g2) = .ok (n3, g3)
      ∧ (if a.mentionedClients.isEmpty then .ok (n3, g3)
         else runClients fault a.tenantId mid n3 a.mentionedClients g3) = .ok (n4, g4)
      ∧ (if a.mentionedProjects.isEmpty then .ok (n4, g4)
         else runProjects fault a.tenantId mid n4 a.mentionedProjects g4) = .ok (n', g') := by
  unfold storeTx at h
  cases h1 : txRun fault 0 g (fun x => .ok (createMeetingOp now mid a x)) with
  | error e => rw [h1] at h; cases h
  | ok p1 =>
    rw [h1] at h
    obtain ⟨n1, g1⟩ := p1
    simp only at h
    cases h2 : (if a.actionItems.isEmpty then (Except.ok (n1, g1) : Except DbErr (Nat × Graph))
        else runItems fault a.tenantId
          ((a.inviteMetadata.map (fun im => im.attendees.getD [])).getD [])
          mid now 0 n1 a.actionItems g1) with
    | error e => rw [h2] at h; cases h
    | ok p2 =>
      rw [h2] at h
      obtain ⟨n2, g2⟩ := p2
      simp only at h
      cases h3 : (if a.keyDecisions.isEmpty then (Except.ok (n2, g2) : Except DbErr (Nat × Graph))
          else runDecisions fault a.tenantId mid 0 n2 a.keyDecisions g2) with
      | error e => rw [h3] at h; cases h
      | ok p3 =>
        rw [h3] at h
        obtain ⟨n3, g3⟩ := p3
        simp only at h
        cases h4 : (if a.mentionedClients.isEmpty then (Except.ok (n3, g3) : Except DbErr (Nat × Graph))
            else runClients fault a.tenantId mid n3 a.mentionedClients g3) with
        | error e => rw [h4] at h; cases h
        | ok p4 =>
          rw [h4] at h
          obtain ⟨n4, g4⟩ := p4
          simp only at h
          cases h5 : (if a.mentionedProjects.isEmpty then (Except.ok (n4, g4) : Except DbErr (Nat × Graph))
              else runProjects fault a.tenantId mid n4 a.mentionedProjects g4) with
          | error e => rw [h5] at h; cases h
          | ok p5 =>
            rw [h5] at h
            obtain ⟨n5, g5⟩ := p5
            cases h
            exact ⟨n1, g1, n2, g2, n3, g3, n4, g4, rfl, h2, h3, h4, h5⟩

theorem ifStage_projItems {fault : Nat → Bool} {τ : Option String}
    {atts : List Attendee} {mid now : String} {c : Bool} {n1 n2 : Nat}
    {g1 g2 : Graph} {items : List ActionItemInput}
    (h : (if c then .ok (n1, g1)
          else runItems fault τ atts mid now 0 n1 items g1) = .ok (n2, g2)) :
    projItems g2 = projItems g1 := by
  cases c with
  | true => simp at h; rw [h.2]
  | false => simp at h; exact runItems_frame h

theorem ifStage_projDecs {fault : Nat → Bool} {τ : Option String} {mid : String}
    {c : Bool} {n1 n2 : Nat} {g1 g2 : Graph} {texts : List String}
    (h : (if c then .ok (n1, g1)
          else runDecisions fault τ mid 0 n1 texts g1) = .ok (n2, g2)) :
    projDecs g2 = projDecs g1 := by
  cases c with
  | true => simp at h; rw [h.2]
  | false => simp at h; exact runDecisions_frame h

theorem ifStage_projClients {fault : Nat → Bool} {τ : Option String} {mid : String}
    {c : Bool} {n1 n2 : Nat} {g1 g2 : Graph} {names : List String}
    (h : (if c then .ok (n1, g1)
          else runClients fault τ mid n1 names g1) = .ok (n2, g2)) :
    projClients g2 = projClients g1 := by
  cases c with
  | true => simp at h; rw [h.2]
  | false => simp at h; exact runClients_frame h

theorem ifStage_projProjects {fault : Nat → Bool} {τ : Option String} {mid : String}
    {c : Bool} {n1 n2 : Nat} {g1 g2 : Graph} {names : List String}
    (h : (if c then .ok (n1, g1)
          else runProjects fault τ mid n1 names g1) = .ok (n2, g2)) :
    projProjects g2 = projProjects g1 := by
  cases c with
  | true => simp at h; rw [h.2]
  | false => simp at h; exact runProjects_frame h

/-- A successful transaction appends exactly one Meeting node, built by
`meetingNodeOf`, at the pre-call allocator id. -/
theorem storeTx_meetings {fault : Nat → Bool} {now mid : String} {a : Analysis}
    {g : Graph} {n' : Nat} {g' : Graph}
    (h : storeTx fault now mid a g = .ok (n', g')) :
    g'.meetings = g.meetings ++ [(g.nextId, meetingNodeOf now mid a)] := by
  obtain ⟨n1, g1, n2, g2, n3, g3, n4, g4, h1, h2, h3, h4, h5⟩ := storeTx_inv h
  have e1 := txRun_pure_ok h1
  have hg1 : g1 = createMeetingOp now mid a g := congrArg Prod.snd e1
  have m2 : g2.meetings = g1.meetings := congrArg Prod.fst (ifStage_projItems h2)
  have m3 : g3.meetings = g2.meetings := congrArg Prod.fst (ifStage_projDecs h3)
  have m4 : g4.meetings = g3.meetings := congrArg Prod.fst (ifStage_projClients h4)
  have m5 : g'.meetings = g4.meetings := congrArg Prod.fst (ifStage_projProjects h5)
  rw [m5, m4, m3, m2, hg1]
  rfl

/-! ## Claim theorems -/

/-- C1: `store_meeting_data` wraps the whole ingestion in one write
transaction: whenever any step of the transaction raises an error — any
`tx.run` failed by the backend (arbitrary fault oracle) or an intrinsic
merge error — the call returns `false` and the graph is exactly the
pre-call graph, so no node or relationship from the call is visible. -/
theorem C1_store_rolls_back_on_error (fault : Nat → Bool) (now : String)
    (a : Analysis) (g : Graph) (mid : String) (e : DbErr)
    (hmid : a.meetingId = some mid) (hne : mid ≠ "")
    (herr : storeTx fault now mid a g = .error e) :
    store_meeting_data fault now a g = (false, g) := by
  unfold store_meeting_data
  rw [hmid]
  simp [hne, herr]

theorem C1_witness :
    store_meeting_data faultStep3 "ts" payFiveDecisions Graph.empty
      = (false, Graph.empty) :=
  C1_store_rolls_back_on_error faultStep3 "ts" payFiveDecisions Graph.empty
    "m" (.injected 3) rfl (by decide) (by rfl)

/-- C4 (code bug): the claim — and the specification — order action items
high → medium → low → unspecified; the code's `ORDER BY a.priority DESC`
sorts the priority strings reverse-lexicographically, which returns
unspecified → medium → low → high (high last).  Inserting the four
priorities in claim order yields the reversed order; an unknown person
still yields the empty list. -/
theorem C4_priority_order_eval :
    (get_action_items_by_person "t1" "Bob" gBob false).map
        (fun r => (r.task, r.priority))
      = [("t-none", "unspecified"), ("t-med", "medium"),
         ("t-low", "low"), ("t-high", "high")]
    ∧ get_action_items_by_person "t1" "Nobody" gBob false = [] := by
  constructor
  · rfl
  · rfl

/-- C9 (code bug): a stored meeting in the window, whose Decision node
carries the text under `description`, comes back from
`get_historical_context` with an empty `decisions` aggregate, because the
query collects the non-existent property `d.decision`. -/
theorem C9_historical_context_eval :
    get_historical_context "t1" "Postgres" "2000-01-01" gHist
      = [⟨"Arch sync", "2099-01-01", "", [], []⟩]
    ∧ gHist.decisionNodes
      = [(1, ⟨"h1_decision_0", some "t1", "Use Postgres"⟩)]
    ∧ gHist.hasDecision = [(0, 1)] := by
  refine ⟨rfl, rfl, rfl⟩

/-- C3 (counterexample): per the claim's criterion the attendee whose name
is the empty string case-insensitively "is contained in" every assignee, so
the first attendee `{name: "", email: "e@x.com"}` should match and give the
email merge key; the code skips empty-named attendees and falls back to the
name-only key `("Bob", tenantId)` with no email. -/
theorem C3_counterexample :
    specAttMatches "Bob" "" = true
    ∧ resolveAssignee "Bob" [⟨some "", some "e@x.com"⟩] = (none, "Bob") :=
  ⟨rfl, rfl⟩

/-- C3 (amended): attendee names and emails are stripped of surrounding
whitespace; an attendee whose stripped name is empty never matches; the
first attendee (in list order) whose non-empty stripped name
case-insensitively equals, contains or is contained in the assignee wins;
its stripped email (when non-empty) becomes the merge key and its stripped
name the display name; otherwise the key is the assignee string with no
email.  Consequently "Sarah" and a later "Sarah Connor" against the
canonical attendee {Sarah Connor, sarah@x.com} merge into one Person node
keyed by the email. -/
theorem C3_resolver_amended :
    (∀ (assignee : String) (atts : List Attendee),
      resolveAssignee assignee atts =
        match atts.find? (codeAttMatch assignee) with
        | some att =>
          ((if pyStrip (att.email.getD "") == "" then none
            else some (pyStrip (att.email.getD ""))),
           pyStrip (att.name.getD ""))
        | none => (none, assignee))
    ∧ gSarah2.persons
      = [(2, ⟨some "sarah@x.com", some "Sarah Connor", some "Manager",
          some "t1", some "ts1", some "ts2"⟩)] := by
  constructor
  · intro assignee atts
    unfold resolveAssignee
    induction atts with
    | nil => rfl
    | cons att rest ih =>
      unfold resolveGo
      dsimp only
      by_cases h1 : (pyStrip (att.name.getD "") == ""
          && pyStrip (att.email.getD "") == "") = true
      · have hn : (pyStrip (att.name.getD "") == "") = true := by
          exact (Bool.and_eq_true _ _ |>.mp h1).1
        have hp : codeAttMatch assignee att = false := by
          unfold codeAttMatch
          simp only [bne, hn]
          rfl
        rw [List.find?_cons_of_neg _ (by simp [hp]), h1]
        simpa using ih
      · by_cases h2 : (pyStrip (att.name.getD "") != ""
            && attMatches (pyLower assignee) (pyStrip (att.name.getD ""))) = true
        · have hp : codeAttMatch assignee att = true := h2
          rw [List.find?_cons_of_pos _ (by simp [hp])]
          simp only [Bool.not_eq_true] at h1
          rw [if_neg (by simp [h1]), if_pos h2]
        · have hp : codeAttMatch assignee att = false := by
            unfold codeAttMatch
            simpa using h2
          rw [List.find?_cons_of_neg _ (by simp [hp])]
          simp only [Bool.not_eq_true] at h1 h2
          rw [if_neg (by simp [h1]), if_neg (by simp [h2])]
          exact ih
  · rfl

/-- C5 (counterexample): after the first Sarah meeting the Person's role is
"Engineer"; the second meeting's merge overwrites it with "Manager" even
though it was already set — `coalesce($role, p.role)` prefers the incoming
(never-null) parameter. -/
theorem C5_counterexample :
    gSarah1.persons.map (fun pe => pe.2.role) = [some "Engineer"]
    ∧ gSarah2.persons.map (fun pe => pe.2.role) = [some "Manager"] :=
  ⟨rfl, rfl⟩

/-- C5 (amended): on an email-keyed match the merge sets
`name := coalesce(p.name, $name)` — a previously-set name is never
overwritten, a null name is filled — but `role := coalesce($role, p.role)`
with the never-null incoming role, so the stored role is always overwritten
by the current action item's `assigneeRole`; `lastSeenAt` is refreshed. -/
theorem C5_merge_update_amended (t email name role now aid : String)
    (g g' : Graph)
    (h : mergePersonEmailOp (some t) email name role now aid g = .ok g')
    (pe : NodeId × PersonNode) (hpe : pe ∈ g.persons)
    (hkey : pe.2.email = some email) (htenant : pe.2.tenantId = some t) :
    (pe.1,
      { pe.2 with
          name := some (pe.2.name.getD name)
        , role := some role
        , lastSeenAt := some now }) ∈ g'.persons
    ∧ (∀ n0, pe.2.name = some n0 → pe.2.name.getD name = n0)
    ∧ (pe.2.name = none → pe.2.name.getD name = name) := by
  have hmem : pe ∈ g.persons.filter
      (fun x => x.2.email == some email && x.2.tenantId == some t) := by
    rw [List.mem_filter]
    exact ⟨hpe, by simp [hkey, htenant]⟩
  unfold mergePersonEmailOp at h
  simp only at h
  split at h
  · rename_i hEmpty
    rw [List.isEmpty_iff] at hEmpty
    rw [hEmpty] at hmem
    cases hmem
  · cases h
    refine ⟨?_, ?_, ?_⟩
    · have hpp : ∀ (gacc : Graph) (l : List (NodeId × PersonNode)),
          (List.foldl (fun g2 pe2 => linkAssigned aid pe2.1 g2) gacc l).persons
            = gacc.persons := by
        intro gacc l
        exact foldl_graph_pres (fun g2 (pe2 : NodeId × PersonNode) =>
          linkAssigned aid pe2.1 g2) (fun x => x.persons) (fun _ _ => rfl) l gacc
      rw [hpp]
      simp only [List.mem_map]
      refine ⟨pe, hpe, ?_⟩
      rw [if_pos (by simp [hkey, htenant])]
    · intro n0 hn0; rw [hn0]; rfl
    · intro hn0; rw [hn0]; rfl

theorem C5_witness :
    (0, (⟨some "e@x", some "Old", some "Manager", some "t",
      none, some "now2"⟩ : PersonNode)) ∈ gC5after.persons :=
  (C5_merge_update_amended "t" "e@x" "New" "Manager" "now2" "a0" gC5 gC5after
    (by rfl) (0, ⟨some "e@x", some "Old", some "Engineer", some "t", none, none⟩)
    (by decide) rfl rfl).1

/-- C8 (counterexample): on a backend error `get_knowledge_graph_summary`
returns the empty dictionary, not the zero-filled one. -/
theorem C8_counterexample :
    get_knowledge_graph_summary "t1" Graph.empty true = []
    ∧ get_knowledge_graph_summary "t1" Graph.empty true ≠ zeroSummary :=
  ⟨rfl, by decide⟩

/-- C8 (amended): no public query method ever raises — on every backend
error the four list-returning methods return `[]` and
`get_knowledge_graph_summary` returns the empty dictionary; the zero-filled
dictionary is what the summary returns when the query succeeds but yields
no row (e.g. the tenant has no Person node). -/
theorem C8_queries_amended :
    (∀ (tenant name : String) (g : Graph),
      get_action_items_by_person tenant name g true = [])
    ∧ (∀ (tenant name : String) (g : Graph),
      get_meetings_by_project tenant name g true = [])
    ∧ (∀ (tenant : String) (nf : Option String) (g : Graph),
      get_client_relationships tenant nf g true = [])
    ∧ (∀ (tenant term : String) (limit : Nat) (g : Graph),
      search_meetings tenant term limit g true = [])
    ∧ (∀ (tenant : String) (g : Graph),
      get_knowledge_graph_summary tenant g true = [])
    ∧ (∀ (tenant : String) (g : Graph),
      (g.persons.filter (fun x => x.2.tenantId == some tenant)).length = 0 →
      get_knowledge_graph_summary tenant g false = zeroSummary) := by
  refine ⟨fun _ _ _ => rfl, fun _ _ _ => rfl, fun _ _ _ => rfl,
    fun _ _ _ _ => rfl, fun _ _ => rfl, fun tenant g h => ?_⟩
  simp [get_knowledge_graph_summary, h]

theorem C8_witness :
    get_knowledge_graph_summary "t1" Graph.empty false = zeroSummary :=
  C8_queries_amended.2.2.2.2.2 "t1" Graph.empty rfl

/-- C10 (counterexample): the live-meeting payload — no `tenantId` key —
mentioning client "Acme" is NOT written successfully: the Client `MERGE`
on the null tenant key raises and the whole transaction rolls back, so
`store_meeting_data` returns `false` and the graph is unchanged. -/
theorem C10_counterexample :
    payloadLive.tenantId = none
    ∧ store_meeting_data noFault "ts" payloadLive Graph.empty
      = (false, Graph.empty) :=
  ⟨rfl, rfl⟩

/-- Successful `store_meeting_data` with a present, non-empty meetingId ran
the transaction. -/
theorem store_ok_inv {fault : Nat → Bool} {now : String} {a : Analysis}
    {g g' : Graph} {mid : String}
    (hmid : a.meetingId = some mid)
    (hok : store_meeting_data fault now a g = (true, g')) :
    ∃ n', storeTx fault now mid a g = .ok (n', g') := by
  unfold store_meeting_data at hok
  rw [hmid] at hok
  dsimp only at hok
  by_cases hne : (mid == "") = true
  · rw [if_pos hne] at hok
    cases hok
  · rw [if_neg hne] at hok
    cases htx : storeTx fault now mid a g with
    | error e => rw [htx] at hok; cases hok
    | ok p =>
      rw [htx] at hok
      obtain ⟨n', g2⟩ := p
      cases hok
      exact ⟨n', rfl⟩

/-- C6: every analysis accepted by `store_meeting_data` produces exactly one
Meeting node built by `meetingNodeOf`, whose absent optional fields take the
documented defaults — `meetingDate` "unknown", `sentiment` "neutral",
`meetingType` "other", `urgencyLevel` "normal", `requiresFollowUp` false —
and whose transcript is the input transcript truncated to at most 10000
characters. -/
theorem C6_meeting_defaults (fault : Nat → Bool) (now : String) (a : Analysis)
    (g g' : Graph) (mid : String)
    (hmid : a.meetingId = some mid)
    (hok : store_meeting_data fault now a g = (true, g')) :
    g'.meetings = g.meetings ++ [(g.nextId, meetingNodeOf now mid a)]
    ∧ (a.meetingDate = none → (meetingNodeOf now mid a).meetingDate = "unknown")
    ∧ (a.sentiment = none → (meetingNodeOf now mid a).sentiment = "neutral")
    ∧ (a.meetingType = none → (meetingNodeOf now mid a).meetingType = "other")
    ∧ (a.metadata = none → (meetingNodeOf now mid a).urgencyLevel = "normal"
        ∧ (meetingNodeOf now mid a).requiresFollowUp = false)
    ∧ (meetingNodeOf now mid a).transcript = truncate10000 (a.transcript.getD "")
    ∧ (meetingNodeOf now mid a).transcript.data.length ≤ 10000 := by
  obtain ⟨n', htx⟩ := store_ok_inv hmid hok
  refine ⟨storeTx_meetings htx, ?_, ?_, ?_, ?_, rfl, ?_⟩
  · intro h; simp [meetingNodeOf, h]
  · intro h; simp [meetingNodeOf, h]
  · intro h; simp [meetingNodeOf, h]
  · intro h; constructor <;> simp [meetingNodeOf, h]
  · show (truncate10000 (a.transcript.getD "")).data.length ≤ 10000
    unfold truncate10000
    simp

theorem C6_witness :
    gDefaults.meetings
      = Graph.empty.meetings
        ++ [(Graph.empty.nextId, meetingNodeOf "ts" "md" payDefaults)] :=
  (C6_meeting_defaults noFault "ts" payDefaults Graph.empty gDefaults "md"
    rfl (by rfl)).1

/-! ## Helpers for the tenant-restriction proofs -/

theorem filter_concat_false {α : Type} {l : List α} {a : α} {p : α → Bool}
    (h : p a = false) : (l ++ [a]).filter p = l.filter p := by
  rw [List.filter_append]
  simp [h]

theorem any_concat_false {α : Type} {l : List α} {a : α} {q : α → Bool}
    (h : q a = false) : (l ++ [a]).any q = l.any q := by
  simp [h]

theorem any_congr_mem {α : Type} {l : List α} {p q : α → Bool}
    (h : ∀ x ∈ l, p x = q x) : l.any p = l.any q := by
  induction l with
  | nil => rfl
  | cons a l ih =>
    simp only [List.any_cons]
    rw [h a (by simp), ih (fun x hx => h x (by simp [hx]))]

theorem filter_map_stable {α : Type} {l : List α} {u : α → α} {p : α → Bool}
    (h : ∀ x ∈ l, u x = x ∨ (p x = false ∧ p (u x) = false)) :
    (l.map u).filter p = l.filter p := by
  induction l with
  | nil => rfl
  | cons a l ih =>
    have ih' := ih (fun x hx => h x (by simp [hx]))
    rcases h a (by simp) with ha | ⟨ha1, ha2⟩
    · simp only [List.map_cons, List.filter_cons, ha, ih']
    · simp only [List.map_cons, List.filter_cons, ha1, ha2, ih']
      rfl

theorem any_map_stable {α : Type} {l : List α} {u : α → α} {q : α → Bool}
    (h : ∀ x ∈ l, u x = x ∨ (q x = false ∧ q (u x) = false)) :
    (l.map u).any q = l.any q := by
  induction l with
  | nil => rfl
  | cons a l ih =>
    have ih' := ih (fun x hx => h x (by simp [hx]))
    rcases h a (by simp) with ha | ⟨ha1, ha2⟩
    · simp only [List.map_cons, List.any_cons, ha, ih']
    · simp only [List.map_cons, List.any_cons, ha1, ha2, ih']

theorem nodup_concat_of {α : Type} [DecidableEq α] {l : List α} {a : α}
    (hl : l.Nodup) (ha : a ∉ l) : (l ++ [a]).Nodup := by
  rw [List.nodup_append]
  exact ⟨hl, List.nodup_singleton a, by simpa [List.disjoint_singleton] using ha⟩


theorem keptIn_concat_false {α : Type} {tid : α → Option String} {A : String}
    {l : List (NodeId × α)} {j : NodeId} {x : α} (hx : tid x ≠ some A) :
    keptIn tid A (l ++ [(j, x)]) = keptIn tid A l := by
  funext i
  unfold keptIn
  exact any_concat_false (by simp [hx])

theorem keptIn_fresh_false {α : Type} {tid : α → Option String} {A : String}
    {l : List (NodeId × α)} {j : NodeId} {x : α} {N : NodeId}
    (hl : ∀ p ∈ l, p.1 < N) (hj : N ≤ j) (hx : tid x ≠ some A) :
    keptIn tid A (l ++ [(j, x)]) j = false := by
  unfold keptIn
  rw [any_concat_false (by simp [hx])]
  rw [List.any_eq_false]
  intro p hp
  have hlt := hl p hp
  have hne : (p.1 == j) = false := by
    rw [beq_eq_false_iff_ne]
    exact Nat.ne_of_lt (Nat.lt_of_lt_of_le hlt hj)
  simp [hne]

theorem keptIn_map_stable {α : Type} {tid : α → Option String} {A : String}
    {l : List (NodeId × α)} {u : NodeId × α → NodeId × α}
    (hu : ∀ x ∈ l, u x = x ∨ (tid x.2 ≠ some A ∧ tid (u x).2 ≠ some A)) :
    keptIn tid A (l.map u) = keptIn tid A l := by
  funext i
  unfold keptIn
  apply any_map_stable
  intro x hx
  rcases hu x hx with h | ⟨h1, h2⟩
  · exact Or.inl h
  · exact Or.inr ⟨by simp [h1], by simp [h2]⟩

set_option maxHeartbeats 1600000 in
theorem restrict_eq (A : String) (g g' : Graph)
    (h1 : g'.meetings.filter (fun x => x.2.tenantId == some A)
        = g.meetings.filter (fun x => x.2.tenantId == some A))
    (h2 : g'.actions.filter (fun x => x.2.tenantId == some A)
        = g.actions.filter (fun x => x.2.tenantId == some A))
    (h3 : g'.decisionNodes.filter (fun x => x.2.tenantId == some A)
        = g.decisionNodes.filter (fun x => x.2.tenantId == some A))
    (h4 : g'.persons.filter (fun x => x.2.tenantId == some A)
        = g.persons.filter (fun x => x.2.tenantId == some A))
    (h5 : g'.clients.filter (fun x => x.2.tenantId == some A)
        = g.clients.filter (fun x => x.2.tenantId == some A))
    (h6 : g'.projects.filter (fun x => x.2.tenantId == some A)
        = g.projects.filter (fun x => x.2.tenantId == some A))
    (e1 : g'.hasActionItem.filter (fun e => keptMeeting A g' e.1 && keptAction A g' e.2)
        = g.hasActionItem.filter (fun e => keptMeeting A g e.1 && keptAction A g e.2))
    (e2 : g'.hasDecision.filter (fun e => keptMeeting A g' e.1 && keptDecision A g' e.2)
        = g.hasDecision.filter (fun e => keptMeeting A g e.1 && keptDecision A g e.2))
    (e3 : g'.assignedTo.filter (fun e => keptPerson A g' e.1 && keptAction A g' e.2)
        = g.assignedTo.filter (fun e => keptPerson A g e.1 && keptAction A g e.2))
    (e4 : g'.discussedClient.filter (fun e => keptMeeting A g' e.1 && keptClient A g' e.2)
        = g.discussedClient.filter (fun e => keptMeeting A g e.1 && keptClient A g e.2))
    (e5 : g'.relatesToProject.filter (fun e => keptMeeting A g' e.1 && keptProject A g' e.2)
        = g.relatesToProject.filter (fun e => keptMeeting A g e.1 && keptProject A g e.2)) :
    restrict A g' = restrict A g := by
  unfold restrict
  ext1
  · rfl
  · exact h1
  · exact h2
  · exact h3
  · exact h4
  · exact h5
  · exact h6
  · exact e1
  · exact e2
  · exact e3
  · exact e4
  · exact e5

theorem bound_concat {α : Type} {l : List (NodeId × α)} {N : NodeId} {x : α}
    (hl : ∀ p ∈ l, p.1 < N) : ∀ p ∈ l ++ [(N, x)], p.1 < N + 1 := by
  intro p hp
  rcases List.mem_append.mp hp with h | h
  · exact Nat.lt_succ_of_lt (hl p h)
  · simp at h
    rw [h]
    exact Nat.lt_succ_self N

theorem bound_mono {α : Type} {l : List (NodeId × α)} {N M : NodeId}
    (hl : ∀ p ∈ l, p.1 < N) (h : N ≤ M) : ∀ p ∈ l, p.1 < M :=
  fun p hp => Nat.lt_of_lt_of_le (hl p hp) h

theorem ebound_mono {l : List (NodeId × NodeId)} {N M : NodeId}
    (hl : ∀ e ∈ l, e.1 < N ∧ e.2 < N) (h : N ≤ M) :
    ∀ e ∈ l, e.1 < M ∧ e.2 < M :=
  fun e he => ⟨Nat.lt_of_lt_of_le (hl e he).1 h, Nat.lt_of_lt_of_le (hl e he).2 h⟩

theorem ebound_concat {l : List (NodeId × NodeId)} {N : NodeId} {e : NodeId × NodeId}
    (hl : ∀ e' ∈ l, e'.1 < N ∧ e'.2 < N) (he1 : e.1 < N + 1) (he2 : e.2 < N + 1) :
    ∀ e' ∈ l ++ [e], e'.1 < N + 1 ∧ e'.2 < N + 1 := by
  intro e' he'
  rcases List.mem_append.mp he' with h | h
  · exact ⟨Nat.lt_succ_of_lt (hl e' h).1, Nat.lt_succ_of_lt (hl e' h).2⟩
  · simp at h
    rw [h]
    exact ⟨he1, he2⟩

theorem nd_concat {α : Type} {l : List (NodeId × α)} {N : NodeId} {x : α}
    (hnd : (l.map (fun p => p.1)).Nodup) (hl : ∀ p ∈ l, p.1 < N) :
    ((l ++ [(N, x)]).map (fun p => p.1)).Nodup := by
  rw [List.map_append]
  apply nodup_concat_of hnd
  intro hmem
  rw [List.mem_map] at hmem
  obtain ⟨p, hp, hfst⟩ := hmem
  have hfst' : p.1 = N := hfst
  have h2 := hl p hp
  rw [hfst'] at h2
  exact Nat.lt_irrefl N h2

theorem keptIn_ge_false {α : Type} {tid : α → Option String} {A : String}
    {l : List (NodeId × α)} {N j : NodeId}
    (hl : ∀ p ∈ l, p.1 < N) (hj : N ≤ j) : keptIn tid A l j = false := by
  unfold keptIn
  rw [List.any_eq_false]
  intro p hp
  have hlt := hl p hp
  have hne : (p.1 == j) = false := by
    rw [beq_eq_false_iff_ne]
    exact Nat.ne_of_lt (Nat.lt_of_lt_of_le hlt hj)
  simp [hne]

theorem matchedMeetingIds_lt {g : Graph} (hW : WF g) {mid : String} :
    ∀ m ∈ matchedMeetingIds g mid, m < g.nextId := by
  intro m hm
  unfold matchedMeetingIds at hm
  rw [List.mem_map] at hm
  obtain ⟨p, hp, hfst⟩ := hm
  have hfst' : p.1 = m := hfst
  rw [← hfst']
  exact hW.m_lt p (List.mem_of_mem_filter hp)

/-- Appending a fresh Meeting node of a foreign tenant changes neither the
tenant-`A` view nor well-formedness. -/
theorem step_createMeetingOp {A w s : String} {a : Analysis} {g : Graph}
    (hW : WF g) (hτ : a.tenantId ≠ some A) :
    restrict A (createMeetingOp w s a g) = restrict A g
    ∧ WF (createMeetingOp w s a g) := by
  have hKm : keptMeeting A (createMeetingOp w s a g) = keptMeeting A g :=
    keptIn_concat_false hτ
  constructor
  · refine restrict_eq A _ _ ?_ rfl rfl rfl rfl rfl ?_ ?_ rfl ?_ ?_
    · exact filter_concat_false (by simpa [meetingNodeOf] using hτ)
    · exact List.filter_congr (fun e _ => by rw [hKm]; rfl)
    · exact List.filter_congr (fun e _ => by rw [hKm]; rfl)
    · exact List.filter_congr (fun e _ => by rw [hKm]; rfl)
    · exact List.filter_congr (fun e _ => by rw [hKm]; rfl)
  · exact
      { m_lt := bound_concat hW.m_lt
      , a_lt := bound_mono hW.a_lt (Nat.le_succ _)
      , d_lt := bound_mono hW.d_lt (Nat.le_succ _)
      , p_lt := bound_mono hW.p_lt (Nat.le_succ _)
      , c_lt := bound_mono hW.c_lt (Nat.le_succ _)
      , pr_lt := bound_mono hW.pr_lt (Nat.le_succ _)
      , hai_lt := ebound_mono hW.hai_lt (Nat.le_succ _)
      , hd_lt := ebound_mono hW.hd_lt (Nat.le_succ _)
      , at_lt := ebound_mono hW.at_lt (Nat.le_succ _)
      , dc_lt := ebound_mono hW.dc_lt (Nat.le_succ _)
      , rp_lt := ebound_mono hW.rp_lt (Nat.le_succ _)
      , nd_m := nd_concat hW.nd_m hW.m_lt
      , nd_a := hW.nd_a
      , nd_d := hW.nd_d
      , nd_p := hW.nd_p
      , nd_c := hW.nd_c
      , nd_pr := hW.nd_pr }

/-- One ActionItem row for a foreign tenant: invisible to tenant `A`,
preserves well-formedness (the matched meeting id `m` is a live node id). -/
theorem step_createActionRow {A : String} {node : ActionItemNode} {m : NodeId}
    {g : Graph} (hW : WF g) (hτ : node.tenantId ≠ some A) (hm : m < g.nextId) :
    restrict A (createActionRow node m g) = restrict A g
    ∧ WF (createActionRow node m g)
    ∧ g.nextId ≤ (createActionRow node m g).nextId := by
  have hKa : keptAction A (createActionRow node m g) = keptAction A g :=
    keptIn_concat_false hτ
  refine ⟨?_, ?_, Nat.le_succ _⟩
  · refine restrict_eq A _ _ rfl ?_ rfl rfl rfl rfl ?_ rfl ?_ rfl rfl
    · exact filter_concat_false (by simp [hτ])
    · have hstep : (g.hasActionItem ++ [(m, g.nextId)]).filter
          (fun e => keptMeeting A g e.1 && keptAction A g e.2)
          = g.hasActionItem.filter
            (fun e => keptMeeting A g e.1 && keptAction A g e.2) :=
        filter_concat_false (by
          have : keptAction A g g.nextId = false :=
            keptIn_ge_false hW.a_lt (Nat.le_refl _)
          simp [this])
      calc (createActionRow node m g).hasActionItem.filter
            (fun e => keptMeeting A (createActionRow node m g) e.1
              && keptAction A (createActionRow node m g) e.2)
          = (g.hasActionItem ++ [(m, g.nextId)]).filter
            (fun e => keptMeeting A g e.1 && keptAction A g e.2) := by
            exact List.filter_congr (fun e _ => by rw [hKa]; rfl)
        _ = g.hasActionItem.filter
            (fun e => keptMeeting A g e.1 && keptAction A g e.2) := hstep
    · exact List.filter_congr (fun e _ => by rw [hKa]; rfl)
  · exact
      { m_lt := bound_mono hW.m_lt (Nat.le_succ _)
      , a_lt := bound_concat hW.a_lt
      , d_lt := bound_mono hW.d_lt (Nat.le_succ _)
      , p_lt := bound_mono hW.p_lt (Nat.le_succ _)
      , c_lt := bound_mono hW.c_lt (Nat.le_succ _)
      , pr_lt := bound_mono hW.pr_lt (Nat.le_succ _)
      , hai_lt := ebound_concat hW.hai_lt (Nat.lt_succ_of_lt hm) (Nat.lt_succ_self _)
      , hd_lt := ebound_mono hW.hd_lt (Nat.le_succ _)
      , at_lt := ebound_mono hW.at_lt (Nat.le_succ _)
      , dc_lt := ebound_mono hW.dc_lt (Nat.le_succ _)
      , rp_lt := ebound_mono hW.rp_lt (Nat.le_succ _)
      , nd_m := hW.nd_m
      , nd_a := nd_concat hW.nd_a hW.a_lt
      , nd_d := hW.nd_d
      , nd_p := hW.nd_p
      , nd_c := hW.nd_c
      , nd_pr := hW.nd_pr }

/-- One Decision row for a foreign tenant. -/
theorem step_createDecisionRow {A : String} {node : DecisionNode} {m : NodeId}
    {g : Graph} (hW : WF g) (hτ : node.tenantId ≠ some A) (hm : m < g.nextId) :
    restrict A (createDecisionRow node m g) = restrict A g
    ∧ WF (createDecisionRow node m g)
    ∧ g.nextId ≤ (createDecisionRow node m g).nextId := by
  have hKd : keptDecision A (createDecisionRow node m g) = keptDecision A g :=
    keptIn_concat_false hτ
  refine ⟨?_, ?_, Nat.le_succ _⟩
  · refine restrict_eq A _ _ rfl rfl ?_ rfl rfl rfl rfl ?_ rfl rfl rfl
    · exact filter_concat_false (by simp [hτ])
    · have hstep : (g.hasDecision ++ [(m, g.nextId)]).filter
          (fun e => keptMeeting A g e.1 && keptDecision A g e.2)
          = g.hasDecision.filter
            (fun e => keptMeeting A g e.1 && keptDecision A g e.2) :=
        filter_concat_false (by
          have : keptDecision A g g.nextId = false :=
            keptIn_ge_false hW.d_lt (Nat.le_refl _)
          simp [this])
      calc (createDecisionRow node m g).hasDecision.filter
            (fun e => keptMeeting A (createDecisionRow node m g) e.1
              && keptDecision A (createDecisionRow node m g) e.2)
          = (g.hasDecision ++ [(m, g.nextId)]).filter
            (fun e => keptMeeting A g e.1 && keptDecision A g e.2) := by
            exact List.filter_congr (fun e _ => by rw [hKd]; rfl)
        _ = g.hasDecision.filter
            (fun e => keptMeeting A g e.1 && keptDecision A g e.2) := hstep
  · exact
      { m_lt := bound_mono hW.m_lt (Nat.le_succ _)
      , a_lt := bound_mono hW.a_lt (Nat.le_succ _)
      , d_lt := bound_concat hW.d_lt
      , p_lt := bound_mono hW.p_lt (Nat.le_succ _)
      , c_lt := bound_mono hW.c_lt (Nat.le_succ _)
      , pr_lt := bound_mono hW.pr_lt (Nat.le_succ _)
      , hai_lt := ebound_mono hW.hai_lt (Nat.le_succ _)
      , hd_lt := ebound_concat hW.hd_lt (Nat.lt_succ_of_lt hm) (Nat.lt_succ_self _)
      , at_lt := ebound_mono hW.at_lt (Nat.le_succ _)
      , dc_lt := ebound_mono hW.dc_lt (Nat.le_succ _)
      , rp_lt := ebound_mono hW.rp_lt (Nat.le_succ _)
      , nd_m := hW.nd_m
      , nd_a := hW.nd_a
      , nd_d := nd_concat hW.nd_d hW.d_lt
      , nd_p := hW.nd_p
      , nd_c := hW.nd_c
      , nd_pr := hW.nd_pr }

/-- Lift a row step to the fold over matched meeting rows. -/
theorem foldl_row_invisible {A : String} (f : NodeId → Graph → Graph)
    (hf : ∀ (m : NodeId) (g : Graph), WF g → m < g.nextId →
      restrict A (f m g) = restrict A g ∧ WF (f m g) ∧ g.nextId ≤ (f m g).nextId) :
    ∀ (ms : List NodeId) (g : Graph), WF g → (∀ m ∈ ms, m < g.nextId) →
      restrict A (ms.foldl (fun g' m => f m g') g) = restrict A g
      ∧ WF (ms.foldl (fun g' m => f m g') g)
      ∧ g.nextId ≤ (ms.foldl (fun g' m => f m g') g).nextId := by
  intro ms
  induction ms with
  | nil => intro g hW _; exact ⟨rfl, hW, Nat.le_refl _⟩
  | cons m ms ih =>
    intro g hW hb
    obtain ⟨r1, w1, n1⟩ := hf m g hW (hb m (by simp))
    obtain ⟨r2, w2, n2⟩ := ih (f m g) w1
      (fun m' hm' => Nat.lt_of_lt_of_le (hb m' (by simp [hm'])) n1)
    rw [List.foldl_cons]
    exact ⟨r2.trans r1, w2, Nat.le_trans n1 n2⟩

/-- The whole ActionItem statement is invisible to a foreign tenant. -/
theorem step_createActionOp {A : String} {τ : Option String} {s : String}
    {i : Nat} {x : ActionItemInput} {g : Graph}
    (hW : WF g) (hτ : τ ≠ some A) :
    restrict A (createActionOp τ s i x g) = restrict A g
    ∧ WF (createActionOp τ s i x g)
    ∧ g.nextId ≤ (createActionOp τ s i x g).nextId := by
  unfold createActionOp
  exact foldl_row_invisible
    (fun m g' => createActionRow (actionNodeOf τ s i x) m g')
    (fun m g' hW' hm => step_createActionRow hW' hτ hm)
    (matchedMeetingIds g s) g hW (matchedMeetingIds_lt hW)

/-- The whole Decision statement is invisible to a foreign tenant. -/
theorem step_createDecisionOp {A : String} {τ : Option String} {s : String}
    {i : Nat} {x : String} {g : Graph}
    (hW : WF g) (hτ : τ ≠ some A) :
    restrict A (createDecisionOp τ s i x g) = restrict A g
    ∧ WF (createDecisionOp τ s i x g)
    ∧ g.nextId ≤ (createDecisionOp τ s i x g).nextId := by
  unfold createDecisionOp
  exact foldl_row_invisible
    (fun m g' => createDecisionRow ⟨s ++ "_decision_" ++ toString i, τ, x⟩ m g')
    (fun m g' hW' hm => step_createDecisionRow hW' hτ hm)
    (matchedMeetingIds g s) g hW (matchedMeetingIds_lt hW)

theorem nodup_fst_inj {α : Type} {l : List (NodeId × α)}
    (hnd : (l.map (fun p => p.1)).Nodup) {p q : NodeId × α}
    (hp : p ∈ l) (hq : q ∈ l) (h : p.1 = q.1) : p = q := by
  induction l with
  | nil => cases hp
  | cons a l ih =>
    rw [List.map_cons, List.nodup_cons] at hnd
    rcases List.mem_cons.mp hp with hp1 | hp1 <;>
      rcases List.mem_cons.mp hq with hq1 | hq1
    · rw [hp1, hq1]
    · exfalso
      apply hnd.1
      rw [List.mem_map]
      exact ⟨q, hq1, by rw [← h, hp1]⟩
    · exfalso
      apply hnd.1
      rw [List.mem_map]
      exact ⟨p, hp1, by rw [h, hq1]⟩
    · exact ih hnd.2 hp1 hq1

theorem keptIn_false_of_unique {α : Type} {tid : α → Option String} {A : String}
    {l : List (NodeId × α)} {x : NodeId × α}
    (hnd : (l.map (fun p => p.1)).Nodup) (hx : x ∈ l) (ht : tid x.2 ≠ some A) :
    keptIn tid A l x.1 = false := by
  unfold keptIn
  rw [List.any_eq_false]
  intro p hp
  by_cases hid : p.1 = x.1
  · have hpx : p = x := nodup_fst_inj hnd hp hx hid
    rw [hpx]
    simp [ht]
  · have : (p.1 == x.1) = false := by rw [beq_eq_false_iff_ne]; exact hid
    simp [this]

theorem ebound_snoc {l : List (NodeId × NodeId)} {N : NodeId} {e : NodeId × NodeId}
    (hl : ∀ e' ∈ l, e'.1 < N ∧ e'.2 < N) (he1 : e.1 < N) (he2 : e.2 < N) :
    ∀ e' ∈ l ++ [e], e'.1 < N ∧ e'.2 < N := by
  intro e' he'
  rcases List.mem_append.mp he' with h | h
  · exact hl e' h
  · simp at h
    rw [h]
    exact ⟨he1, he2⟩

theorem ebound_addEdge {es : List (NodeId × NodeId)} {N : NodeId}
    {e : NodeId × NodeId}
    (hl : ∀ e' ∈ es, e'.1 < N ∧ e'.2 < N) (he1 : e.1 < N) (he2 : e.2 < N) :
    ∀ e' ∈ addEdgeIfAbsent es e, e'.1 < N ∧ e'.2 < N := by
  unfold addEdgeIfAbsent
  split
  · exact hl
  · exact ebound_snoc hl he1 he2

theorem filter_addEdge_false {es : List (NodeId × NodeId)} {e : NodeId × NodeId}
    {p : NodeId × NodeId → Bool} (hp : p e = false) :
    (addEdgeIfAbsent es e).filter p = es.filter p := by
  unfold addEdgeIfAbsent
  split
  · rfl
  · exact filter_concat_false hp

/-- `linkAssigned` for a person node invisible to tenant `A`: the added
`ASSIGNED_TO` edges are invisible too. -/
theorem step_linkAssigned {A d : String} {pid : NodeId} {g : Graph}
    (hW : WF g) (hkp : keptPerson A g pid = false) (hpid : pid < g.nextId) :
    restrict A (linkAssigned d pid g) = restrict A g
    ∧ WF (linkAssigned d pid g)
    ∧ (linkAssigned d pid g).nextId = g.nextId
    ∧ (linkAssigned d pid g).persons = g.persons := by
  refine ⟨?_, ?_, rfl, rfl⟩
  · refine restrict_eq A _ _ rfl rfl rfl rfl rfl rfl rfl rfl ?_ rfl rfl
    have hfold : ∀ (l : List (NodeId × ActionItemNode))
        (es : List (NodeId × NodeId)),
        (l.foldl (fun es' ae => addEdgeIfAbsent es' (pid, ae.1)) es).filter
          (fun e => keptPerson A g e.1 && keptAction A g e.2)
        = es.filter (fun e => keptPerson A g e.1 && keptAction A g e.2) := by
      intro l
      induction l with
      | nil => intro es; rfl
      | cons ae l ih =>
        intro es
        rw [List.foldl_cons, ih]
        exact filter_addEdge_false (by simp [hkp])
    calc (linkAssigned d pid g).assignedTo.filter
          (fun e => keptPerson A (linkAssigned d pid g) e.1
            && keptAction A (linkAssigned d pid g) e.2)
        = (linkAssigned d pid g).assignedTo.filter
          (fun e => keptPerson A g e.1 && keptAction A g e.2) :=
          List.filter_congr (fun e _ => rfl)
      _ = g.assignedTo.filter
          (fun e => keptPerson A g e.1 && keptAction A g e.2) := hfold _ _
  · have hbound : ∀ (l : List (NodeId × ActionItemNode))
        (es : List (NodeId × NodeId)),
        (∀ x ∈ l, x.1 < g.nextId) →
        (∀ e ∈ es, e.1 < g.nextId ∧ e.2 < g.nextId) →
        ∀ e ∈ l.foldl (fun es' ae => addEdgeIfAbsent es' (pid, ae.1)) es,
          e.1 < g.nextId ∧ e.2 < g.nextId := by
      intro l
      induction l with
      | nil => intro es _ hes; exact hes
      | cons ae l ih =>
        intro es hl hes
        rw [List.foldl_cons]
        exact ih _ (fun x hx => hl x (by simp [hx]))
          (ebound_addEdge hes hpid (hl ae (by simp)))
    exact
      { m_lt := hW.m_lt
      , a_lt := hW.a_lt
      , d_lt := hW.d_lt
      , p_lt := hW.p_lt
      , c_lt := hW.c_lt
      , pr_lt := hW.pr_lt
      , hai_lt := hW.hai_lt
      , hd_lt := hW.hd_lt
      , at_lt := hbound _ _
          (fun x hx => hW.a_lt x (List.mem_of_mem_filter hx)) hW.at_lt
      , dc_lt := hW.dc_lt
      , rp_lt := hW.rp_lt
      , nd_m := hW.nd_m
      , nd_a := hW.nd_a
      , nd_d := hW.nd_d
      , nd_p := hW.nd_p
      , nd_c := hW.nd_c
      , nd_pr := hW.nd_pr }

/-- Appending a fresh Person node of a foreign tenant. -/
theorem step_append_person {A : String} {p : PersonNode} {g : Graph}
    (hW : WF g) (hτ : p.tenantId ≠ some A) :
    restrict A { g with
        nextId := g.nextId + 1
      , persons := g.persons ++ [(g.nextId, p)] } = restrict A g
    ∧ WF { g with
        nextId := g.nextId + 1
      , persons := g.persons ++ [(g.nextId, p)] } := by
  have hKp : keptIn PersonNode.tenantId A (g.persons ++ [(g.nextId, p)])
      = keptIn PersonNode.tenantId A g.persons := keptIn_concat_false hτ
  constructor
  · refine restrict_eq A _ _ rfl rfl rfl ?_ rfl rfl rfl rfl ?_ rfl rfl
    · exact filter_concat_false (by simp [hτ])
    · exact List.filter_congr (fun e _ => by
        show (keptIn PersonNode.tenantId A (g.persons ++ [(g.nextId, p)]) e.1
            && keptAction A g e.2)
          = (keptPerson A g e.1 && keptAction A g e.2)
        rw [hKp]
        rfl)
  · exact
      { m_lt := bound_mono hW.m_lt (Nat.le_succ _)
      , a_lt := bound_mono hW.a_lt (Nat.le_succ _)
      , d_lt := bound_mono hW.d_lt (Nat.le_succ _)
      , p_lt := bound_concat hW.p_lt
      , c_lt := bound_mono hW.c_lt (Nat.le_succ _)
      , pr_lt := bound_mono hW.pr_lt (Nat.le_succ _)
      , hai_lt := ebound_mono hW.hai_lt (Nat.le_succ _)
      , hd_lt := ebound_mono hW.hd_lt (Nat.le_succ _)
      , at_lt := ebound_mono hW.at_lt (Nat.le_succ _)
      , dc_lt := ebound_mono hW.dc_lt (Nat.le_succ _)
      , rp_lt := ebound_mono hW.rp_lt (Nat.le_succ _)
      , nd_m := hW.nd_m
      , nd_a := hW.nd_a
      , nd_d := hW.nd_d
      , nd_p := nd_concat hW.nd_p hW.p_lt
      , nd_c := hW.nd_c
      , nd_pr := hW.nd_pr }

/-- Updating only foreign-tenant Person nodes (ids and tenants preserved). -/
theorem step_map_persons {A : String} {g : Graph}
    {u : NodeId × PersonNode → NodeId × PersonNode} (hW : WF g)
    (hfst : ∀ x, (u x).1 = x.1)
    (hinv : ∀ x ∈ g.persons,
      u x = x ∨ (x.2.tenantId ≠ some A ∧ (u x).2.tenantId ≠ some A)) :
    restrict A { g with persons := g.persons.map u } = restrict A g
    ∧ WF { g with persons := g.persons.map u } := by
  have hKp : keptIn PersonNode.tenantId A (g.persons.map u)
      = keptIn PersonNode.tenantId A g.persons := keptIn_map_stable hinv
  constructor
  · refine restrict_eq A _ _ rfl rfl rfl ?_ rfl rfl rfl rfl ?_ rfl rfl
    · exact filter_map_stable (fun x hx => by
        rcases hinv x hx with h | ⟨h1, h2⟩
        · exact Or.inl h
        · exact Or.inr ⟨by simp [h1], by simp [h2]⟩)
    · exact List.filter_congr (fun e _ => by
        show (keptIn PersonNode.tenantId A (g.persons.map u) e.1
            && keptAction A g e.2)
          = (keptPerson A g e.1 && keptAction A g e.2)
        rw [hKp]
        rfl)
  · have hmapfst : (g.persons.map u).map (fun x => x.1)
        = g.persons.map (fun x => x.1) := by
      rw [List.map_map]
      exact List.map_congr_left (fun x _ => hfst x)
    exact
      { m_lt := hW.m_lt
      , a_lt := hW.a_lt
      , d_lt := hW.d_lt
      , p_lt := by
          intro p hp
          rw [List.mem_map] at hp
          obtain ⟨x, hx, hux⟩ := hp
          rw [← hux, hfst x]
          exact hW.p_lt x hx
      , c_lt := hW.c_lt
      , pr_lt := hW.pr_lt
      , hai_lt := hW.hai_lt
      , hd_lt := hW.hd_lt
      , at_lt := hW.at_lt
      , dc_lt := hW.dc_lt
      , rp_lt := hW.rp_lt
      , nd_m := hW.nd_m
      , nd_a := hW.nd_a
      , nd_d := hW.nd_d
      , nd_p := by rw [hmapfst]; exact hW.nd_p
      , nd_c := hW.nd_c
      , nd_pr := hW.nd_pr }

/-- Folding `linkAssigned` over a list of invisible person rows. -/
theorem fold_linkAssigned_invisible {A d : String}
    {l : List (NodeId × PersonNode)} :
    ∀ {g : Graph}, WF g →
    (∀ pe ∈ l, keptPerson A g pe.1 = false ∧ pe.1 < g.nextId) →
    restrict A (l.foldl (fun g2 pe => linkAssigned d pe.1 g2) g) = restrict A g
    ∧ WF (l.foldl (fun g2 pe => linkAssigned d pe.1 g2) g)
    ∧ (l.foldl (fun g2 pe => linkAssigned d pe.1 g2) g).nextId = g.nextId := by
  induction l with
  | nil => intro g hW _; exact ⟨rfl, hW, rfl⟩
  | cons pe l ih =>
    intro g hW hb
    obtain ⟨hkp, hlt⟩ := hb pe (by simp)
    obtain ⟨r1, w1, hn1, hp1⟩ := step_linkAssigned (d := d) hW hkp hlt
    rw [List.foldl_cons]
    have hb' : ∀ pe' ∈ l, keptPerson A (linkAssigned d pe.1 g) pe'.1 = false
        ∧ pe'.1 < (linkAssigned d pe.1 g).nextId := by
      intro pe' hpe'
      obtain ⟨h1, h2⟩ := hb pe' (by simp [hpe'])
      exact ⟨h1, h2⟩
    obtain ⟨r2, w2, n2⟩ := ih w1 hb'
    refine ⟨r2.trans r1, w2, ?_⟩
    rw [n2, hn1]

/-- The email-keyed Person merge of a foreign tenant is invisible to `A`. -/
theorem step_mergePersonEmail {A t email name role now aid : String} {g g' : Graph}
    (hW : WF g) (ht : t ≠ A)
    (h : mergePersonEmailOp (some t) email name role now aid g = .ok g') :
    restrict A g' = restrict A g ∧ WF g' ∧ g.nextId ≤ g'.nextId := by
  have htt : (some t : Option String) ≠ some A := by
    intro hc
    exact ht (Option.some.inj hc)
  unfold mergePersonEmailOp at h
  simp only at h
  split at h
  · cases h
    have hap := step_append_person (A := A) (g := g)
      (p := ⟨some email, some name, some role, some t, some now, none⟩) hW htt
    have hkp : keptPerson A { g with
        nextId := g.nextId + 1
      , persons := g.persons ++
          [(g.nextId, ⟨some email, some name, some role, some t, some now, none⟩)] }
        g.nextId = false :=
      keptIn_fresh_false hW.p_lt (Nat.le_refl _) htt
    obtain ⟨r2, w2, hn2, _⟩ := step_linkAssigned (d := aid) hap.2 hkp
      (Nat.lt_succ_self _)
    refine ⟨r2.trans hap.1, w2, ?_⟩
    rw [hn2]
    exact Nat.le_succ _
  · cases h
    rename_i hne
    set u := fun pe : NodeId × PersonNode =>
      if pe.2.email == some email && pe.2.tenantId == some t then
        (pe.1, { pe.2 with
            name := some (pe.2.name.getD name)
          , role := some role
          , lastSeenAt := some now })
      else pe with hu
    have hfst : ∀ x, (u x).1 = x.1 := by
      intro x
      rw [hu]
      dsimp only
      split <;> rfl
    have hinv : ∀ x ∈ g.persons,
        u x = x ∨ (x.2.tenantId ≠ some A ∧ (u x).2.tenantId ≠ some A) := by
      intro x hx
      rw [hu]
      dsimp only
      by_cases hk : (x.2.email == some email && x.2.tenantId == some t) = true
      · right
        have hxt : x.2.tenantId = some t := by
          have := (Bool.and_eq_true _ _ |>.mp hk).2
          exact beq_iff_eq.mp this
        rw [if_pos hk]
        exact ⟨by rw [hxt]; exact htt, by rw [hxt]; exact htt⟩
      · left
        rw [if_neg hk]
    have hmp := step_map_persons (A := A) hW hfst hinv
    have hb : ∀ pe ∈ g.persons.filter
        (fun pe => pe.2.email == some email && pe.2.tenantId == some t),
        keptPerson A { g with persons := g.persons.map u } pe.1 = false
        ∧ pe.1 < ({ g with persons := g.persons.map u } : Graph).nextId := by
      intro pe hpe
      have hmem := List.mem_of_mem_filter hpe
      have hkey := List.of_mem_filter hpe
      have hxt : pe.2.tenantId = some t :=
        beq_iff_eq.mp (Bool.and_eq_true _ _ |>.mp hkey).2
      constructor
      · show keptIn PersonNode.tenantId A (g.persons.map u) pe.1 = false
        rw [keptIn_map_stable hinv]
        exact keptIn_false_of_unique hW.nd_p hmem (by rw [hxt]; exact htt)
      · exact hW.p_lt pe hmem
    obtain ⟨r2, w2, n2⟩ := fold_linkAssigned_invisible (d := aid) hmp.2 hb
    refine ⟨r2.trans hmp.1, w2, ?_⟩
    rw [n2]

/-- The name-keyed Person merge of a foreign tenant is invisible to `A`. -/
theorem step_mergePersonName {A t name aid : String} {g g' : Graph}
    (hW : WF g) (ht : t ≠ A)
    (h : mergePersonNameOp (some t) name aid g = .ok g') :
    restrict A g' = restrict A g ∧ WF g' ∧ g.nextId ≤ g'.nextId := by
  have htt : (some t : Option String) ≠ some A := by
    intro hc
    exact ht (Option.some.inj hc)
  unfold mergePersonNameOp at h
  simp only at h
  split at h
  · cases h
    have hap := step_append_person (A := A) (g := g)
      (p := ⟨none, some name, none, some t, none, none⟩) hW htt
    have hkp : keptPerson A { g with
        nextId := g.nextId + 1
      , persons := g.persons ++
          [(g.nextId, ⟨none, some name, none, some t, none, none⟩)] }
        g.nextId = false :=
      keptIn_fresh_false hW.p_lt (Nat.le_refl _) htt
    obtain ⟨r2, w2, hn2, _⟩ := step_linkAssigned (d := aid) hap.2 hkp
      (Nat.lt_succ_self _)
    refine ⟨r2.trans hap.1, w2, ?_⟩
    rw [hn2]
    exact Nat.le_succ _
  · cases h
    have hb : ∀ pe ∈ g.persons.filter
        (fun pe => pe.2.name == some name && pe.2.tenantId == some t),
        keptPerson A g pe.1 = false ∧ pe.1 < g.nextId := by
      intro pe hpe
      have hmem := List.mem_of_mem_filter hpe
      have hkey := List.of_mem_filter hpe
      have hxt : pe.2.tenantId = some t :=
        beq_iff_eq.mp (Bool.and_eq_true _ _ |>.mp hkey).2
      exact ⟨keptIn_false_of_unique hW.nd_p hmem (by rw [hxt]; exact htt),
        hW.p_lt pe hmem⟩
    obtain ⟨r2, w2, n2⟩ := fold_linkAssigned_invisible (d := aid) hW hb
    exact ⟨r2, w2, by rw [n2]⟩

theorem filter_fold_addEdge {α : Type} {p : NodeId × NodeId → Bool}
    {mk : α → NodeId × NodeId} {l : List α}
    (hp : ∀ x ∈ l, p (mk x) = false) :
    ∀ es, (l.foldl (fun es' x => addEdgeIfAbsent es' (mk x)) es).filter p
      = es.filter p := by
  induction l with
  | nil => intro es; rfl
  | cons x l ih =>
    intro es
    rw [List.foldl_cons, ih (fun y hy => hp y (by simp [hy]))]
    exact filter_addEdge_false (hp x (by simp))

theorem ebound_fold_addEdge {α : Type} {N : NodeId} {mk : α → NodeId × NodeId}
    {l : List α} (hmk : ∀ x ∈ l, (mk x).1 < N ∧ (mk x).2 < N) :
    ∀ es, (∀ e ∈ es, e.1 < N ∧ e.2 < N) →
    ∀ e ∈ l.foldl (fun es' x => addEdgeIfAbsent es' (mk x)) es,
      e.1 < N ∧ e.2 < N := by
  induction l with
  | nil => intro es hes; exact hes
  | cons x l ih =>
    intro es hes
    rw [List.foldl_cons]
    exact ih (fun y hy => hmk y (by simp [hy])) _
      (ebound_addEdge hes (hmk x (by simp)).1 (hmk x (by simp)).2)

/-- Appending a fresh Client node of a foreign tenant. -/
theorem step_append_client {A : String} {c : NamedEntity} {g : Graph}
    (hW : WF g) (hτ : c.tenantId ≠ some A) :
    restrict A { g with
        nextId := g.nextId + 1
      , clients := g.clients ++ [(g.nextId, c)] } = restrict A g
    ∧ WF { g with
        nextId := g.nextId + 1
      , clients := g.clients ++ [(g.nextId, c)] } := by
  have hKc : keptIn NamedEntity.tenantId A (g.clients ++ [(g.nextId, c)])
      = keptIn NamedEntity.tenantId A g.clients := keptIn_concat_false hτ
  constructor
  · refine restrict_eq A _ _ rfl rfl rfl rfl ?_ rfl rfl rfl rfl ?_ rfl
    · exact filter_concat_false (by simp [hτ])
    · exact List.filter_congr (fun e _ => by
        show (keptMeeting A g e.1
            && keptIn NamedEntity.tenantId A (g.clients ++ [(g.nextId, c)]) e.2)
          = (keptMeeting A g e.1 && keptClient A g e.2)
        rw [hKc]
        rfl)
  · exact
      { m_lt := bound_mono hW.m_lt (Nat.le_succ _)
      , a_lt := bound_mono hW.a_lt (Nat.le_succ _)
      , d_lt := bound_mono hW.d_lt (Nat.le_succ _)
      , p_lt := bound_mono hW.p_lt (Nat.le_succ _)
      , c_lt := bound_concat hW.c_lt
      , pr_lt := bound_mono hW.pr_lt (Nat.le_succ _)
      , hai_lt := ebound_mono hW.hai_lt (Nat.le_succ _)
      , hd_lt := ebound_mono hW.hd_lt (Nat.le_succ _)
      , at_lt := ebound_mono hW.at_lt (Nat.le_succ _)
      , dc_lt := ebound_mono hW.dc_lt (Nat.le_succ _)
      , rp_lt := ebound_mono hW.rp_lt (Nat.le_succ _)
      , nd_m := hW.nd_m
      , nd_a := hW.nd_a
      , nd_d := hW.nd_d
      , nd_p := hW.nd_p
      , nd_c := nd_concat hW.nd_c hW.c_lt
      , nd_pr := hW.nd_pr }

/-- Adding `DISCUSSED_CLIENT` edges to invisible client rows. -/
theorem step_dc_fold {A : String} {m : NodeId} {g : Graph}
    {l : List (NodeId × NamedEntity)} (hW : WF g) (hm : m < g.nextId)
    (hl : ∀ ce ∈ l, keptClient A g ce.1 = false ∧ ce.1 < g.nextId) :
    restrict A { g with discussedClient := l.foldl (fun es ce => addEdgeIfAbsent es (m, ce.1)) g.discussedClient } = restrict A g
    ∧ WF { g with discussedClient := l.foldl (fun es ce => addEdgeIfAbsent es (m, ce.1)) g.discussedClient } := by
  constructor
  · refine restrict_eq A _ _ rfl rfl rfl rfl rfl rfl rfl rfl rfl ?_ rfl
    have h1 : ∀ (es : List (NodeId × NodeId)),
        (l.foldl (fun es' ce => addEdgeIfAbsent es' (m, ce.1)) es).filter
          (fun e => keptMeeting A g e.1 && keptClient A g e.2)
        = es.filter (fun e => keptMeeting A g e.1 && keptClient A g e.2) :=
      filter_fold_addEdge (fun ce hce => by simp [(hl ce hce).1])
    exact (List.filter_congr (fun e _ => rfl)).trans (h1 g.discussedClient)
  · exact
      { m_lt := hW.m_lt
      , a_lt := hW.a_lt
      , d_lt := hW.d_lt
      , p_lt := hW.p_lt
      , c_lt := hW.c_lt
      , pr_lt := hW.pr_lt
      , hai_lt := hW.hai_lt
      , hd_lt := hW.hd_lt
      , at_lt := hW.at_lt
      , dc_lt := ebound_fold_addEdge
          (fun ce hce => ⟨hm, (hl ce hce).2⟩) _ hW.dc_lt
      , rp_lt := hW.rp_lt
      , nd_m := hW.nd_m
      , nd_a := hW.nd_a
      , nd_d := hW.nd_d
      , nd_p := hW.nd_p
      , nd_c := hW.nd_c
      , nd_pr := hW.nd_pr }

/-- Adding one `DISCUSSED_CLIENT` edge to an invisible client row. -/
theorem step_dc_add {A : String} {m cid : NodeId} {g : Graph}
    (hW : WF g) (hm : m < g.nextId) (hc : keptClient A g cid = false)
    (hcid : cid < g.nextId) :
    restrict A { g with discussedClient := addEdgeIfAbsent g.discussedClient (m, cid) } = restrict A g
    ∧ WF { g with discussedClient := addEdgeIfAbsent g.discussedClient (m, cid) } := by
  constructor
  · refine restrict_eq A _ _ rfl rfl rfl rfl rfl rfl rfl rfl rfl ?_ rfl
    have h2 : (addEdgeIfAbsent g.discussedClient (m, cid)).filter
        (fun e => keptMeeting A g e.1 && keptClient A g e.2)
        = g.discussedClient.filter
          (fun e => keptMeeting A g e.1 && keptClient A g e.2) :=
      filter_addEdge_false (by simp [hc])
    exact (List.filter_congr (fun e _ => rfl)).trans h2
  · exact
      { m_lt := hW.m_lt
      , a_lt := hW.a_lt
      , d_lt := hW.d_lt
      , p_lt := hW.p_lt
      , c_lt := hW.c_lt
      , pr_lt := hW.pr_lt
      , hai_lt := hW.hai_lt
      , hd_lt := hW.hd_lt
      , at_lt := hW.at_lt
      , dc_lt := ebound_addEdge hW.dc_lt hm hcid
      , rp_lt := hW.rp_lt
      , nd_m := hW.nd_m
      , nd_a := hW.nd_a
      , nd_d := hW.nd_d
      , nd_p := hW.nd_p
      , nd_c := hW.nd_c
      , nd_pr := hW.nd_pr }

/-- One Client merge row of a foreign tenant is invisible to `A`. -/
theorem step_mergeClientRow {A t name : String} {m : NodeId} {g g' : Graph}
    (hW : WF g) (ht : t ≠ A) (hm : m < g.nextId)
    (h : mergeClientRow (some t) name m g = .ok g') :
    restrict A g' = restrict A g ∧ WF g' ∧ g.nextId ≤ g'.nextId := by
  have htt : (some t : Option String) ≠ some A := by
    intro hc
    exact ht (Option.some.inj hc)
  unfold mergeClientRow at h
  simp only at h
  split at h
  · cases h
    have hac := step_append_client (A := A) (g := g)
      (c := ⟨name, some t⟩) hW htt
    have hkc : keptClient A { g with
        nextId := g.nextId + 1
      , clients := g.clients ++ [(g.nextId, (⟨name, some t⟩ : NamedEntity))] }
        g.nextId = false :=
      keptIn_fresh_false hW.c_lt (Nat.le_refl _) htt
    have hda := step_dc_add (A := A) hac.2 (Nat.lt_succ_of_lt hm) hkc
      (Nat.lt_succ_self _)
    exact ⟨hda.1.trans hac.1, hda.2, Nat.le_succ _⟩
  · cases h
    have hl : ∀ ce ∈ g.clients.filter
        (fun ce => ce.2.name == name && ce.2.tenantId == some t),
        keptClient A g ce.1 = false ∧ ce.1 < g.nextId := by
      intro ce hce
      have hmem := List.mem_of_mem_filter hce
      have hkey := List.of_mem_filter hce
      have hxt : ce.2.tenantId = some t :=
        beq_iff_eq.mp (Bool.and_eq_true _ _ |>.mp hkey).2
      exact ⟨keptIn_false_of_unique hW.nd_c hmem (by rw [hxt]; exact htt),
        hW.c_lt ce hmem⟩
    have hdf := step_dc_fold (A := A) hW hm hl
    exact ⟨hdf.1, hdf.2, Nat.le_refl _⟩

/-- Lift an invisible Except-valued meeting-row step through `foldRows`. -/
theorem foldRowsE_invisible {A : String} {f : NodeId → Graph → Except DbErr Graph}
    (hf : ∀ (m : NodeId) (g g' : Graph), WF g → m < g.nextId → f m g = .ok g' →
      restrict A g' = restrict A g ∧ WF g' ∧ g.nextId ≤ g'.nextId) :
    ∀ (ms : List NodeId) (g g' : Graph), WF g → (∀ m ∈ ms, m < g.nextId) →
    foldRows f ms g = .ok g' →
    restrict A g' = restrict A g ∧ WF g' ∧ g.nextId ≤ g'.nextId := by
  intro ms
  induction ms with
  | nil =>
    intro g g' hW _ h
    cases h
    exact ⟨rfl, hW, Nat.le_refl _⟩
  | cons m ms ih =>
    intro g g' hW hb h
    unfold foldRows at h
    cases hrow : f m g with
    | error e => rw [hrow] at h; cases h
    | ok g1 =>
      rw [hrow] at h
      obtain ⟨r1, w1, n1⟩ := hf m g g1 hW (hb m (by simp)) hrow
      obtain ⟨r2, w2, n2⟩ := ih g1 g' w1
        (fun m' hm' => Nat.lt_of_lt_of_le (hb m' (by simp [hm'])) n1) h
      exact ⟨r2.trans r1, w2, Nat.le_trans n1 n2⟩

/-- The whole Client statement of a foreign tenant is invisible to `A`. -/
theorem step_mergeClientOp {A t name mid : String} {g g' : Graph}
    (hW : WF g) (ht : t ≠ A)
    (h : mergeClientOp (some t) name mid g = .ok g') :
    restrict A g' = restrict A g ∧ WF g' ∧ g.nextId ≤ g'.nextId := by
  unfold mergeClientOp at h
  exact foldRowsE_invisible
    (fun m g1 g2 hW1 hm1 hr => step_mergeClientRow hW1 ht hm1 hr)
    (matchedMeetingIds g mid) g g' hW (matchedMeetingIds_lt hW) h

/-- Appending a fresh Project node of a foreign tenant. -/
theorem step_append_project {A : String} {c : NamedEntity} {g : Graph}
    (hW : WF g) (hτ : c.tenantId ≠ some A) :
    restrict A { g with
        nextId := g.nextId + 1
      , projects := g.projects ++ [(g.nextId, c)] } = restrict A g
    ∧ WF { g with
        nextId := g.nextId + 1
      , projects := g.projects ++ [(g.nextId, c)] } := by
  have hKc : keptIn NamedEntity.tenantId A (g.projects ++ [(g.nextId, c)])
      = keptIn NamedEntity.tenantId A g.projects := keptIn_concat_false hτ
  constructor
  · refine restrict_eq A _ _ rfl rfl rfl rfl rfl ?_ rfl rfl rfl rfl ?_
    · exact filter_concat_false (by simp [hτ])
    · exact List.filter_congr (fun e _ => by
        show (keptMeeting A g e.1
            && keptIn NamedEntity.tenantId A (g.projects ++ [(g.nextId, c)]) e.2)
          = (keptMeeting A g e.1 && keptProject A g e.2)
        rw [hKc]
        rfl)
  · exact
      { m_lt := bound_mono hW.m_lt (Nat.le_succ _)
      , a_lt := bound_mono hW.a_lt (Nat.le_succ _)
      , d_lt := bound_mono hW.d_lt (Nat.le_succ _)
      , p_lt := bound_mono hW.p_lt (Nat.le_succ _)
      , c_lt := bound_mono hW.c_lt (Nat.le_succ _)
      , pr_lt := bound_concat hW.pr_lt
      , hai_lt := ebound_mono hW.hai_lt (Nat.le_succ _)
      , hd_lt := ebound_mono hW.hd_lt (Nat.le_succ _)
      , at_lt := ebound_mono hW.at_lt (Nat.le_succ _)
      , dc_lt := ebound_mono hW.dc_lt (Nat.le_succ _)
      , rp_lt := ebound_mono hW.rp_lt (Nat.le_succ _)
      , nd_m := hW.nd_m
      , nd_a := hW.nd_a
      , nd_d := hW.nd_d
      , nd_p := hW.nd_p
      , nd_c := hW.nd_c
      , nd_pr := nd_concat hW.nd_pr hW.pr_lt }

/-- Adding `RELATES_TO_PROJECT` edges to invisible project rows. -/
theorem step_rp_fold {A : String} {m : NodeId} {g : Graph}
    {l : List (NodeId × NamedEntity)} (hW : WF g) (hm : m < g.nextId)
    (hl : ∀ ce ∈ l, keptProject A g ce.1 = false ∧ ce.1 < g.nextId) :
    restrict A { g with relatesToProject := l.foldl (fun es ce => addEdgeIfAbsent es (m, ce.1)) g.relatesToProject } = restrict A g
    ∧ WF { g with relatesToProject := l.foldl (fun es ce => addEdgeIfAbsent es (m, ce.1)) g.relatesToProject } := by
  constructor
  · refine restrict_eq A _ _ rfl rfl rfl rfl rfl rfl rfl rfl rfl rfl ?_
    have h1 : ∀ (es : List (NodeId × NodeId)),
        (l.foldl (fun es' ce => addEdgeIfAbsent es' (m, ce.1)) es).filter
          (fun e => keptMeeting A g e.1 && keptProject A g e.2)
        = es.filter (fun e => keptMeeting A g e.1 && keptProject A g e.2) :=
      filter_fold_addEdge (fun ce hce => by simp [(hl ce hce).1])
    exact (List.filter_congr (fun e _ => rfl)).trans (h1 g.relatesToProject)
  · exact
      { m_lt := hW.m_lt
      , a_lt := hW.a_lt
      , d_lt := hW.d_lt
      , p_lt := hW.p_lt
      , c_lt := hW.c_lt
      , pr_lt := hW.pr_lt
      , hai_lt := hW.hai_lt
      , hd_lt := hW.hd_lt
      , at_lt := hW.at_lt
      , dc_lt := hW.dc_lt
      , rp_lt := ebound_fold_addEdge
          (fun ce hce => ⟨hm, (hl ce hce).2⟩) _ hW.rp_lt
      , nd_m := hW.nd_m
      , nd_a := hW.nd_a
      , nd_d := hW.nd_d
      , nd_p := hW.nd_p
      , nd_c := hW.nd_c
      , nd_pr := hW.nd_pr }

/-- Adding one `RELATES_TO_PROJECT` edge to an invisible project row. -/
theorem step_rp_add {A : String} {m cid : NodeId} {g : Graph}
    (hW : WF g) (hm : m < g.nextId) (hc : keptProject A g cid = false)
    (hcid : cid < g.nextId) :
    restrict A { g with relatesToProject := addEdgeIfAbsent g.relatesToProject (m, cid) } = restrict A g
    ∧ WF { g with relatesToProject := addEdgeIfAbsent g.relatesToProject (m, cid) } := by
  constructor
  · refine restrict_eq A _ _ rfl rfl rfl rfl rfl rfl rfl rfl rfl rfl ?_
    have h2 : (addEdgeIfAbsent g.relatesToProject (m, cid)).filter
        (fun e => keptMeeting A g e.1 && keptProject A g e.2)
        = g.relatesToProject.filter
          (fun e => keptMeeting A g e.1 && keptProject A g e.2) :=
      filter_addEdge_false (by simp [hc])
    exact (List.filter_congr (fun e _ => rfl)).trans h2
  · exact
      { m_lt := hW.m_lt
      , a_lt := hW.a_lt
      , d_lt := hW.d_lt
      , p_lt := hW.p_lt
      , c_lt := hW.c_lt
      , pr_lt := hW.pr_lt
      , hai_lt := hW.hai_lt
      , hd_lt := hW.hd_lt
      , at_lt := hW.at_lt
      , dc_lt := hW.dc_lt
      , rp_lt := ebound_addEdge hW.rp_lt hm hcid
      , nd_m := hW.nd_m
      , nd_a := hW.nd_a
      , nd_d := hW.nd_d
      , nd_p := hW.nd_p
      , nd_c := hW.nd_c
      , nd_pr := hW.nd_pr }

/-- One Project merge row of a foreign tenant is invisible to `A`. -/
theorem step_mergeProjectRow {A t name : String} {m : NodeId} {g g' : Graph}
    (hW : WF g) (ht : t ≠ A) (hm : m < g.nextId)
    (h : mergeProjectRow (some t) name m g = .ok g') :
    restrict A g' = restrict A g ∧ WF g' ∧ g.nextId ≤ g'.nextId := by
  have htt : (some t : Option String) ≠ some A := by
    intro hc
    exact ht (Option.some.inj hc)
  unfold mergeProjectRow at h
  simp only at h
  split at h
  · cases h
    have hac := step_append_project (A := A) (g := g)
      (c := ⟨name, some t⟩) hW htt
    have hkc : keptProject A { g with
        nextId := g.nextId + 1
      , projects := g.projects ++ [(g.nextId, (⟨name, some t⟩ : NamedEntity))] }
        g.nextId = false :=
      keptIn_fresh_false hW.pr_lt (Nat.le_refl _) htt
    have hda := step_rp_add (A := A) hac.2 (Nat.lt_succ_of_lt hm) hkc
      (Nat.lt_succ_self _)
    exact ⟨hda.1.trans hac.1, hda.2, Nat.le_succ _⟩
  · cases h
    have hl : ∀ ce ∈ g.projects.filter
        (fun pe => pe.2.name == name && pe.2.tenantId == some t),
        keptProject A g ce.1 = false ∧ ce.1 < g.nextId := by
      intro ce hce
      have hmem := List.mem_of_mem_filter hce
      have hkey := List.of_mem_filter hce
      have hxt : ce.2.tenantId = some t :=
        beq_iff_eq.mp (Bool.and_eq_true _ _ |>.mp hkey).2
      exact ⟨keptIn_false_of_unique hW.nd_pr hmem (by rw [hxt]; exact htt),
        hW.pr_lt ce hmem⟩
    have hdf := step_rp_fold (A := A) hW hm hl
    exact ⟨hdf.1, hdf.2, Nat.le_refl _⟩

/-- The whole Project statement of a foreign tenant is invisible to `A`. -/
theorem step_mergeProjectOp {A t name mid : String} {g g' : Graph}
    (hW : WF g) (ht : t ≠ A)
    (h : mergeProjectOp (some t) name mid g = .ok g') :
    restrict A g' = restrict A g ∧ WF g' ∧ g.nextId ≤ g'.nextId := by
  unfold mergeProjectOp at h
  exact foldRowsE_invisible
    (fun m g1 g2 hW1 hm1 hr => step_mergeProjectRow hW1 ht hm1 hr)
    (matchedMeetingIds g mid) g g' hW (matchedMeetingIds_lt hW) h

theorem mergePersonEmailOp_none {email name role now aid : String} {g : Graph} :
    mergePersonEmailOp none email name role now aid g = .error .nullMerge := rfl

theorem mergePersonNameOp_none {name aid : String} {g : Graph} :
    mergePersonNameOp none name aid g = .error .nullMerge := rfl

/-- The action-item loop of a foreign tenant is invisible to `A`. -/
theorem runItems_invisible {A : String} {fault : Nat → Bool} {τ : Option String}
    {atts : List Attendee} {mid now : String} (hτ : τ ≠ some A) :
    ∀ {items : List ActionItemInput} {idx n : Nat} {g : Graph} {n' : Nat}
      {g' : Graph}, WF g →
    runItems fault τ atts mid now idx n items g = .ok (n', g') →
    restrict A g' = restrict A g ∧ WF g' ∧ g.nextId ≤ g'.nextId := by
  intro items
  induction items with
  | nil =>
    intro idx n g n' g' hW h
    unfold runItems at h
    cases h
    exact ⟨rfl, hW, Nat.le_refl _⟩
  | cons item rest ih =>
    intro idx n g n' g' hW h
    unfold runItems at h
    cases htx : txRun fault n g
        (fun g'' => .ok (createActionOp τ mid idx item g'')) with
    | error e => rw [htx] at h; cases h
    | ok p =>
      rw [htx] at h
      have hp := txRun_pure_ok htx
      subst hp
      obtain ⟨r1, w1, n1⟩ := step_createActionOp (A := A)
        (i := idx) (x := item) (s := mid) hW hτ
      simp only at h
      split at h
      · cases htx2 : txRun fault (n + 1) (createActionOp τ mid idx item g)
            (fun g'' =>
              match (resolveAssignee (item.assignee.getD "unassigned") atts).1 with
              | some email =>
                mergePersonEmailOp τ email
                  (resolveAssignee (item.assignee.getD "unassigned") atts).2
                  (item.assigneeRole.getD "") now (mid ++ "_action_" ++ toString idx) g''
              | none =>
                mergePersonNameOp τ
                  (resolveAssignee (item.assignee.getD "unassigned") atts).2
                  (mid ++ "_action_" ++ toString idx) g'') with
        | error e => rw [htx2] at h; cases h
        | ok p2 =>
          rw [htx2] at h
          obtain ⟨g2, hf, hp2⟩ := txRun_ok_inv htx2
          subst hp2
          have hstep2 : restrict A g2 = restrict A (createActionOp τ mid idx item g)
              ∧ WF g2 ∧ (createActionOp τ mid idx item g).nextId ≤ g2.nextId := by
            cases hτv : τ with
            | none =>
              subst hτv
              cases hr : (resolveAssignee (item.assignee.getD "unassigned") atts).1 with
              | some email =>
                rw [hr] at hf
                dsimp only at hf
                rw [mergePersonEmailOp_none] at hf
                cases hf
              | none =>
                rw [hr] at hf
                dsimp only at hf
                rw [mergePersonNameOp_none] at hf
                cases hf
            | some t =>
              subst hτv
              have ht : t ≠ A := by
                intro hc
                apply hτ
                rw [hc]
              cases hr : (resolveAssignee (item.assignee.getD "unassigned") atts).1 with
              | some email =>
                rw [hr] at hf
                dsimp only at hf
                exact step_mergePersonEmail w1 ht hf
              | none =>
                rw [hr] at hf
                dsimp only at hf
                exact step_mergePersonName w1 ht hf
          obtain ⟨r2, w2, n2⟩ := hstep2
          obtain ⟨r3, w3, n3⟩ := ih w2 h
          exact ⟨(r3.trans r2).trans r1, w3,
            Nat.le_trans n1 (Nat.le_trans n2 n3)⟩
      · obtain ⟨r3, w3, n3⟩ := ih w1 h
        exact ⟨r3.trans r1, w3, Nat.le_trans n1 n3⟩

/-- The decision loop of a foreign tenant is invisible to `A`. -/
theorem runDecisions_invisible {A : String} {fault : Nat → Bool}
    {τ : Option String} {mid : String} (hτ : τ ≠ some A) :
    ∀ {texts : List String} {idx n : Nat} {g : Graph} {n' : Nat} {g' : Graph},
    WF g → runDecisions fault τ mid idx n texts g = .ok (n', g') →
    restrict A g' = restrict A g ∧ WF g' ∧ g.nextId ≤ g'.nextId := by
  intro texts
  induction texts with
  | nil =>
    intro idx n g n' g' hW h
    unfold runDecisions at h
    cases h
    exact ⟨rfl, hW, Nat.le_refl _⟩
  | cons text rest ih =>
    intro idx n g n' g' hW h
    unfold runDecisions at h
    cases htx : txRun fault n g
        (fun g'' => .ok (createDecisionOp τ mid idx text g'')) with
    | error e => rw [htx] at h; cases h
    | ok p =>
      rw [htx] at h
      have hp := txRun_pure_ok htx
      subst hp
      obtain ⟨r1, w1, n1⟩ := step_createDecisionOp (A := A)
        (i := idx) (x := text) (s := mid) hW hτ
      obtain ⟨r2, w2, n2⟩ := ih w1 h
      exact ⟨r2.trans r1, w2, Nat.le_trans n1 n2⟩

/-- The client loop of a foreign tenant is invisible to `A`. -/
theorem runClients_invisible {A : String} {fault : Nat → Bool}
    {τ : Option String} {mid : String} (hτ : τ ≠ some A) :
    ∀ {names : List String} {n : Nat} {g : Graph} {n' : Nat} {g' : Graph},
    WF g → runClients fault τ mid n names g = .ok (n', g') →
    restrict A g' = restrict A g ∧ WF g' ∧ g.nextId ≤ g'.nextId := by
  intro names
  induction names with
  | nil =>
    intro n g n' g' hW h
    unfold runClients at h
    cases h
    exact ⟨rfl, hW, Nat.le_refl _⟩
  | cons c rest ih =>
    intro n g n' g' hW h
    unfold runClients at h
    split at h
    · exact ih hW h
    · cases htx : txRun fault n g (mergeClientOp τ c mid) with
      | error e => rw [htx] at h; cases h
      | ok p =>
        rw [htx] at h
        obtain ⟨g1, hf, hp⟩ := txRun_ok_inv htx
        subst hp
        have hstep : restrict A g1 = restrict A g ∧ WF g1 ∧ g.nextId ≤ g1.nextId := by
          cases hτv : τ with
          | none =>
            subst hτv
            unfold mergeClientOp at hf
            cases hms : matchedMeetingIds g mid with
            | nil =>
              rw [hms] at hf
              cases hf
              exact ⟨rfl, hW, Nat.le_refl _⟩
            | cons m ms =>
              rw [hms] at hf
              unfold foldRows at hf
              unfold mergeClientRow at hf
              cases hf
          | some t =>
            subst hτv
            have ht : t ≠ A := by
              intro hc
              apply hτ
              rw [hc]
            exact step_mergeClientOp hW ht hf
        obtain ⟨r1, w1, n1⟩ := hstep
        obtain ⟨r2, w2, n2⟩ := ih w1 h
        exact ⟨r2.trans r1, w2, Nat.le_trans n1 n2⟩

/-- The project loop of a foreign tenant is invisible to `A`. -/
theorem runProjects_invisible {A : String} {fault : Nat → Bool}
    {τ : Option String} {mid : String} (hτ : τ ≠ some A) :
    ∀ {names : List String} {n : Nat} {g : Graph} {n' : Nat} {g' : Graph},
    WF g → runProjects fault τ mid n names g = .ok (n', g') →
    restrict A g' = restrict A g ∧ WF g' ∧ g.nextId ≤ g'.nextId := by
  intro names
  induction names with
  | nil =>
    intro n g n' g' hW h
    unfold runProjects at h
    cases h
    exact ⟨rfl, hW, Nat.le_refl _⟩
  | cons c rest ih =>
    intro n g n' g' hW h
    unfold runProjects at h
    split at h
    · exact ih hW h
    · cases htx : txRun fault n g (mergeProjectOp τ c mid) with
      | error e => rw [htx] at h; cases h
      | ok p =>
        rw [htx] at h
        obtain ⟨g1, hf, hp⟩ := txRun_ok_inv htx
        subst hp
        have hstep : restrict A g1 = restrict A g ∧ WF g1 ∧ g.nextId ≤ g1.nextId := by
          cases hτv : τ with
          | none =>
            subst hτv
            unfold mergeProjectOp at hf
            cases hms : matchedMeetingIds g mid with
            | nil =>
              rw [hms] at hf
              cases hf
              exact ⟨rfl, hW, Nat.le_refl _⟩
            | cons m ms =>
              rw [hms] at hf
              unfold foldRows at hf
              unfold mergeProjectRow at hf
              cases hf
          | some t =>
            subst hτv
            have ht : t ≠ A := by
              intro hc
              apply hτ
              rw [hc]
            exact step_mergeProjectOp hW ht hf
        obtain ⟨r1, w1, n1⟩ := hstep
        obtain ⟨r2, w2, n2⟩ := ih w1 h
        exact ⟨r2.trans r1, w2, Nat.le_trans n1 n2⟩

/-- A successful transaction of a foreign tenant leaves the tenant-`A` view
of the graph unchanged, and preserves well-formedness. -/
theorem storeTx_invisible {A : String} {fault : Nat → Bool} {now mid : String}
    {a : Analysis} {g : Graph} {n' : Nat} {g' : Graph}
    (hW : WF g) (hτ : a.tenantId ≠ some A)
    (h : storeTx fault now mid a g = .ok (n', g')) :
    restrict A g' = restrict A g ∧ WF g' := by
  obtain ⟨n1, g1, n2, g2, n3, g3, n4, g4, h1, h2, h3, h4, h5⟩ := storeTx_inv h
  have e1 := txRun_pure_ok h1
  have hg1 : g1 = createMeetingOp now mid a g := congrArg Prod.snd e1
  subst hg1
  obtain ⟨r1, w1⟩ := step_createMeetingOp (A := A) (w := now) (s := mid) hW hτ
  have s2 : restrict A g2 = restrict A (createMeetingOp now mid a g) ∧ WF g2 := by
    by_cases hc : a.actionItems.isEmpty
    · rw [if_pos hc] at h2
      cases h2
      exact ⟨rfl, w1⟩
    · rw [if_neg hc] at h2
      obtain ⟨r, w, _⟩ := runItems_invisible hτ w1 h2
      exact ⟨r, w⟩
  have s3 : restrict A g3 = restrict A g2 ∧ WF g3 := by
    by_cases hc : a.keyDecisions.isEmpty
    · rw [if_pos hc] at h3
      cases h3
      exact ⟨rfl, s2.2⟩
    · rw [if_neg hc] at h3
      obtain ⟨r, w, _⟩ := runDecisions_invisible hτ s2.2 h3
      exact ⟨r, w⟩
  have s4 : restrict A g4 = restrict A g3 ∧ WF g4 := by
    by_cases hc : a.mentionedClients.isEmpty
    · rw [if_pos hc] at h4
      cases h4
      exact ⟨rfl, s3.2⟩
    · rw [if_neg hc] at h4
      obtain ⟨r, w, _⟩ := runClients_invisible hτ s3.2 h4
      exact ⟨r, w⟩
  have s5 : restrict A g' = restrict A g4 ∧ WF g' := by
    by_cases hc : a.mentionedProjects.isEmpty
    · rw [if_pos hc] at h5
      cases h5
      exact ⟨rfl, s4.2⟩
    · rw [if_neg hc] at h5
      obtain ⟨r, w, _⟩ := runProjects_invisible hτ s4.2 h5
      exact ⟨r, w⟩
  exact ⟨((s5.1.trans s4.1).trans s3.1).trans (s2.1.trans r1), s5.2⟩

/-- Whatever `store_meeting_data` does for a foreign tenant — success or
rollback — the tenant-`A` view is unchanged and the graph stays
well-formed. -/
theorem store_invisible {A : String} {fault : Nat → Bool} {now : String}
    {a : Analysis} {g g' : Graph} {b : Bool}
    (hW : WF g) (hτ : a.tenantId ≠ some A)
    (h : store_meeting_data fault now a g = (b, g')) :
    restrict A g' = restrict A g ∧ WF g' := by
  unfold store_meeting_data at h
  cases hmid : a.meetingId with
  | none =>
    rw [hmid] at h
    cases h
    exact ⟨rfl, hW⟩
  | some mid =>
    rw [hmid] at h
    dsimp only at h
    by_cases hne : (mid == "") = true
    · rw [if_pos hne] at h
      cases h
      exact ⟨rfl, hW⟩
    · rw [if_neg hne] at h
      cases htx : storeTx fault now mid a g with
      | error e =>
        rw [htx] at h
        cases h
        exact ⟨rfl, hW⟩
      | ok p =>
        rw [htx] at h
        obtain ⟨n2, g2⟩ := p
        cases h
        exact storeTx_invisible hW hτ htx

/-- Any `store_meeting_data` call preserves well-formedness. -/
theorem store_WF {fault : Nat → Bool} {now : String} {a : Analysis}
    {g g' : Graph} {b : Bool}
    (hW : WF g) (h : store_meeting_data fault now a g = (b, g')) : WF g' := by
  cases hτ : a.tenantId with
  | none => exact (store_invisible (A := "x") hW (by rw [hτ]; simp) h).2
  | some t =>
    have hne : t ≠ t ++ "!" := by
      intro hc
      have hlen : t.length = (t ++ "!").length := by rw [← hc]
      rw [String.length_append] at hlen
      have h1 : ("!" : String).length = 1 := rfl
      omega
    exact (store_invisible (A := t ++ "!") hW
      (by rw [hτ]; intro hcc; exact hne (Option.some.inj hcc)) h).2

/-- The empty database is well-formed. -/
theorem WF_empty : WF Graph.empty := by
  constructor <;> first
    | exact List.nodup_nil
    | (intro p hp; cases hp)

theorem keptIn_true_of_mem {α : Type} {tid : α → Option String} {A : String}
    {l : List (NodeId × α)} {x : NodeId × α}
    (hx : x ∈ l) (ht : tid x.2 = some A) : keptIn tid A l x.1 = true := by
  unfold keptIn
  rw [List.any_eq_true]
  exact ⟨x, hx, by simp [ht]⟩

/-- The meeting leg of `get_action_items_by_person` reads only the tenant
view. -/
theorem aipMeetings_restrict {t : String} {g : Graph} {a : ActionItemNode}
    {aid : NodeId} (hkept : keptAction t g aid = true) :
    aipMeetings t g a aid = aipMeetings t (restrict t g) a aid := by
  unfold aipMeetings
  have step1 : g.hasActionItem.flatMap (fun hd =>
      if hd.2 == aid then
        g.meetings.flatMap (fun me =>
          if me.1 == hd.1 && me.2.tenantId == some t then [aipRow a me.2]
          else [])
      else [])
      = (g.hasActionItem.filter
          (fun e => keptMeeting t g e.1 && keptAction t g e.2)).flatMap (fun hd =>
        if hd.2 == aid then
          g.meetings.flatMap (fun me =>
            if me.1 == hd.1 && me.2.tenantId == some t then [aipRow a me.2]
            else [])
        else []) := by
    refine (filter_flatMap_of ?_).symm
    intro hd _ hq
    by_cases h2 : (hd.2 == aid) = true
    · rw [if_pos h2]
      have haid : hd.2 = aid := beq_iff_eq.mp h2
      rw [Bool.and_eq_false_iff] at hq
      rcases hq with hq | hq
      · refine flatMap_nil_of ?_
        intro me hme
        by_cases h3 : (me.1 == hd.1 && me.2.tenantId == some t) = true
        · exfalso
          obtain ⟨h31, h32⟩ := Bool.and_eq_true _ _ |>.mp h3
          have : keptMeeting t g hd.1 = true := by
            rw [← beq_iff_eq.mp h31]
            exact keptIn_true_of_mem hme (beq_iff_eq.mp h32)
          rw [this] at hq
          cases hq
        · rw [if_neg h3]
      · exfalso
        rw [haid, hkept] at hq
        cases hq
    · rw [if_neg h2]
  rw [step1]
  refine flatMap_congr_mem ?_
  intro hd _
  by_cases h2 : (hd.2 == aid) = true
  · rw [if_pos h2, if_pos h2]
    refine (filter_flatMap_of ?_).symm
    intro me _ hq
    by_cases h3 : (me.1 == hd.1 && me.2.tenantId == some t) = true
    · exfalso
      have := (Bool.and_eq_true _ _ |>.mp h3).2
      rw [this] at hq
      cases hq
    · rw [if_neg h3]
  · rw [if_neg h2, if_neg h2]

/-- The action leg of `get_action_items_by_person` reads only the tenant
view. -/
theorem aipActions_restrict {t : String} {g : Graph} {pid : NodeId}
    (hkept : keptPerson t g pid = true) :
    aipActions t g pid = aipActions t (restrict t g) pid := by
  unfold aipActions
  have step1 : g.assignedTo.flatMap (fun ed =>
      if ed.1 == pid then
        g.actions.flatMap (fun ae =>
          if ae.1 == ed.2 && ae.2.tenantId == some t then
            aipMeetings t g ae.2 ae.1
          else [])
      else [])
      = (g.assignedTo.filter
          (fun e => keptPerson t g e.1 && keptAction t g e.2)).flatMap (fun ed =>
        if ed.1 == pid then
          g.actions.flatMap (fun ae =>
            if ae.1 == ed.2 && ae.2.tenantId == some t then
              aipMeetings t g ae.2 ae.1
            else [])
        else []) := by
    refine (filter_flatMap_of ?_).symm
    intro ed _ hq
    by_cases h2 : (ed.1 == pid) = true
    · rw [if_pos h2]
      rw [Bool.and_eq_false_iff] at hq
      rcases hq with hq | hq
      · exfalso
        rw [beq_iff_eq.mp h2, hkept] at hq
        cases hq
      · refine flatMap_nil_of ?_
        intro ae hae
        by_cases h3 : (ae.1 == ed.2 && ae.2.tenantId == some t) = true
        · exfalso
          obtain ⟨h31, h32⟩ := Bool.and_eq_true _ _ |>.mp h3
          have : keptAction t g ed.2 = true := by
            rw [← beq_iff_eq.mp h31]
            exact keptIn_true_of_mem hae (beq_iff_eq.mp h32)
          rw [this] at hq
          cases hq
        · rw [if_neg h3]
    · rw [if_neg h2]
  rw [step1]
  refine flatMap_congr_mem ?_
  intro ed _
  by_cases h2 : (ed.1 == pid) = true
  · rw [if_pos h2, if_pos h2]
    have step2 : g.actions.flatMap (fun ae =>
        if ae.1 == ed.2 && ae.2.tenantId == some t then
          aipMeetings t g ae.2 ae.1
        else [])
        = (g.actions.filter (fun x => x.2.tenantId == some t)).flatMap (fun ae =>
          if ae.1 == ed.2 && ae.2.tenantId == some t then
            aipMeetings t g ae.2 ae.1
          else []) := by
      refine (filter_flatMap_of ?_).symm
      intro ae _ hq
      by_cases h3 : (ae.1 == ed.2 && ae.2.tenantId == some t) = true
      · exfalso
        rw [(Bool.and_eq_true _ _ |>.mp h3).2] at hq
        cases hq
      · rw [if_neg h3]
    rw [step2]
    refine flatMap_congr_mem ?_
    intro ae hae
    by_cases h3 : (ae.1 == ed.2 && ae.2.tenantId == some t) = true
    · rw [if_pos h3, if_pos h3]
      exact aipMeetings_restrict
        (keptIn_true_of_mem (List.mem_of_mem_filter hae)
          (beq_iff_eq.mp (Bool.and_eq_true _ _ |>.mp h3).2))
    · rw [if_neg h3, if_neg h3]
  · rw [if_neg h2, if_neg h2]

/-- The row set of `get_action_items_by_person` reads only the tenant view. -/
theorem actionRows_restrict (t name : String) (g : Graph) :
    actionRowsUnsorted t name g = actionRowsUnsorted t name (restrict t g) := by
  unfold actionRowsUnsorted
  have step1 : g.persons.flatMap (fun pe =>
      if pe.2.name == some name && pe.2.tenantId == some t then
        aipActions t g pe.1
      else [])
      = (g.persons.filter (fun x => x.2.tenantId == some t)).flatMap (fun pe =>
        if pe.2.name == some name && pe.2.tenantId == some t then
          aipActions t g pe.1
        else []) := by
    refine (filter_flatMap_of ?_).symm
    intro pe _ hq
    by_cases h2 : (pe.2.name == some name && pe.2.tenantId == some t) = true
    · exfalso
      rw [(Bool.and_eq_true _ _ |>.mp h2).2] at hq
      cases hq
    · rw [if_neg h2]
  rw [step1]
  refine flatMap_congr_mem ?_
  intro pe hpe
  by_cases h2 : (pe.2.name == some name && pe.2.tenantId == some t) = true
  · rw [if_pos h2, if_pos h2]
    exact aipActions_restrict
      (keptIn_true_of_mem (List.mem_of_mem_filter hpe)
        (beq_iff_eq.mp (Bool.and_eq_true _ _ |>.mp h2).2))
  · rw [if_neg h2, if_neg h2]

/-- The project leg of `get_meetings_by_project` reads only the tenant view. -/
theorem mbpProjects_restrict {t name : String} {g : Graph} {mi : NodeId}
    {me : MeetingNode} (hkept : keptMeeting t g mi = true) :
    mbpProjects t name g mi me = mbpProjects t name (restrict t g) mi me := by
  unfold mbpProjects
  have step1 : g.relatesToProject.flatMap (fun ed =>
      if ed.1 == mi then
        g.projects.flatMap (fun pe =>
          if pe.1 == ed.2 && pe.2.name == name && pe.2.tenantId == some t then
            [meetingRowOf me]
          else [])
      else [])
      = (g.relatesToProject.filter
          (fun e => keptMeeting t g e.1 && keptProject t g e.2)).flatMap (fun ed =>
        if ed.1 == mi then
          g.projects.flatMap (fun pe =>
            if pe.1 == ed.2 && pe.2.name == name && pe.2.tenantId == some t then
              [meetingRowOf me]
            else [])
        else []) := by
    refine (filter_flatMap_of ?_).symm
    intro ed _ hq
    by_cases h2 : (ed.1 == mi) = true
    · rw [if_pos h2]
      rw [Bool.and_eq_false_iff] at hq
      rcases hq with hq | hq
      · exfalso
        rw [beq_iff_eq.mp h2, hkept] at hq
        cases hq
      · refine flatMap_nil_of ?_
        intro pe hpe
        by_cases h3 : (pe.1 == ed.2 && pe.2.name == name
            && pe.2.tenantId == some t) = true
        · exfalso
          have h31 : (pe.1 == ed.2) = true := by
            have := Bool.and_eq_true _ _ |>.mp
              (Bool.and_eq_true _ _ |>.mp h3).1
            exact this.1
          have h33 : (pe.2.tenantId == some t) = true :=
            (Bool.and_eq_true _ _ |>.mp h3).2
          have : keptProject t g ed.2 = true := by
            rw [← beq_iff_eq.mp h31]
            exact keptIn_true_of_mem hpe (beq_iff_eq.mp h33)
          rw [this] at hq
          cases hq
        · rw [if_neg h3]
    · rw [if_neg h2]
  rw [step1]
  refine flatMap_congr_mem ?_
  intro ed _
  by_cases h2 : (ed.1 == mi) = true
  · rw [if_pos h2, if_pos h2]
    refine (filter_flatMap_of ?_).symm
    intro pe _ hq
    by_cases h3 : (pe.1 == ed.2 && pe.2.name == name
        && pe.2.tenantId == some t) = true
    · exfalso
      rw [(Bool.and_eq_true _ _ |>.mp h3).2] at hq
      cases hq
    · rw [if_neg h3]
  · rw [if_neg h2, if_neg h2]

/-- The meeting leg of `get_client_relationships` reads only the tenant view. -/
theorem crMeetings_restrict {t cname : String} {g : Graph} {ci : NodeId}
    (hkept : keptClient t g ci = true) :
    crMeetings t cname g ci = crMeetings t cname (restrict t g) ci := by
  unfold crMeetings
  have step1 : g.discussedClient.flatMap (fun ed =>
      if ed.2 == ci then
        g.meetings.flatMap (fun me =>
          if me.1 == ed.1 && me.2.tenantId == some t then [(cname, me.2.title)]
          else [])
      else [])
      = (g.discussedClient.filter
          (fun e => keptMeeting t g e.1 && keptClient t g e.2)).flatMap (fun ed =>
        if ed.2 == ci then
          g.meetings.flatMap (fun me =>
            if me.1 == ed.1 && me.2.tenantId == some t then [(cname, me.2.title)]
            else [])
        else []) := by
    refine (filter_flatMap_of ?_).symm
    intro ed _ hq
    by_cases h2 : (ed.2 == ci) = true
    · rw [if_pos h2]
      rw [Bool.and_eq_false_iff] at hq
      rcases hq with hq | hq
      · refine flatMap_nil_of ?_
        intro me hme
        by_cases h3 : (me.1 == ed.1 && me.2.tenantId == some t) = true
        · exfalso
          obtain ⟨h31, h32⟩ := Bool.and_eq_true _ _ |>.mp h3
          have : keptMeeting t g ed.1 = true := by
            rw [← beq_iff_eq.mp h31]
            exact keptIn_true_of_mem hme (beq_iff_eq.mp h32)
          rw [this] at hq
          cases hq
        · rw [if_neg h3]
      · exfalso
        rw [beq_iff_eq.mp h2, hkept] at hq
        cases hq
    · rw [if_neg h2]
  rw [step1]
  refine flatMap_congr_mem ?_
  intro ed _
  by_cases h2 : (ed.2 == ci) = true
  · rw [if_pos h2, if_pos h2]
    refine (filter_flatMap_of ?_).symm
    intro me _ hq
    by_cases h3 : (me.1 == ed.1 && me.2.tenantId == some t) = true
    · exfalso
      rw [(Bool.and_eq_true _ _ |>.mp h3).2] at hq
      cases hq
    · rw [if_neg h3]
  · rw [if_neg h2, if_neg h2]

/-- The decision aggregation of `get_historical_context` reads only the
tenant view. -/
theorem histDecNodes_restrict {t : String} {g : Graph} {mi : NodeId}
    (hkept : keptMeeting t g mi = true) :
    histDecNodes t g mi = histDecNodes t (restrict t g) mi := by
  unfold histDecNodes
  have step1 : g.hasDecision.flatMap (fun ed =>
      if ed.1 == mi then
        g.decisionNodes.flatMap (fun de =>
          if de.1 == ed.2 && de.2.tenantId == some t then [de.2] else [])
      else [])
      = (g.hasDecision.filter
          (fun e => keptMeeting t g e.1 && keptDecision t g e.2)).flatMap (fun ed =>
        if ed.1 == mi then
          g.decisionNodes.flatMap (fun de =>
            if de.1 == ed.2 && de.2.tenantId == some t then [de.2] else [])
        else []) := by
    refine (filter_flatMap_of ?_).symm
    intro ed _ hq
    by_cases h2 : (ed.1 == mi) = true
    · rw [if_pos h2]
      rw [Bool.and_eq_false_iff] at hq
      rcases hq with hq | hq
      · exfalso
        rw [beq_iff_eq.mp h2, hkept] at hq
        cases hq
      · refine flatMap_nil_of ?_
        intro de hde
        by_cases h3 : (de.1 == ed.2 && de.2.tenantId == some t) = true
        · exfalso
          obtain ⟨h31, h32⟩ := Bool.and_eq_true _ _ |>.mp h3
          have : keptDecision t g ed.2 = true := by
            rw [← beq_iff_eq.mp h31]
            exact keptIn_true_of_mem hde (beq_iff_eq.mp h32)
          rw [this] at hq
          cases hq
        · rw [if_neg h3]
    · rw [if_neg h2]
  rw [step1]
  refine flatMap_congr_mem ?_
  intro ed _
  by_cases h2 : (ed.1 == mi) = true
  · rw [if_pos h2, if_pos h2]
    refine (filter_flatMap_of ?_).symm
    intro de _ hq
    by_cases h3 : (de.1 == ed.2 && de.2.tenantId == some t) = true
    · exfalso
      rw [(Bool.and_eq_true _ _ |>.mp h3).2] at hq
      cases hq
    · rw [if_neg h3]
  · rw [if_neg h2, if_neg h2]

/-- The task aggregation of `get_historical_context` reads only the tenant
view. -/
theorem histTasks_restrict {t : String} {g : Graph} {mi : NodeId}
    (hkept : keptMeeting t g mi = true) :
    histTasks t g mi = histTasks t (restrict t g) mi := by
  unfold histTasks
  have step1 : g.hasActionItem.flatMap (fun ed =>
      if ed.1 == mi then
        g.actions.flatMap (fun ae =>
          if ae.1 == ed.2 && ae.2.tenantId == some t then [ae.2.task] else [])
      else [])
      = (g.hasActionItem.filter
          (fun e => keptMeeting t g e.1 && keptAction t g e.2)).flatMap (fun ed =>
        if ed.1 == mi then
          g.actions.flatMap (fun ae =>
            if ae.1 == ed.2 && ae.2.tenantId == some t then [ae.2.task] else [])
        else []) := by
    refine (filter_flatMap_of ?_).symm
    intro ed _ hq
    by_cases h2 : (ed.1 == mi) = true
    · rw [if_pos h2]
      rw [Bool.and_eq_false_iff] at hq
      rcases hq with hq | hq
      · exfalso
        rw [beq_iff_eq.mp h2, hkept] at hq
        cases hq
      · refine flatMap_nil_of ?_
        intro ae hae
        by_cases h3 : (ae.1 == ed.2 && ae.2.tenantId == some t) = true
        · exfalso
          obtain ⟨h31, h32⟩ := Bool.and_eq_true _ _ |>.mp h3
          have : keptAction t g ed.2 = true := by
            rw [← beq_iff_eq.mp h31]
            exact keptIn_true_of_mem hae (beq_iff_eq.mp h32)
          rw [this] at hq
          cases hq
        · rw [if_neg h3]
    · rw [if_neg h2]
  rw [step1]
  refine flatMap_congr_mem ?_
  intro ed _
  by_cases h2 : (ed.1 == mi) = true
  · rw [if_pos h2, if_pos h2]
    refine (filter_flatMap_of ?_).symm
    intro ae _ hq
    by_cases h3 : (ae.1 == ed.2 && ae.2.tenantId == some t) = true
    · exfalso
      rw [(Bool.and_eq_true _ _ |>.mp h3).2] at hq
      cases hq
    · rw [if_neg h3]
  · rw [if_neg h2, if_neg h2]

theorem get_action_items_by_person_restrict (t name : String) (g : Graph)
    (fail : Bool) :
    get_action_items_by_person t name g fail
      = get_action_items_by_person t name (restrict t g) fail := by
  unfold get_action_items_by_person
  cases fail
  · simp only [Bool.false_eq_true, if_false]
    rw [actionRows_restrict]
  · rfl

theorem get_meetings_by_project_restrict (t name : String) (g : Graph)
    (fail : Bool) :
    get_meetings_by_project t name g fail
      = get_meetings_by_project t name (restrict t g) fail := by
  unfold get_meetings_by_project
  cases fail
  · simp only [Bool.false_eq_true, if_false]
    congr 1
    have step1 : g.meetings.flatMap (fun me =>
        if me.2.tenantId == some t then mbpProjects t name g me.1 me.2 else [])
        = (g.meetings.filter (fun x => x.2.tenantId == some t)).flatMap (fun me =>
          if me.2.tenantId == some t then mbpProjects t name g me.1 me.2
          else []) := by
      refine (filter_flatMap_of ?_).symm
      intro me _ hq
      rw [if_neg (by simp [hq])]
    rw [step1]
    refine flatMap_congr_mem ?_
    intro me hme
    by_cases h2 : (me.2.tenantId == some t) = true
    · rw [if_pos h2, if_pos h2]
      exact mbpProjects_restrict
        (keptIn_true_of_mem (List.mem_of_mem_filter hme) (beq_iff_eq.mp h2))
    · rw [if_neg h2, if_neg h2]
  · rfl

theorem clientPairs_restrict (t : String) (nf : Option String) (g : Graph) :
    clientPairs t nf g = clientPairs t nf (restrict t g) := by
  unfold clientPairs
  cases nf with
  | some n =>
    have step1 : g.clients.flatMap (fun ce =>
        if (ce.2.name == n) && ce.2.tenantId == some t then
          crMeetings t ce.2.name g ce.1
        else [])
        = (g.clients.filter (fun x => x.2.tenantId == some t)).flatMap (fun ce =>
          if (ce.2.name == n) && ce.2.tenantId == some t then
            crMeetings t ce.2.name g ce.1
          else []) := by
      refine (filter_flatMap_of ?_).symm
      intro ce _ hq
      rw [if_neg (by simp [hq])]
    rw [show (fun ce : NodeId × NamedEntity =>
        if (match (some n : Option String) with
            | some n' => ce.2.name == n'
            | none => true) && ce.2.tenantId == some t then
          crMeetings t ce.2.name g ce.1
        else [])
      = (fun ce : NodeId × NamedEntity =>
        if (ce.2.name == n) && ce.2.tenantId == some t then
          crMeetings t ce.2.name g ce.1
        else []) from rfl]
    rw [step1]
    refine flatMap_congr_mem ?_
    intro ce hce
    by_cases h2 : ((ce.2.name == n) && ce.2.tenantId == some t) = true
    · rw [if_pos h2, if_pos h2]
      exact crMeetings_restrict
        (keptIn_true_of_mem (List.mem_of_mem_filter hce)
          (beq_iff_eq.mp (Bool.and_eq_true _ _ |>.mp h2).2))
    · rw [if_neg h2, if_neg h2]
  | none =>
    have step1 : g.clients.flatMap (fun ce =>
        if true && ce.2.tenantId == some t then
          crMeetings t ce.2.name g ce.1
        else [])
        = (g.clients.filter (fun x => x.2.tenantId == some t)).flatMap (fun ce =>
          if true && ce.2.tenantId == some t then
            crMeetings t ce.2.name g ce.1
          else []) := by
      refine (filter_flatMap_of ?_).symm
      intro ce _ hq
      rw [if_neg (by simp [hq])]
    rw [show (fun ce : NodeId × NamedEntity =>
        if (match (none : Option String) with
            | some n' => ce.2.name == n'
            | none => true) && ce.2.tenantId == some t then
          crMeetings t ce.2.name g ce.1
        else [])
      = (fun ce : NodeId × NamedEntity =>
        if true && ce.2.tenantId == some t then
          crMeetings t ce.2.name g ce.1
        else []) from rfl]
    rw [step1]
    refine flatMap_congr_mem ?_
    intro ce hce
    by_cases h2 : (true && ce.2.tenantId == some t) = true
    · rw [if_pos h2, if_pos h2]
      exact crMeetings_restrict
        (keptIn_true_of_mem (List.mem_of_mem_filter hce)
          (beq_iff_eq.mp (Bool.and_eq_true _ _ |>.mp h2).2))
    · rw [if_neg h2, if_neg h2]

theorem get_client_relationships_restrict (t : String) (nf : Option String)
    (g : Graph) (fail : Bool) :
    get_client_relationships t nf g fail
      = get_client_relationships t nf (restrict t g) fail := by
  unfold get_client_relationships
  cases fail
  · simp only [Bool.false_eq_true, if_false]
    cases nf with
    | none => rw [clientPairs_restrict]
    | some n => rw [clientPairs_restrict]
  · rfl

theorem search_meetings_restrict (t term : String) (limit : Nat) (g : Graph)
    (fail : Bool) :
    search_meetings t term limit g fail
      = search_meetings t term limit (restrict t g) fail := by
  unfold search_meetings
  cases fail
  · simp only [Bool.false_eq_true, if_false]
    congr 2
    refine (filter_flatMap_of ?_).symm
    intro me _ hq
    rw [if_neg (by simp [hq])]
  · rfl

theorem filter_tenant_idem {α : Type} (l : List α) (p : α → Bool) :
    (l.filter p).filter p = l.filter p := by
  induction l with
  | nil => rfl
  | cons a l ih =>
    by_cases h : p a = true
    · rw [List.filter_cons_of_pos h, List.filter_cons_of_pos h, ih]
    · rw [List.filter_cons_of_neg (by simp [h]), ih]

theorem get_knowledge_graph_summary_restrict (t : String) (g : Graph)
    (fail : Bool) :
    get_knowledge_graph_summary t g fail
      = get_knowledge_graph_summary t (restrict t g) fail := by
  unfold get_knowledge_graph_summary
  cases fail
  · simp only [Bool.false_eq_true, if_false]
    rw [show (restrict t g).meetings
        = g.meetings.filter (fun x => x.2.tenantId == some t) from rfl]
    rw [show (restrict t g).persons
        = g.persons.filter (fun x => x.2.tenantId == some t) from rfl]
    rw [show (restrict t g).clients
        = g.clients.filter (fun x => x.2.tenantId == some t) from rfl]
    rw [show (restrict t g).projects
        = g.projects.filter (fun x => x.2.tenantId == some t) from rfl]
    rw [show (restrict t g).actions
        = g.actions.filter (fun x => x.2.tenantId == some t) from rfl]
    rw [show (restrict t g).decisionNodes
        = g.decisionNodes.filter (fun x => x.2.tenantId == some t) from rfl]
    rw [filter_tenant_idem, filter_tenant_idem, filter_tenant_idem,
      filter_tenant_idem, filter_tenant_idem, filter_tenant_idem]
  · rfl

theorem get_historical_context_restrict (t topic cutoff : String) (g : Graph) :
    get_historical_context t topic cutoff g
      = get_historical_context t topic cutoff (restrict t g) := by
  unfold get_historical_context
  congr 2
  have step1 : g.meetings.flatMap (fun me =>
      if me.2.tenantId == some t && strContains me.2.transcript topic
          && strGe me.2.meetingDate cutoff then
        [({ meetingTitle := me.2.title, date := me.2.meetingDate,
            summary := me.2.summary,
            decisions :=
              dedupFirst ((histDecNodes t g me.1).filterMap decisionPropDecision),
            actionItems := dedupFirst (histTasks t g me.1) } : HistRow)]
      else [])
      = (g.meetings.filter (fun x => x.2.tenantId == some t)).flatMap (fun me =>
        if me.2.tenantId == some t && strContains me.2.transcript topic
            && strGe me.2.meetingDate cutoff then
          [({ meetingTitle := me.2.title, date := me.2.meetingDate,
              summary := me.2.summary,
              decisions :=
                dedupFirst ((histDecNodes t g me.1).filterMap decisionPropDecision),
              actionItems := dedupFirst (histTasks t g me.1) } : HistRow)]
        else []) := by
    refine (filter_flatMap_of ?_).symm
    intro me _ hq
    rw [if_neg (by simp [hq])]
  rw [step1]
  refine flatMap_congr_mem ?_
  intro me hme
  by_cases h2 : (me.2.tenantId == some t && strContains me.2.transcript topic
      && strGe me.2.meetingDate cutoff) = true
  · rw [if_pos h2, if_pos h2]
    have hkept : keptMeeting t g me.1 = true :=
      keptIn_true_of_mem (List.mem_of_mem_filter hme)
        (beq_iff_eq.mp (Bool.and_eq_true _ _ |>.mp
          (Bool.and_eq_true _ _ |>.mp h2).1).1)
    rw [histDecNodes_restrict hkept, histTasks_restrict hkept]
  · rw [if_neg h2, if_neg h2]

/-- C2: tenant isolation as noninterference — whatever `store_meeting_data`
does with a payload belonging to tenant `B` (success or rollback), the
result of every Query Layer read scoped to tenant `A ≠ B` is unchanged; in
particular after tenants A and B each store a meeting mentioning client
"Acme", tenant A's `get_client_relationships "Acme"` reports meeting count
1 with only tenant A's meeting title. -/
theorem C2_tenant_noninterference
    (A B : String) (a : Analysis) (g g' : Graph) (b : Bool)
    (fault : Nat → Bool) (now : String)
    (hW : WF g) (hB : a.tenantId = some B) (hAB : B ≠ A)
    (h : store_meeting_data fault now a g = (b, g')) :
    (∀ name fail, get_action_items_by_person A name g' fail
        = get_action_items_by_person A name g fail)
    ∧ (∀ name fail, get_meetings_by_project A name g' fail
        = get_meetings_by_project A name g fail)
    ∧ (∀ nf fail, get_client_relationships A nf g' fail
        = get_client_relationships A nf g fail)
    ∧ (∀ term limit fail, search_meetings A term limit g' fail
        = search_meetings A term limit g fail)
    ∧ (∀ fail, get_knowledge_graph_summary A g' fail
        = get_knowledge_graph_summary A g fail)
    ∧ (∀ topic cutoff, get_historical_context A topic cutoff g'
        = get_historical_context A topic cutoff g)
    ∧ get_client_relationships "tenantA" (some "Acme") gAcmeB false
        = [⟨"Acme", 1, ["Meeting A"]⟩] := by
  have hne : a.tenantId ≠ some A := by
    rw [hB]; intro hc; exact hAB (Option.some.inj hc)
  have hR : restrict A g' = restrict A g := (store_invisible hW hne h).1
  refine ⟨?_, ?_, ?_, ?_, ?_, ?_, ?_⟩
  · intro name fail
    rw [get_action_items_by_person_restrict, hR,
      ← get_action_items_by_person_restrict]
  · intro name fail
    rw [get_meetings_by_project_restrict, hR,
      ← get_meetings_by_project_restrict]
  · intro nf fail
    rw [get_client_relationships_restrict, hR,
      ← get_client_relationships_restrict]
  · intro term limit fail
    rw [search_meetings_restrict, hR, ← search_meetings_restrict]
  · intro fail
    rw [get_knowledge_graph_summary_restrict, hR,
      ← get_knowledge_graph_summary_restrict]
  · intro topic cutoff
    rw [get_historical_context_restrict, hR,
      ← get_historical_context_restrict]
  · rfl

theorem C2_witness :
    payloadAcmeB.tenantId = some "tenantB"
    ∧ ("tenantB" : String) ≠ "tenantA"
    ∧ get_knowledge_graph_summary "tenantA" gAcmeB false
        = get_knowledge_graph_summary "tenantA" gAcmeA false
    ∧ get_client_relationships "tenantA" (some "Acme") gAcmeB false
        = [⟨"Acme", 1, ["Meeting A"]⟩] := by
  have hmain := C2_tenant_noninterference "tenantA" "tenantB" payloadAcmeB
    gAcmeA gAcmeB true noFault "ts"
    (store_WF WF_empty
      (show store_meeting_data noFault "ts" payloadAcmeA Graph.empty
        = (true, gAcmeA) from rfl))
    rfl (by decide)
    (show store_meeting_data noFault "ts" payloadAcmeB gAcmeA
      = (true, gAcmeB) from rfl)
  exact ⟨rfl, by decide, hmain.2.2.2.2.1 false, hmain.2.2.2.2.2.2⟩

/-- C10 (amended): the live-meeting tool path omits the `tenantId` key; a
payload mentioning any client or project (or any assigned action item) then
fails to store at all, because the Cypher `MERGE` keys on the null tenant
property raise (see the counterexample).  What a tenant-less payload CAN
write — e.g. a meeting with key decisions only — carries a null `tenantId`
on every created node, and such a store (successful or not) is invisible to
every Query Layer read at every configured tenant id. -/
theorem C10_null_tenant_amended
    (a : Analysis) (g g' : Graph) (b : Bool)
    (fault : Nat → Bool) (now : String)
    (hW : WF g) (hτ : a.tenantId = none)
    (h : store_meeting_data fault now a g = (b, g')) :
    (∀ t name fail, get_action_items_by_person t name g' fail
        = get_action_items_by_person t name g fail)
    ∧ (∀ t name fail, get_meetings_by_project t name g' fail
        = get_meetings_by_project t name g fail)
    ∧ (∀ t nf fail, get_client_relationships t nf g' fail
        = get_client_relationships t nf g fail)
    ∧ (∀ t term limit fail, search_meetings t term limit g' fail
        = search_meetings t term limit g fail)
    ∧ (∀ t fail, get_knowledge_graph_summary t g' fail
        = get_knowledge_graph_summary t g fail)
    ∧ (∀ t topic cutoff, get_historical_context t topic cutoff g'
        = get_historical_context t topic cutoff g)
    ∧ (store_meeting_data noFault "ts" payNullDec Graph.empty).1 = true
    ∧ gNullDec.meetings.map (fun me => me.2.tenantId) = [none]
    ∧ gNullDec.decisionNodes.map (fun de => de.2.tenantId) = [none] := by
  have hR : ∀ t, restrict t g' = restrict t g := fun t =>
    (store_invisible hW (by rw [hτ]; exact fun hc => Option.noConfusion hc) h).1
  refine ⟨?_, ?_, ?_, ?_, ?_, ?_, rfl, rfl, rfl⟩
  · intro t name fail
    rw [get_action_items_by_person_restrict, hR,
      ← get_action_items_by_person_restrict]
  · intro t name fail
    rw [get_meetings_by_project_restrict, hR,
      ← get_meetings_by_project_restrict]
  · intro t nf fail
    rw [get_client_relationships_restrict, hR,
      ← get_client_relationships_restrict]
  · intro t term limit fail
    rw [search_meetings_restrict, hR, ← search_meetings_restrict]
  · intro t fail
    rw [get_knowledge_graph_summary_restrict, hR,
      ← get_knowledge_graph_summary_restrict]
  · intro t topic cutoff
    rw [get_historical_context_restrict, hR,
      ← get_historical_context_restrict]

theorem C10_witness :
    payNullDec.tenantId = none
    ∧ (store_meeting_data noFault "ts" payNullDec Graph.empty).1 = true
    ∧ search_meetings "t1" "x" 10 gNullDec false
        = search_meetings "t1" "x" 10 Graph.empty false
    ∧ get_knowledge_graph_summary "t1" gNullDec false
        = get_knowledge_graph_summary "t1" Graph.empty false := by
  have hmain := C10_null_tenant_amended payNullDec Graph.empty gNullDec true
    noFault "ts" WF_empty rfl
    (show store_meeting_data noFault "ts" payNullDec Graph.empty
      = (true, gNullDec) from rfl)
  exact ⟨rfl, hmain.2.2.2.2.2.2.1, hmain.2.2.2.1 "t1" "x" 10 false,
    hmain.2.2.2.2.1 "t1" false⟩

/-! ## Client/Project merge idempotence machinery -/

theorem foldl_nextId {α : Type} (f : Graph → α → Graph)
    (hf : ∀ g x, g.nextId ≤ (f g x).nextId) :
    ∀ (l : List α) (g : Graph), g.nextId ≤ (List.foldl f g l).nextId := by
  intro l
  induction l with
  | nil => intro g; exact Nat.le_refl _
  | cons a l ih => intro g; exact Nat.le_trans (hf g a) (ih (f g a))

theorem mem_addEdgeIfAbsent {es : List (NodeId × NodeId)} {e0 e : NodeId × NodeId}
    (h : e ∈ addEdgeIfAbsent es e0) : e ∈ es ∨ e = e0 := by
  unfold addEdgeIfAbsent at h
  by_cases hc : es.contains e0 = true
  · rw [if_pos hc] at h; exact .inl h
  · rw [if_neg hc] at h
    rcases List.mem_append.mp h with h | h
    · exact .inl h
    · exact .inr (List.mem_singleton.mp h)

theorem edgeCount_addEdge_ne {es : List (NodeId × NodeId)} {e e0 : NodeId × NodeId}
    (hne : e0 ≠ e) :
    edgeCount (addEdgeIfAbsent es e) e0 = edgeCount es e0 := by
  unfold addEdgeIfAbsent edgeCount
  by_cases hc : es.contains e = true
  · rw [if_pos hc]
  · rw [if_neg hc, List.filter_append]
    have h1 : ((e == e0) : Bool) = false := by
      rw [beq_eq_false_iff_ne]
      exact fun hh => hne (hh.symm)
    have h2 : [e].filter (fun x => x == e0) = [] := by simp [h1]
    rw [h2, List.append_nil]

theorem edgeCount_addEdge_zero {es : List (NodeId × NodeId)} {e : NodeId × NodeId}
    (h : edgeCount es e = 0) :
    edgeCount (addEdgeIfAbsent es e) e = 1 := by
  unfold edgeCount at h
  have h0 : es.filter (fun x => x == e) = [] := List.length_eq_zero.mp h
  have hmem : ¬ e ∈ es := by
    intro hm
    have hin : e ∈ es.filter (fun x => x == e) :=
      List.mem_filter.mpr ⟨hm, by simp⟩
    rw [h0] at hin
    cases hin
  have hc : ¬ es.contains e = true := by
    intro hcc
    exact hmem (List.mem_of_elem_eq_true hcc)
  unfold addEdgeIfAbsent edgeCount
  rw [if_neg hc, List.filter_append, h0]
  simp

theorem edgeCount_addEdge_one {es : List (NodeId × NodeId)} {e : NodeId × NodeId}
    (h : edgeCount es e = 1) :
    edgeCount (addEdgeIfAbsent es e) e = 1 := by
  unfold edgeCount at h
  have hne : es.filter (fun x => x == e) ≠ [] := by
    intro h0
    rw [h0] at h
    cases h
  obtain ⟨x, hx⟩ := List.exists_mem_of_ne_nil _ hne
  have hx2 := List.mem_filter.mp hx
  have hxe : x = e := by
    have := hx2.2
    exact beq_iff_eq.mp this
  have hmem : e ∈ es := hxe ▸ hx2.1
  have hc : es.contains e = true := List.elem_eq_true_of_mem hmem
  unfold addEdgeIfAbsent edgeCount
  rw [if_pos hc]
  exact h

theorem foldl_addEdge_count_ne {m : NodeId} {e0 : NodeId × NodeId} :
    ∀ {l : List (NodeId × NamedEntity)} (es : List (NodeId × NodeId)),
    (∀ ce ∈ l, e0 ≠ (m, ce.1)) →
    edgeCount (l.foldl (fun es2 ce => addEdgeIfAbsent es2 (m, ce.1)) es) e0
      = edgeCount es e0 := by
  intro l
  induction l with
  | nil => intro es _; rfl
  | cons ce l ih =>
    intro es hne
    rw [List.foldl_cons,
      ih _ (fun x hx => hne x (List.mem_cons_of_mem _ hx)),
      edgeCount_addEdge_ne (hne ce (List.mem_cons_self _ _))]

theorem matchedMeetingIds_congr {g g2 : Graph} (mid : String)
    (h : g.meetings = g2.meetings) :
    matchedMeetingIds g mid = matchedMeetingIds g2 mid := by
  unfold matchedMeetingIds
  rw [h]

/-- The two branches of one Client-merge row: create the node and the edge,
or reuse the matched node(s) and merge the edge(s). -/
theorem mergeClientRow_cases {t name : String} {m : NodeId} {g g' : Graph}
    (h : mergeClientRow (some t) name m g = .ok g') :
    (g.clients.filter (entKey name t) = []
      ∧ g' = { g with
          nextId := g.nextId + 1,
          clients := g.clients ++ [(g.nextId, (⟨name, some t⟩ : NamedEntity))],
          discussedClient := addEdgeIfAbsent g.discussedClient (m, g.nextId) })
    ∨ (g.clients.filter (entKey name t) ≠ []
      ∧ g' = { g with
          discussedClient :=
              (g.clients.filter (entKey name t)).foldl
                (fun es ce => addEdgeIfAbsent es (m, ce.1))
                g.discussedClient }) := by
  unfold mergeClientRow at h
  dsimp only at h
  unfold entKey
  by_cases he :
      (List.filter (fun ce => ce.2.name == name && ce.2.tenantId == some t)
        g.clients).isEmpty = true
  · rw [if_pos he] at h
    cases h
    exact .inl ⟨List.isEmpty_iff.mp he, rfl⟩
  · rw [if_neg he] at h
    cases h
    refine .inr ⟨?_, rfl⟩
    intro h0
    exact he (by rw [h0]; rfl)

theorem mergeClientRow_clB {t name : String} {m : NodeId} {g g' : Graph}
    (h : mergeClientRow (some t) name m g = .ok g') (hb : clB g) : clB g' := by
  rcases mergeClientRow_cases h with ⟨h0, rfl⟩ | ⟨h1, rfl⟩
  · constructor
    · intro p hp
      rcases List.mem_append.mp hp with hp | hp
      · exact Nat.lt_trans (hb.1 p hp) (Nat.lt_succ_self _)
      · rw [List.mem_singleton.mp hp]
        exact Nat.lt_succ_self _
    · intro e he
      rcases mem_addEdgeIfAbsent he with he | he
      · exact Nat.lt_trans (hb.2 e he) (Nat.lt_succ_self _)
      · rw [he]
        exact Nat.lt_succ_self _
  · constructor
    · exact hb.1
    · show ∀ e ∈ (g.clients.filter (entKey name t)).foldl
          (fun es ce => addEdgeIfAbsent es (m, ce.1)) g.discussedClient,
        e.2 < g.nextId
      have hgen : ∀ (l : List (NodeId × NamedEntity)) (es : List (NodeId × NodeId)),
          (∀ ce ∈ l, ce.1 < g.nextId) → (∀ e ∈ es, e.2 < g.nextId) →
          ∀ e ∈ l.foldl (fun es2 ce => addEdgeIfAbsent es2 (m, ce.1)) es,
            e.2 < g.nextId := by
        intro l
        induction l with
        | nil => intro es _ hes e he; exact hes e he
        | cons ce l ih =>
          intro es hl hes e he
          refine ih _ (fun x hx => hl x (List.mem_cons_of_mem _ hx)) ?_ e he
          intro x hx
          rcases mem_addEdgeIfAbsent hx with hx | hx
          · exact hes x hx
          · rw [hx]
            exact hl ce (List.mem_cons_self _ _)
      exact hgen _ _ (fun ce hce => hb.1 ce (List.mem_of_mem_filter hce)) hb.2

theorem mergeClientRow_count_ne {t name : String} {m : NodeId} {g g' : Graph}
    {e0 : NodeId × NodeId}
    (h : mergeClientRow (some t) name m g = .ok g') (hne : e0.1 ≠ m) :
    edgeCount g'.discussedClient e0 = edgeCount g.discussedClient e0 := by
  rcases mergeClientRow_cases h with ⟨h0, rfl⟩ | ⟨h1, rfl⟩
  · exact edgeCount_addEdge_ne (by intro hc; exact hne (by rw [hc]))
  · exact foldl_addEdge_count_ne _ (fun ce _ => by intro hc; exact hne (by rw [hc]))

theorem mergeClientRow_inv0 {t name c : String} {m : NodeId} {g g' : Graph}
    (h : mergeClientRow (some t) name m g = .ok g') (hnc : name ≠ c)
    (h0 : g.clients.filter (entKey c t) = []) :
    g'.clients.filter (entKey c t) = [] := by
  rcases mergeClientRow_cases h with ⟨hf, rfl⟩ | ⟨h1, rfl⟩
  · show (g.clients ++ [(g.nextId, (⟨name, some t⟩ : NamedEntity))]).filter
        (entKey c t) = []
    rw [List.filter_append, h0]
    have hk : entKey c t (g.nextId, (⟨name, some t⟩ : NamedEntity)) = false := by
      unfold entKey
      simp [hnc]
    simp [hk]
  · exact h0

theorem mergeClientRow_establish {t c : String} {m : NodeId} {g g' : Graph}
    (h : mergeClientRow (some t) c m g = .ok g')
    (h0 : g.clients.filter (entKey c t) = [])
    (hb : clB g) :
    clientUnique c t g.nextId g'
    ∧ edgeCount g'.discussedClient (m, g.nextId) = 1 := by
  rcases mergeClientRow_cases h with ⟨hf, rfl⟩ | ⟨h1, rfl⟩
  · constructor
    · refine ⟨Nat.lt_succ_self _, ?_, ?_⟩
      · show (g.clients ++ [(g.nextId, (⟨c, some t⟩ : NamedEntity))]).filter
            (entKey c t) = [(g.nextId, (⟨c, some t⟩ : NamedEntity))]
        rw [List.filter_append, h0]
        have hk : entKey c t (g.nextId, (⟨c, some t⟩ : NamedEntity)) = true := by
          unfold entKey
          simp
        simp [hk]
      · intro ce hce hid
        rcases List.mem_append.mp hce with hce | hce
        · exact absurd hid (Nat.ne_of_lt (hb.1 ce hce))
        · rw [List.mem_singleton.mp hce]
    · apply edgeCount_addEdge_zero
      unfold edgeCount
      rw [List.length_eq_zero]
      rw [List.filter_eq_nil_iff]
      intro e he hbe
      have hee : e = (m, g.nextId) := beq_iff_eq.mp hbe
      have := hb.2 e he
      rw [hee] at this
      exact Nat.lt_irrefl _ this
  · exact absurd h0 h1

/-- Any Client-merge row preserves the unique-client state, leaves foreign
link counts unchanged, and merges (never duplicates) the own link. -/
theorem mergeClientRow_unique_pres {t name c : String} {m ci : NodeId}
    {g g' : Graph}
    (h : mergeClientRow (some t) name m g = .ok g')
    (hu : clientUnique c t ci g) :
    clientUnique c t ci g'
    ∧ (name ≠ c → edgeCount g'.discussedClient (m, ci)
        = edgeCount g.discussedClient (m, ci))
    ∧ (name = c →
        (edgeCount g.discussedClient (m, ci) = 0 →
          edgeCount g'.discussedClient (m, ci) = 1)
        ∧ (edgeCount g.discussedClient (m, ci) = 1 →
          edgeCount g'.discussedClient (m, ci) = 1)) := by
  obtain ⟨hlt, hfil, himp⟩ := hu
  rcases mergeClientRow_cases h with ⟨hf, rfl⟩ | ⟨h1, rfl⟩
  · have hnc : name ≠ c := by
      intro hh
      subst hh
      rw [hfil] at hf
      cases hf
    have hkey : entKey c t (g.nextId, (⟨name, some t⟩ : NamedEntity)) = false := by
      unfold entKey
      simp [hnc]
    refine ⟨⟨Nat.lt_trans hlt (Nat.lt_succ_self _), ?_, ?_⟩, ?_, ?_⟩
    · show (g.clients ++ [(g.nextId, (⟨name, some t⟩ : NamedEntity))]).filter
          (entKey c t) = [(ci, (⟨c, some t⟩ : NamedEntity))]
      rw [List.filter_append, hfil]
      simp [hkey]
    · intro ce hce hid
      rcases List.mem_append.mp hce with hce | hce
      · exact himp ce hce hid
      · rw [List.mem_singleton.mp hce] at hid
        exact absurd hid.symm (Nat.ne_of_lt hlt)
    · intro _
      refine edgeCount_addEdge_ne ?_
      intro hc2
      have : ci = g.nextId := congrArg Prod.snd hc2
      exact absurd this (Nat.ne_of_lt hlt)
    · intro hh
      exact absurd hh hnc
  · have hcl : ({ g with
        discussedClient :=
            (g.clients.filter (entKey name t)).foldl
              (fun es ce => addEdgeIfAbsent es (m, ce.1))
              g.discussedClient } : Graph).clients = g.clients := rfl
    refine ⟨⟨hlt, by rw [hcl]; exact hfil, by rw [hcl]; exact himp⟩, ?_, ?_⟩
    · intro hnc
      show edgeCount ((g.clients.filter (entKey name t)).foldl
          (fun es ce => addEdgeIfAbsent es (m, ce.1)) g.discussedClient) (m, ci)
        = edgeCount g.discussedClient (m, ci)
      refine foldl_addEdge_count_ne _ ?_
      intro ce hce hc2
      have hid : ci = ce.1 := congrArg Prod.snd hc2
      have hv := himp ce (List.mem_of_mem_filter hce) hid.symm
      have hname : ce.2.name = name := by
        have := (Bool.and_eq_true _ _ |>.mp (List.mem_filter.mp hce).2).1
        exact beq_iff_eq.mp this
      rw [hv] at hname
      exact hnc hname.symm
    · intro hh
      subst hh
      rw [hfil]
      constructor
      · intro h0
        show edgeCount (addEdgeIfAbsent g.discussedClient (m, ci)) (m, ci) = 1
        exact edgeCount_addEdge_zero h0
      · intro h1c
        show edgeCount (addEdgeIfAbsent g.discussedClient (m, ci)) (m, ci) = 1
        exact edgeCount_addEdge_one h1c

theorem mergeClientOp_single {τ : Option String} {name mid : String}
    {m0 : NodeId} {g : Graph} (hm : matchedMeetingIds g mid = [m0]) :
    mergeClientOp τ name mid g = mergeClientRow τ name m0 g := by
  unfold mergeClientOp
  rw [hm]
  cases hr : mergeClientRow τ name m0 g with
  | error e => simp [foldRows, hr]
  | ok g1 => simp [foldRows, hr]

/-- Running the Client loop on a single matched meeting row `m0`: if the
key `(c, t)` is absent at entry and `c` is among the (non-empty) names, the
loop ends with one Client node for the key, linked to `m0` exactly once —
however many times `c` repeats in the list and whatever the other names do. -/
theorem runClients_establish {fault : Nat → Bool} {t mid c : String}
    {m0 : NodeId} :
    ∀ {names : List String} {n : Nat} {g : Graph} {n' : Nat} {g' : Graph},
    runClients fault (some t) mid n names g = .ok (n', g') →
    matchedMeetingIds g mid = [m0] →
    ((c ≠ "" ∧ c ∈ names ∧ g.clients.filter (entKey c t) = [] ∧ clB g)
      ∨ ∃ ci, clientUnique c t ci g
          ∧ edgeCount g.discussedClient (m0, ci) = 1) →
    ∃ ci, clientUnique c t ci g'
        ∧ edgeCount g'.discussedClient (m0, ci) = 1 := by
  intro names
  induction names with
  | nil =>
    intro n g n' g' h hm hs
    unfold runClients at h
    cases h
    rcases hs with ⟨_, hmem, _⟩ | hs
    · exact absurd hmem (List.not_mem_nil c)
    · exact hs
  | cons name rest ih =>
    intro n g n' g' h hm hs
    unfold runClients at h
    by_cases hemp : (name == "") = true
    · rw [if_pos hemp] at h
      refine ih h hm ?_
      rcases hs with ⟨hcne, hmem, h0, hb⟩ | hs
      · left
        refine ⟨hcne, ?_, h0, hb⟩
        rcases List.mem_cons.mp hmem with hh | hmem
        · rw [hh] at hcne
          exact absurd (beq_iff_eq.mp hemp) hcne
        · exact hmem
      · right
        exact hs
    · rw [if_neg hemp] at h
      cases htx : txRun fault n g (mergeClientOp (some t) name mid) with
      | error e => rw [htx] at h; cases h
      | ok p =>
        rw [htx] at h
        obtain ⟨g1, hf, hp⟩ := txRun_ok_inv htx
        subst hp
        rw [mergeClientOp_single hm] at hf
        have hmeet : g1.meetings = g.meetings :=
          congrArg (fun x => x.1) (mergeClientRow_projClients hf)
        have hm1 : matchedMeetingIds g1 mid = [m0] :=
          (matchedMeetingIds_congr mid hmeet).trans hm
        refine ih h hm1 ?_
        rcases hs with ⟨hcne, hmem, h0, hb⟩ | ⟨ci, hu, hcnt⟩
        · by_cases hnc : name = c
          · subst hnc
            right
            obtain ⟨hu, hcnt⟩ := mergeClientRow_establish hf h0 hb
            exact ⟨g.nextId, hu, hcnt⟩
          · left
            refine ⟨hcne, ?_, mergeClientRow_inv0 hf hnc h0,
              mergeClientRow_clB hf hb⟩
            rcases List.mem_cons.mp hmem with hh | hmem
            · exact absurd hh.symm hnc
            · exact hmem
        · right
          obtain ⟨hu2, hne2, heq2⟩ := mergeClientRow_unique_pres hf hu
          refine ⟨ci, hu2, ?_⟩
          by_cases hnc : name = c
          · exact (heq2 hnc).2 hcnt
          · rw [hne2 hnc]
            exact hcnt

/-- Running the Client loop on matched row `m0` when the unique Client node
`ci` already exists but is not yet linked to `m0`: the loop links it exactly
once. -/
theorem runClients_relink {fault : Nat → Bool} {t mid c : String}
    {m0 ci : NodeId} :
    ∀ {names : List String} {n : Nat} {g : Graph} {n' : Nat} {g' : Graph},
    runClients fault (some t) mid n names g = .ok (n', g') →
    matchedMeetingIds g mid = [m0] →
    ((c ≠ "" ∧ c ∈ names ∧ clientUnique c t ci g
        ∧ edgeCount g.discussedClient (m0, ci) = 0)
      ∨ (clientUnique c t ci g ∧ edgeCount g.discussedClient (m0, ci) = 1)) →
    clientUnique c t ci g' ∧ edgeCount g'.discussedClient (m0, ci) = 1 := by
  intro names
  induction names with
  | nil =>
    intro n g n' g' h hm hs
    unfold runClients at h
    cases h
    rcases hs with ⟨_, hmem, _⟩ | hs
    · exact absurd hmem (List.not_mem_nil c)
    · exact hs
  | cons name rest ih =>
    intro n g n' g' h hm hs
    unfold runClients at h
    by_cases hemp : (name == "") = true
    · rw [if_pos hemp] at h
      refine ih h hm ?_
      rcases hs with ⟨hcne, hmem, hu, h0⟩ | hs
      · left
        refine ⟨hcne, ?_, hu, h0⟩
        rcases List.mem_cons.mp hmem with hh | hmem
        · rw [hh] at hcne
          exact absurd (beq_iff_eq.mp hemp) hcne
        · exact hmem
      · right
        exact hs
    · rw [if_neg hemp] at h
      cases htx : txRun fault n g (mergeClientOp (some t) name mid) with
      | error e => rw [htx] at h; cases h
      | ok p =>
        rw [htx] at h
        obtain ⟨g1, hf, hp⟩ := txRun_ok_inv htx
        subst hp
        rw [mergeClientOp_single hm] at hf
        have hmeet : g1.meetings = g.meetings :=
          congrArg (fun x => x.1) (mergeClientRow_projClients hf)
        have hm1 : matchedMeetingIds g1 mid = [m0] :=
          (matchedMeetingIds_congr mid hmeet).trans hm
        refine ih h hm1 ?_
        rcases hs with ⟨hcne, hmem, hu, h0⟩ | ⟨hu, hcnt⟩
        · obtain ⟨hu2, hne2, heq2⟩ := mergeClientRow_unique_pres hf hu
          by_cases hnc : name = c
          · right
            exact ⟨hu2, (heq2 hnc).1 h0⟩
          · left
            refine ⟨hcne, ?_, hu2, by rw [hne2 hnc]; exact h0⟩
            rcases List.mem_cons.mp hmem with hh | hmem
            · exact absurd hh.symm hnc
            · exact hmem
        · obtain ⟨hu2, hne2, heq2⟩ := mergeClientRow_unique_pres hf hu
          refine .inr ⟨hu2, ?_⟩
          by_cases hnc : name = c
          · exact (heq2 hnc).2 hcnt
          · rw [hne2 hnc]
            exact hcnt

/-- The Client loop on matched row `m0` never touches the link count of any
edge whose meeting endpoint differs from `m0`. -/
theorem runClients_count_ne {fault : Nat → Bool} {t mid : String}
    {m0 : NodeId} {e0 : NodeId × NodeId} (hne : e0.1 ≠ m0) :
    ∀ {names : List String} {n : Nat} {g : Graph} {n' : Nat} {g' : Graph},
    runClients fault (some t) mid n names g = .ok (n', g') →
    matchedMeetingIds g mid = [m0] →
    edgeCount g'.discussedClient e0 = edgeCount g.discussedClient e0 := by
  intro names
  induction names with
  | nil =>
    intro n g n' g' h hm
    unfold runClients at h
    cases h
    rfl
  | cons name rest ih =>
    intro n g n' g' h hm
    unfold runClients at h
    by_cases hemp : (name == "") = true
    · rw [if_pos hemp] at h
      exact ih h hm
    · rw [if_neg hemp] at h
      cases htx : txRun fault n g (mergeClientOp (some t) name mid) with
      | error e => rw [htx] at h; cases h
      | ok p =>
        rw [htx] at h
        obtain ⟨g1, hf, hp⟩ := txRun_ok_inv htx
        subst hp
        rw [mergeClientOp_single hm] at hf
        have hmeet : g1.meetings = g.meetings :=
          congrArg (fun x => x.1) (mergeClientRow_projClients hf)
        have hm1 : matchedMeetingIds g1 mid = [m0] :=
          (matchedMeetingIds_congr mid hmeet).trans hm
        rw [ih h hm1, mergeClientRow_count_ne hf hne]

/-- The two branches of one Project-merge row: create the node and the edge,
or reuse the matched node(s) and merge the edge(s). -/
theorem mergeProjectRow_cases {t name : String} {m : NodeId} {g g' : Graph}
    (h : mergeProjectRow (some t) name m g = .ok g') :
    (g.projects.filter (entKey name t) = []
      ∧ g' = { g with
          nextId := g.nextId + 1,
          projects := g.projects ++ [(g.nextId, (⟨name, some t⟩ : NamedEntity))],
          relatesToProject := addEdgeIfAbsent g.relatesToProject (m, g.nextId) })
    ∨ (g.projects.filter (entKey name t) ≠ []
      ∧ g' = { g with
          relatesToProject :=
              (g.projects.filter (entKey name t)).foldl
                (fun es ce => addEdgeIfAbsent es (m, ce.1))
                g.relatesToProject }) := by
  unfold mergeProjectRow at h
  dsimp only at h
  unfold entKey
  by_cases he :
      (List.filter (fun ce => ce.2.name == name && ce.2.tenantId == some t)
        g.projects).isEmpty = true
  · rw [if_pos he] at h
    cases h
    exact .inl ⟨List.isEmpty_iff.mp he, rfl⟩
  · rw [if_neg he] at h
    cases h
    refine .inr ⟨?_, rfl⟩
    intro h0
    exact he (by rw [h0]; rfl)

theorem mergeProjectRow_prB {t name : String} {m : NodeId} {g g' : Graph}
    (h : mergeProjectRow (some t) name m g = .ok g') (hb : prB g) : prB g' := by
  rcases mergeProjectRow_cases h with ⟨h0, rfl⟩ | ⟨h1, rfl⟩
  · constructor
    · intro p hp
      rcases List.mem_append.mp hp with hp | hp
      · exact Nat.lt_trans (hb.1 p hp) (Nat.lt_succ_self _)
      · rw [List.mem_singleton.mp hp]
        exact Nat.lt_succ_self _
    · intro e he
      rcases mem_addEdgeIfAbsent he with he | he
      · exact Nat.lt_trans (hb.2 e he) (Nat.lt_succ_self _)
      · rw [he]
        exact Nat.lt_succ_self _
  · constructor
    · exact hb.1
    · show ∀ e ∈ (g.projects.filter (entKey name t)).foldl
          (fun es ce => addEdgeIfAbsent es (m, ce.1)) g.relatesToProject,
        e.2 < g.nextId
      have hgen : ∀ (l : List (NodeId × NamedEntity)) (es : List (NodeId × NodeId)),
          (∀ ce ∈ l, ce.1 < g.nextId) → (∀ e ∈ es, e.2 < g.nextId) →
          ∀ e ∈ l.foldl (fun es2 ce => addEdgeIfAbsent es2 (m, ce.1)) es,
            e.2 < g.nextId := by
        intro l
        induction l with
        | nil => intro es _ hes e he; exact hes e he
        | cons ce l ih =>
          intro es hl hes e he
          refine ih _ (fun x hx => hl x (List.mem_cons_of_mem _ hx)) ?_ e he
          intro x hx
          rcases mem_addEdgeIfAbsent hx with hx | hx
          · exact hes x hx
          · rw [hx]
            exact hl ce (List.mem_cons_self _ _)
      exact hgen _ _ (fun ce hce => hb.1 ce (List.mem_of_mem_filter hce)) hb.2

theorem mergeProjectRow_count_ne {t name : String} {m : NodeId} {g g' : Graph}
    {e0 : NodeId × NodeId}
    (h : mergeProjectRow (some t) name m g = .ok g') (hne : e0.1 ≠ m) :
    edgeCount g'.relatesToProject e0 = edgeCount g.relatesToProject e0 := by
  rcases mergeProjectRow_cases h with ⟨h0, rfl⟩ | ⟨h1, rfl⟩
  · exact edgeCount_addEdge_ne (by intro hc; exact hne (by rw [hc]))
  · exact foldl_addEdge_count_ne _ (fun ce _ => by intro hc; exact hne (by rw [hc]))

theorem mergeProjectRow_inv0 {t name c : String} {m : NodeId} {g g' : Graph}
    (h : mergeProjectRow (some t) name m g = .ok g') (hnc : name ≠ c)
    (h0 : g.projects.filter (entKey c t) = []) :
    g'.projects.filter (entKey c t) = [] := by
  rcases mergeProjectRow_cases h with ⟨hf, rfl⟩ | ⟨h1, rfl⟩
  · show (g.projects ++ [(g.nextId, (⟨name, some t⟩ : NamedEntity))]).filter
        (entKey c t) = []
    rw [List.filter_append, h0]
    have hk : entKey c t (g.nextId, (⟨name, some t⟩ : NamedEntity)) = false := by
      unfold entKey
      simp [hnc]
    simp [hk]
  · exact h0

theorem mergeProjectRow_establish {t c : String} {m : NodeId} {g g' : Graph}
    (h : mergeProjectRow (some t) c m g = .ok g')
    (h0 : g.projects.filter (entKey c t) = [])
    (hb : prB g) :
    projectUnique c t g.nextId g'
    ∧ edgeCount g'.relatesToProject (m, g.nextId) = 1 := by
  rcases mergeProjectRow_cases h with ⟨hf, rfl⟩ | ⟨h1, rfl⟩
  · constructor
    · refine ⟨Nat.lt_succ_self _, ?_, ?_⟩
      · show (g.projects ++ [(g.nextId, (⟨c, some t⟩ : NamedEntity))]).filter
            (entKey c t) = [(g.nextId, (⟨c, some t⟩ : NamedEntity))]
        rw [List.filter_append, h0]
        have hk : entKey c t (g.nextId, (⟨c, some t⟩ : NamedEntity)) = true := by
          unfold entKey
          simp
        simp [hk]
      · intro ce hce hid
        rcases List.mem_append.mp hce with hce | hce
        · exact absurd hid (Nat.ne_of_lt (hb.1 ce hce))
        · rw [List.mem_singleton.mp hce]
    · apply edgeCount_addEdge_zero
      unfold edgeCount
      rw [List.length_eq_zero]
      rw [List.filter_eq_nil_iff]
      intro e he hbe
      have hee : e = (m, g.nextId) := beq_iff_eq.mp hbe
      have := hb.2 e he
      rw [hee] at this
      exact Nat.lt_irrefl _ this
  · exact absurd h0 h1

/-- Any Project-merge row preserves the unique-project state, leaves foreign
link counts unchanged, and merges (never duplicates) the own link. -/
theorem mergeProjectRow_unique_pres {t name c : String} {m ci : NodeId}
    {g g' : Graph}
    (h : mergeProjectRow (some t) name m g = .ok g')
    (hu : projectUnique c t ci g) :
    projectUnique c t ci g'
    ∧ (name ≠ c → edgeCount g'.relatesToProject (m, ci)
        = edgeCount g.relatesToProject (m, ci))
    ∧ (name = c →
        (edgeCount g.relatesToProject (m, ci) = 0 →
          edgeCount g'.relatesToProject (m, ci) = 1)
        ∧ (edgeCount g.relatesToProject (m, ci) = 1 →
          edgeCount g'.relatesToProject (m, ci) = 1)) := by
  obtain ⟨hlt, hfil, himp⟩ := hu
  rcases mergeProjectRow_cases h with ⟨hf, rfl⟩ | ⟨h1, rfl⟩
  · have hnc : name ≠ c := by
      intro hh
      subst hh
      rw [hfil] at hf
      cases hf
    have hkey : entKey c t (g.nextId, (⟨name, some t⟩ : NamedEntity)) = false := by
      unfold entKey
      simp [hnc]
    refine ⟨⟨Nat.lt_trans hlt (Nat.lt_succ_self _), ?_, ?_⟩, ?_, ?_⟩
    · show (g.projects ++ [(g.nextId, (⟨name, some t⟩ : NamedEntity))]).filter
          (entKey c t) = [(ci, (⟨c, some t⟩ : NamedEntity))]
      rw [List.filter_append, hfil]
      simp [hkey]
    · intro ce hce hid
      rcases List.mem_append.mp hce with hce | hce
      · exact himp ce hce hid
      · rw [List.mem_singleton.mp hce] at hid
        exact absurd hid.symm (Nat.ne_of_lt hlt)
    · intro _
      refine edgeCount_addEdge_ne ?_
      intro hc2
      have : ci = g.nextId := congrArg Prod.snd hc2
      exact absurd this (Nat.ne_of_lt hlt)
    · intro hh
      exact absurd hh hnc
  · have hcl : ({ g with
        relatesToProject :=
            (g.projects.filter (entKey name t)).foldl
              (fun es ce => addEdgeIfAbsent es (m, ce.1))
              g.relatesToProject } : Graph).projects = g.projects := rfl
    refine ⟨⟨hlt, by rw [hcl]; exact hfil, by rw [hcl]; exact himp⟩, ?_, ?_⟩
    · intro hnc
      show edgeCount ((g.projects.filter (entKey name t)).foldl
          (fun es ce => addEdgeIfAbsent es (m, ce.1)) g.relatesToProject) (m, ci)
        = edgeCount g.relatesToProject (m, ci)
      refine foldl_addEdge_count_ne _ ?_
      intro ce hce hc2
      have hid : ci = ce.1 := congrArg Prod.snd hc2
      have hv := himp ce (List.mem_of_mem_filter hce) hid.symm
      have hname : ce.2.name = name := by
        have := (Bool.and_eq_true _ _ |>.mp (List.mem_filter.mp hce).2).1
        exact beq_iff_eq.mp this
      rw [hv] at hname
      exact hnc hname.symm
    · intro hh
      subst hh
      rw [hfil]
      constructor
      · intro h0
        show edgeCount (addEdgeIfAbsent g.relatesToProject (m, ci)) (m, ci) = 1
        exact edgeCount_addEdge_zero h0
      · intro h1c
        show edgeCount (addEdgeIfAbsent g.relatesToProject (m, ci)) (m, ci) = 1
        exact edgeCount_addEdge_one h1c

theorem mergeProjectOp_single {τ : Option String} {name mid : String}
    {m0 : NodeId} {g : Graph} (hm : matchedMeetingIds g mid = [m0]) :
    mergeProjectOp τ name mid g = mergeProjectRow τ name m0 g := by
  unfold mergeProjectOp
  rw [hm]
  cases hr : mergeProjectRow τ name m0 g with
  | error e => simp [foldRows, hr]
  | ok g1 => simp [foldRows, hr]

/-- Running the Project loop on a single matched meeting row `m0`: if the
key `(c, t)` is absent at entry and `c` is among the (non-empty) names, the
loop ends with one Project node for the key, linked to `m0` exactly once —
however many times `c` repeats in the list and whatever the other names do. -/
theorem runProjects_establish {fault : Nat → Bool} {t mid c : String}
    {m0 : NodeId} :
    ∀ {names : List String} {n : Nat} {g : Graph} {n' : Nat} {g' : Graph},
    runProjects fault (some t) mid n names g = .ok (n', g') →
    matchedMeetingIds g mid = [m0] →
    ((c ≠ "" ∧ c ∈ names ∧ g.projects.filter (entKey c t) = [] ∧ prB g)
      ∨ ∃ ci, projectUnique c t ci g
          ∧ edgeCount g.relatesToProject (m0, ci) = 1) →
    ∃ ci, projectUnique c t ci g'
        ∧ edgeCount g'.relatesToProject (m0, ci) = 1 := by
  intro names
  induction names with
  | nil =>
    intro n g n' g' h hm hs
    unfold runProjects at h
    cases h
    rcases hs with ⟨_, hmem, _⟩ | hs
    · exact absurd hmem (List.not_mem_nil c)
    · exact hs
  | cons name rest ih =>
    intro n g n' g' h hm hs
    unfold runProjects at h
    by_cases hemp : (name == "") = true
    · rw [if_pos hemp] at h
      refine ih h hm ?_
      rcases hs with ⟨hcne, hmem, h0, hb⟩ | hs
      · left
        refine ⟨hcne, ?_, h0, hb⟩
        rcases List.mem_cons.mp hmem with hh | hmem
        · rw [hh] at hcne
          exact absurd (beq_iff_eq.mp hemp) hcne
        · exact hmem
      · right
        exact hs
    · rw [if_neg hemp] at h
      cases htx : txRun fault n g (mergeProjectOp (some t) name mid) with
      | error e => rw [htx] at h; cases h
      | ok p =>
        rw [htx] at h
        obtain ⟨g1, hf, hp⟩ := txRun_ok_inv htx
        subst hp
        rw [mergeProjectOp_single hm] at hf
        have hmeet : g1.meetings = g.meetings :=
          congrArg (fun x => x.1) (mergeProjectRow_projProjects hf)
        have hm1 : matchedMeetingIds g1 mid = [m0] :=
          (matchedMeetingIds_congr mid hmeet).trans hm
        refine ih h hm1 ?_
        rcases hs with ⟨hcne, hmem, h0, hb⟩ | ⟨ci, hu, hcnt⟩
        · by_cases hnc : name = c
          · subst hnc
            right
            obtain ⟨hu, hcnt⟩ := mergeProjectRow_establish hf h0 hb
            exact ⟨g.nextId, hu, hcnt⟩
          · left
            refine ⟨hcne, ?_, mergeProjectRow_inv0 hf hnc h0,
              mergeProjectRow_prB hf hb⟩
            rcases List.mem_cons.mp hmem with hh | hmem
            · exact absurd hh.symm hnc
            · exact hmem
        · right
          obtain ⟨hu2, hne2, heq2⟩ := mergeProjectRow_unique_pres hf hu
          refine ⟨ci, hu2, ?_⟩
          by_cases hnc : name = c
          · exact (heq2 hnc).2 hcnt
          · rw [hne2 hnc]
            exact hcnt

/-- Running the Project loop on matched row `m0` when the unique Project node
`ci` already exists but is not yet linked to `m0`: the loop links it exactly
once. -/
theorem runProjects_relink {fault : Nat → Bool} {t mid c : String}
    {m0 ci : NodeId} :
    ∀ {names : List String} {n : Nat} {g : Graph} {n' : Nat} {g' : Graph},
    runProjects fault (some t) mid n names g = .ok (n', g') →
    matchedMeetingIds g mid = [m0] →
    ((c ≠ "" ∧ c ∈ names ∧ projectUnique c t ci g
        ∧ edgeCount g.relatesToProject (m0, ci) = 0)
      ∨ (projectUnique c t ci g ∧ edgeCount g.relatesToProject (m0, ci) = 1)) →
    projectUnique c t ci g' ∧ edgeCount g'.relatesToProject (m0, ci) = 1 := by
  intro names
  induction names with
  | nil =>
    intro n g n' g' h hm hs
    unfold runProjects at h
    cases h
    rcases hs with ⟨_, hmem, _⟩ | hs
    · exact absurd hmem (List.not_mem_nil c)
    · exact hs
  | cons name rest ih =>
    intro n g n' g' h hm hs
    unfold runProjects at h
    by_cases hemp : (name == "") = true
    · rw [if_pos hemp] at h
      refine ih h hm ?_
      rcases hs with ⟨hcne, hmem, hu, h0⟩ | hs
      · left
        refine ⟨hcne, ?_, hu, h0⟩
        rcases List.mem_cons.mp hmem with hh | hmem
        · rw [hh] at hcne
          exact absurd (beq_iff_eq.mp hemp) hcne
        · exact hmem
      · right
        exact hs
    · rw [if_neg hemp] at h
      cases htx : txRun fault n g (mergeProjectOp (some t) name mid) with
      | error e => rw [htx] at h; cases h
      | ok p =>
        rw [htx] at h
        obtain ⟨g1, hf, hp⟩ := txRun_ok_inv htx
        subst hp
        rw [mergeProjectOp_single hm] at hf
        have hmeet : g1.meetings = g.meetings :=
          congrArg (fun x => x.1) (mergeProjectRow_projProjects hf)
        have hm1 : matchedMeetingIds g1 mid = [m0] :=
          (matchedMeetingIds_congr mid hmeet).trans hm
        refine ih h hm1 ?_
        rcases hs with ⟨hcne, hmem, hu, h0⟩ | ⟨hu, hcnt⟩
        · obtain ⟨hu2, hne2, heq2⟩ := mergeProjectRow_unique_pres hf hu
          by_cases hnc : name = c
          · right
            exact ⟨hu2, (heq2 hnc).1 h0⟩
          · left
            refine ⟨hcne, ?_, hu2, by rw [hne2 hnc]; exact h0⟩
            rcases List.mem_cons.mp hmem with hh | hmem
            · exact absurd hh.symm hnc
            · exact hmem
        · obtain ⟨hu2, hne2, heq2⟩ := mergeProjectRow_unique_pres hf hu
          refine .inr ⟨hu2, ?_⟩
          by_cases hnc : name = c
          · exact (heq2 hnc).2 hcnt
          · rw [hne2 hnc]
            exact hcnt

/-- The Project loop on matched row `m0` never touches the link count of any
edge whose meeting endpoint differs from `m0`. -/
theorem runProjects_count_ne {fault : Nat → Bool} {t mid : String}
    {m0 : NodeId} {e0 : NodeId × NodeId} (hne : e0.1 ≠ m0) :
    ∀ {names : List String} {n : Nat} {g : Graph} {n' : Nat} {g' : Graph},
    runProjects fault (some t) mid n names g = .ok (n', g') →
    matchedMeetingIds g mid = [m0] →
    edgeCount g'.relatesToProject e0 = edgeCount g.relatesToProject e0 := by
  intro names
  induction names with
  | nil =>
    intro n g n' g' h hm
    unfold runProjects at h
    cases h
    rfl
  | cons name rest ih =>
    intro n g n' g' h hm
    unfold runProjects at h
    by_cases hemp : (name == "") = true
    · rw [if_pos hemp] at h
      exact ih h hm
    · rw [if_neg hemp] at h
      cases htx : txRun fault n g (mergeProjectOp (some t) name mid) with
      | error e => rw [htx] at h; cases h
      | ok p =>
        rw [htx] at h
        obtain ⟨g1, hf, hp⟩ := txRun_ok_inv htx
        subst hp
        rw [mergeProjectOp_single hm] at hf
        have hmeet : g1.meetings = g.meetings :=
          congrArg (fun x => x.1) (mergeProjectRow_projProjects hf)
        have hm1 : matchedMeetingIds g1 mid = [m0] :=
          (matchedMeetingIds_congr mid hmeet).trans hm
        rw [ih h hm1, mergeProjectRow_count_ne hf hne]

/-! ## Allocator monotonicity through the write stages -/

theorem foldRows_nextId {f : NodeId → Graph → Except DbErr Graph}
    (hf : ∀ m g g', f m g = .ok g' → g.nextId ≤ g'.nextId) :
    ∀ {ms : List NodeId} {g g' : Graph}, foldRows f ms g = .ok g' →
    g.nextId ≤ g'.nextId := by
  intro ms
  induction ms with
  | nil =>
    intro g g' h
    cases h
    exact Nat.le_refl _
  | cons m ms ih =>
    intro g g' h
    unfold foldRows at h
    cases hr : f m g with
    | error e => rw [hr] at h; cases h
    | ok g1 =>
      rw [hr] at h
      exact Nat.le_trans (hf m g g1 hr) (ih h)

theorem mergeClientRow_nextId {τ : Option String} {name : String} {m : NodeId}
    {g g' : Graph} (h : mergeClientRow τ name m g = .ok g') :
    g.nextId ≤ g'.nextId := by
  unfold mergeClientRow at h
  cases τ with
  | none => cases h
  | some t =>
    simp only at h
    split at h <;> cases h
    · exact Nat.le_succ _
    · exact Nat.le_refl _

theorem mergeProjectRow_nextId {τ : Option String} {name : String} {m : NodeId}
    {g g' : Graph} (h : mergeProjectRow τ name m g = .ok g') :
    g.nextId ≤ g'.nextId := by
  unfold mergeProjectRow at h
  cases τ with
  | none => cases h
  | some t =>
    simp only at h
    split at h <;> cases h
    · exact Nat.le_succ _
    · exact Nat.le_refl _

theorem runClients_nextId {fault : Nat → Bool} {τ : Option String} {mid : String} :
    ∀ {names : List String} {n : Nat} {g : Graph} {n' : Nat} {g' : Graph},
    runClients fault τ mid n names g = .ok (n', g') →
    g.nextId ≤ g'.nextId := by
  intro names
  induction names with
  | nil =>
    intro n g n' g' h
    unfold runClients at h
    cases h
    exact Nat.le_refl _
  | cons name rest ih =>
    intro n g n' g' h
    unfold runClients at h
    split at h
    · exact ih h
    · cases htx : txRun fault n g (mergeClientOp τ name mid) with
      | error e => rw [htx] at h; cases h
      | ok p =>
        rw [htx] at h
        obtain ⟨g1, hf, hp⟩ := txRun_ok_inv htx
        subst hp
        have h1 : g.nextId ≤ g1.nextId :=
          foldRows_nextId (fun _ _ _ hr => mergeClientRow_nextId hr) hf
        exact Nat.le_trans h1 (ih h)

theorem runProjects_nextId {fault : Nat → Bool} {τ : Option String} {mid : String} :
    ∀ {names : List String} {n : Nat} {g : Graph} {n' : Nat} {g' : Graph},
    runProjects fault τ mid n names g = .ok (n', g') →
    g.nextId ≤ g'.nextId := by
  intro names
  induction names with
  | nil =>
    intro n g n' g' h
    unfold runProjects at h
    cases h
    exact Nat.le_refl _
  | cons name rest ih =>
    intro n g n' g' h
    unfold runProjects at h
    split at h
    · exact ih h
    · cases htx : txRun fault n g (mergeProjectOp τ name mid) with
      | error e => rw [htx] at h; cases h
      | ok p =>
        rw [htx] at h
        obtain ⟨g1, hf, hp⟩ := txRun_ok_inv htx
        subst hp
        have h1 : g.nextId ≤ g1.nextId :=
          foldRows_nextId (fun _ _ _ hr => mergeProjectRow_nextId hr) hf
        exact Nat.le_trans h1 (ih h)

theorem runDecisions_nextId {fault : Nat → Bool} {τ : Option String} {mid : String} :
    ∀ {texts : List String} {idx n : Nat} {g : Graph} {n' : Nat} {g' : Graph},
    runDecisions fault τ mid idx n texts g = .ok (n', g') →
    g.nextId ≤ g'.nextId := by
  intro texts
  induction texts with
  | nil =>
    intro idx n g n' g' h
    unfold runDecisions at h
    cases h
    exact Nat.le_refl _
  | cons text rest ih =>
    intro idx n g n' g' h
    unfold runDecisions at h
    cases htx : txRun fault n g (fun g2 => .ok (createDecisionOp τ mid idx text g2)) with
    | error e => rw [htx] at h; cases h
    | ok p =>
      rw [htx] at h
      have hp := txRun_pure_ok htx
      subst hp
      refine Nat.le_trans ?_ (ih h)
      unfold createDecisionOp
      exact foldl_nextId _ (fun g2 m => Nat.le_succ _) _ g

theorem mergePersonEmailOp_nextId {τ : Option String}
    {email name role now aid : String} {g g' : Graph}
    (h : mergePersonEmailOp τ email name role now aid g = .ok g') :
    g.nextId ≤ g'.nextId := by
  unfold mergePersonEmailOp at h
  cases τ with
  | none => cases h
  | some t =>
    simp only at h
    split at h <;> cases h
    · show g.nextId ≤ (linkAssigned aid g.nextId _).nextId
      exact Nat.le_succ _
    · rw [foldl_graph_pres (fun g2 (pe : NodeId × PersonNode) =>
        linkAssigned aid pe.1 g2) (fun x => x.nextId) (fun _ _ => rfl)]

theorem mergePersonNameOp_nextId {τ : Option String} {name aid : String}
    {g g' : Graph}
    (h : mergePersonNameOp τ name aid g = .ok g') :
    g.nextId ≤ g'.nextId := by
  unfold mergePersonNameOp at h
  cases τ with
  | none => cases h
  | some t =>
    simp only at h
    split at h <;> cases h
    · show g.nextId ≤ (linkAssigned aid g.nextId _).nextId
      exact Nat.le_succ _
    · rw [foldl_graph_pres (fun g2 (pe : NodeId × PersonNode) =>
        linkAssigned aid pe.1 g2) (fun x => x.nextId) (fun _ _ => rfl)]

theorem runItems_nextId {fault : Nat → Bool} {τ : Option String}
    {atts : List Attendee} {mid now : String} :
    ∀ {items : List ActionItemInput} {idx n : Nat} {g : Graph} {n' : Nat} {g' : Graph},
    runItems fault τ atts mid now idx n items g = .ok (n', g') →
    g.nextId ≤ g'.nextId := by
  intro items
  induction items with
  | nil =>
    intro idx n g n' g' h
    unfold runItems at h
    cases h
    exact Nat.le_refl _
  | cons item rest ih =>
    intro idx n g n' g' h
    unfold runItems at h
    cases htx : txRun fault n g
        (fun g2 => .ok (createActionOp τ mid idx item g2)) with
    | error e => rw [htx] at h; cases h
    | ok p =>
      rw [htx] at h
      have hp := txRun_pure_ok htx
      subst hp
      simp only at h
      have hstep : g.nextId ≤ (createActionOp τ mid idx item g).nextId := by
        unfold createActionOp
        exact foldl_nextId _ (fun g2 m => Nat.le_succ _) _ g
      split at h
      · cases htx2 : txRun fault (n + 1) (createActionOp τ mid idx item g)
            (fun g2 =>
              match (resolveAssignee (item.assignee.getD "unassigned") atts).1 with
              | some email =>
                mergePersonEmailOp τ email
                  (resolveAssignee (item.assignee.getD "unassigned") atts).2
                  (item.assigneeRole.getD "") now (mid ++ "_action_" ++ toString idx) g2
              | none =>
                mergePersonNameOp τ
                  (resolveAssignee (item.assignee.getD "unassigned") atts).2
                  (mid ++ "_action_" ++ toString idx) g2) with
        | error e => rw [htx2] at h; cases h
        | ok p2 =>
          rw [htx2] at h
          obtain ⟨g2, hf, hp2⟩ := txRun_ok_inv htx2
          subst hp2
          have h2 : (createActionOp τ mid idx item g).nextId ≤ g2.nextId := by
            cases hr : (resolveAssignee (item.assignee.getD "unassigned") atts).1 with
            | some email =>
              rw [hr] at hf
              exact mergePersonEmailOp_nextId hf
            | none =>
              rw [hr] at hf
              exact mergePersonNameOp_nextId hf
          exact Nat.le_trans hstep (Nat.le_trans h2 (ih h))
      · exact Nat.le_trans hstep (ih h)

theorem ifStage_items_nextId {fault : Nat → Bool} {τ : Option String}
    {atts : List Attendee} {mid now : String} {c : Bool} {n1 n2 : Nat}
    {g1 g2 : Graph} {items : List ActionItemInput}
    (h : (if c then .ok (n1, g1)
          else runItems fault τ atts mid now 0 n1 items g1) = .ok (n2, g2)) :
    g1.nextId ≤ g2.nextId := by
  cases c with
  | true => simp at h; rw [h.2]
  | false => simp at h; exact runItems_nextId h

theorem ifStage_decs_nextId {fault : Nat → Bool} {τ : Option String} {mid : String}
    {c : Bool} {n1 n2 : Nat} {g1 g2 : Graph} {texts : List String}
    (h : (if c then .ok (n1, g1)
          else runDecisions fault τ mid 0 n1 texts g1) = .ok (n2, g2)) :
    g1.nextId ≤ g2.nextId := by
  cases c with
  | true => simp at h; rw [h.2]
  | false => simp at h; exact runDecisions_nextId h

theorem ifStage_clients_nextId {fault : Nat → Bool} {τ : Option String} {mid : String}
    {c : Bool} {n1 n2 : Nat} {g1 g2 : Graph} {names : List String}
    (h : (if c then .ok (n1, g1)
          else runClients fault τ mid n1 names g1) = .ok (n2, g2)) :
    g1.nextId ≤ g2.nextId := by
  cases c with
  | true => simp at h; rw [h.2]
  | false => simp at h; exact runClients_nextId h

theorem ifStage_projects_nextId {fault : Nat → Bool} {τ : Option String} {mid : String}
    {c : Bool} {n1 n2 : Nat} {g1 g2 : Graph} {names : List String}
    (h : (if c then .ok (n1, g1)
          else runProjects fault τ mid n1 names g1) = .ok (n2, g2)) :
    g1.nextId ≤ g2.nextId := by
  cases c with
  | true => simp at h; rw [h.2]
  | false => simp at h; exact runProjects_nextId h

/-- A successful transaction strictly advances the allocator (the Meeting
`CREATE` claims one id). -/
theorem storeTx_nextId {fault : Nat → Bool} {now mid : String} {a : Analysis}
    {g : Graph} {n' : Nat} {g' : Graph}
    (h : storeTx fault now mid a g = .ok (n', g')) :
    g.nextId < g'.nextId := by
  obtain ⟨n1, g1, n2, g2, n3, g3, n4, g4, h1, h2, h3, h4, h5⟩ := storeTx_inv h
  have hg1 : g1 = createMeetingOp now mid a g :=
    congrArg Prod.snd (txRun_pure_ok h1)
  have e1 : g.nextId < g1.nextId := by
    rw [hg1]
    exact Nat.lt_succ_self _
  exact Nat.lt_of_lt_of_le e1
    (Nat.le_trans (ifStage_items_nextId h2)
      (Nat.le_trans (ifStage_decs_nextId h3)
        (Nat.le_trans (ifStage_clients_nextId h4) (ifStage_projects_nextId h5))))

/-- Decompose a successful store into its Client and Project stages, with
the field-level frame facts of the earlier stages. -/
theorem store_stages {fault : Nat → Bool} {now : String} {a : Analysis}
    {g g' : Graph} {mid : String}
    (hmid : a.meetingId = some mid)
    (hok : store_meeting_data fault now a g = (true, g')) :
    ∃ n3 n4 k gc gd,
      (if a.mentionedClients.isEmpty then (Except.ok (n3, gc) : Except DbErr (Nat × Graph))
       else runClients fault a.tenantId mid n3 a.mentionedClients gc)
        = .ok (n4, gd)
      ∧ (if a.mentionedProjects.isEmpty then (Except.ok (n4, gd) : Except DbErr (Nat × Graph))
         else runProjects fault a.tenantId mid n4 a.mentionedProjects gd)
        = .ok (k, g')
      ∧ gc.meetings = g.meetings ++ [(g.nextId, meetingNodeOf now mid a)]
      ∧ gd.meetings = gc.meetings
      ∧ g'.meetings = gd.meetings
      ∧ gc.clients = g.clients
      ∧ gc.discussedClient = g.discussedClient
      ∧ gc.projects = g.projects
      ∧ gc.relatesToProject = g.relatesToProject
      ∧ gd.projects = gc.projects
      ∧ gd.relatesToProject = gc.relatesToProject
      ∧ g'.clients = gd.clients
      ∧ g'.discussedClient = gd.discussedClient
      ∧ g.nextId < gc.nextId
      ∧ gc.nextId ≤ gd.nextId
      ∧ gd.nextId ≤ g'.nextId := by
  obtain ⟨nf, htx⟩ := store_ok_inv hmid hok
  obtain ⟨n1, g1, n2, g2, n3, g3, n4, g4, h1, h2, h3, h4, h5⟩ := storeTx_inv htx
  have hg1 : g1 = createMeetingOp now mid a g :=
    congrArg Prod.snd (txRun_pure_ok h1)
  have pI := ifStage_projItems h2
  have pD := ifStage_projDecs h3
  have pC := ifStage_projClients h4
  have pP := ifStage_projProjects h5
  refine ⟨n3, n4, nf, g3, g4, h4, h5, ?_, ?_, ?_, ?_, ?_, ?_, ?_, ?_, ?_, ?_,
    ?_, ?_, ?_, ?_⟩
  · have m1 : g1.meetings = g.meetings ++ [(g.nextId, meetingNodeOf now mid a)] := by
      rw [hg1]
      rfl
    exact (congrArg (fun x => x.1) pD).trans
      ((congrArg (fun x => x.1) pI).trans m1)
  · exact congrArg (fun x => x.1) pC
  · exact congrArg (fun x => x.1) pP
  · have c1 : g1.clients = g.clients := by
      rw [hg1]
      rfl
    exact (congrArg (fun x => x.2.2.2.2.2.1) pD).trans
      ((congrArg (fun x => x.2.2.2.1) pI).trans c1)
  · have c1 : g1.discussedClient = g.discussedClient := by
      rw [hg1]
      rfl
    exact (congrArg (fun x => x.2.2.2.2.2.2.1) pD).trans
      ((congrArg (fun x => x.2.2.2.2.1) pI).trans c1)
  · have c1 : g1.projects = g.projects := by
      rw [hg1]
      rfl
    exact (congrArg (fun x => x.2.2.2.2.2.2.2.1) pD).trans
      ((congrArg (fun x => x.2.2.2.2.2.1) pI).trans c1)
  · have c1 : g1.relatesToProject = g.relatesToProject := by
      rw [hg1]
      rfl
    exact (congrArg (fun x => x.2.2.2.2.2.2.2.2) pD).trans
      ((congrArg (fun x => x.2.2.2.2.2.2) pI).trans c1)
  · exact congrArg (fun x => x.2.2.2.2.2.2.2.1) pC
  · exact congrArg (fun x => x.2.2.2.2.2.2.2.2) pC
  · exact congrArg (fun x => x.2.2.2.2.2.2.2.1) pP
  · exact congrArg (fun x => x.2.2.2.2.2.2.2.2) pP
  · have e1 : g.nextId < g1.nextId := by
      rw [hg1]
      exact Nat.lt_succ_self _
    exact Nat.lt_of_lt_of_le e1
      (Nat.le_trans (ifStage_items_nextId h2) (ifStage_decs_nextId h3))
  · exact ifStage_clients_nextId h4
  · exact ifStage_projects_nextId h5

/-- C7: Client and Project merging is idempotent on the `(name, tenantId)`
key.  Two successful stores for the same tenant whose payloads both mention
client `c` and project `q` — with `c` or `q` possibly repeated inside one
payload — leave exactly one Client node keyed `(c, t)` and one Project node
keyed `(q, t)`, each linked from both meetings by exactly one
`DISCUSSED_CLIENT` / `RELATES_TO_PROJECT` relationship (no duplicate node,
no duplicate edge). -/
theorem C7_idempotent_merge
    (t c q mid1 mid2 now1 now2 : String) (f1 f2 : Nat → Bool)
    (a1 a2 : Analysis) (g g1 g2 : Graph)
    (hW : WF g)
    (ht1 : a1.tenantId = some t) (ht2 : a2.tenantId = some t)
    (hm1 : a1.meetingId = some mid1) (hm2 : a2.meetingId = some mid2)
    (hmne : mid1 ≠ mid2)
    (hfresh1 : g.meetings.filter (fun me => me.2.meetingId == mid1) = [])
    (hfresh2 : g.meetings.filter (fun me => me.2.meetingId == mid2) = [])
    (hcne : c ≠ "") (hqne : q ≠ "")
    (hc1 : c ∈ a1.mentionedClients) (hc2 : c ∈ a2.mentionedClients)
    (hq1 : q ∈ a1.mentionedProjects) (hq2 : q ∈ a2.mentionedProjects)
    (hc0 : g.clients.filter (entKey c t) = [])
    (hq0 : g.projects.filter (entKey q t) = [])
    (h1 : store_meeting_data f1 now1 a1 g = (true, g1))
    (h2 : store_meeting_data f2 now2 a2 g1 = (true, g2)) :
    countClient g2 c t = 1
    ∧ countProject g2 q t = 1
    ∧ ∃ ci pj,
        g2.clients.filter (entKey c t) = [(ci, (⟨c, some t⟩ : NamedEntity))]
        ∧ g2.projects.filter (entKey q t) = [(pj, (⟨q, some t⟩ : NamedEntity))]
        ∧ (g2.meetings.filter (fun me => me.2.meetingId == mid1)).map
            (fun me => me.1) = [g.nextId]
        ∧ (g2.meetings.filter (fun me => me.2.meetingId == mid2)).map
            (fun me => me.1) = [g1.nextId]
        ∧ edgeCount g2.discussedClient (g.nextId, ci) = 1
        ∧ edgeCount g2.discussedClient (g1.nextId, ci) = 1
        ∧ edgeCount g2.relatesToProject (g.nextId, pj) = 1
        ∧ edgeCount g2.relatesToProject (g1.nextId, pj) = 1 := by
  have hW1 : WF g1 := store_WF hW h1
  -- the two Meeting nodes and the key beq facts
  have hbeq11 : ((meetingNodeOf now1 mid1 a1).meetingId == mid1) = true := by
    show (mid1 == mid1) = true
    exact beq_self_eq_true _
  have hbeq12 : ((meetingNodeOf now1 mid1 a1).meetingId == mid2) = false := by
    show (mid1 == mid2) = false
    exact beq_eq_false_iff_ne.mpr hmne
  have hbeq22 : ((meetingNodeOf now2 mid2 a2).meetingId == mid2) = true := by
    show (mid2 == mid2) = true
    exact beq_self_eq_true _
  have hbeq21 : ((meetingNodeOf now2 mid2 a2).meetingId == mid1) = false := by
    show (mid2 == mid1) = false
    exact beq_eq_false_iff_ne.mpr (Ne.symm hmne)
  -- ------------------------------------------------------------------
  -- store 1
  obtain ⟨n3, n4, k, gc, gd, S4, S5, A1, A2, A3, B1, B2, C1, C2, C3, C4,
    D1, D2, E1, E2, E3⟩ := store_stages hm1 h1
  rw [ht1] at S4 S5
  have hie1c : a1.mentionedClients.isEmpty = false := by
    cases hl : a1.mentionedClients with
    | nil => rw [hl] at hc1; exact absurd hc1 (List.not_mem_nil c)
    | cons x xs => rfl
  have hie1p : a1.mentionedProjects.isEmpty = false := by
    cases hl : a1.mentionedProjects with
    | nil => rw [hl] at hq1; exact absurd hq1 (List.not_mem_nil q)
    | cons x xs => rfl
  rw [hie1c] at S4
  rw [hie1p] at S5
  simp only [Bool.false_eq_true, if_false] at S4 S5
  have hmatch1 : matchedMeetingIds gc mid1 = [g.nextId] := by
    unfold matchedMeetingIds
    rw [A1, List.filter_append, hfresh1]
    simp [hbeq11]
  have hclB : clB gc := by
    constructor
    · intro p hp
      rw [B1] at hp
      exact Nat.lt_trans (hW.c_lt p hp) E1
    · intro e he
      rw [B2] at he
      exact Nat.lt_trans (hW.dc_lt e he).2 E1
  obtain ⟨ci, huC, hcntC⟩ := runClients_establish S4 hmatch1
    (.inl ⟨hcne, hc1, by rw [B1]; exact hc0, hclB⟩)
  have hmatch1d : matchedMeetingIds gd mid1 = [g.nextId] :=
    (matchedMeetingIds_congr mid1 A2).trans hmatch1
  have hprB : prB gd := by
    constructor
    · intro p hp
      rw [C3, C1] at hp
      exact Nat.lt_of_lt_of_le (Nat.lt_trans (hW.pr_lt p hp) E1) E2
    · intro e he
      rw [C4, C2] at he
      exact Nat.lt_of_lt_of_le (Nat.lt_trans (hW.rp_lt e he).2 E1) E2
  obtain ⟨pj, huP, hcntP⟩ := runProjects_establish S5 hmatch1d
    (.inl ⟨hqne, hq1, by rw [C3, C1]; exact hq0, hprB⟩)
  -- carry the client state from the client stage to the end of store 1
  have huC1 : clientUnique c t ci g1 := by
    obtain ⟨hlt, hfil, himp⟩ := huC
    refine ⟨Nat.lt_of_lt_of_le hlt E3, by rw [D1]; exact hfil, ?_⟩
    intro ce hce
    rw [D1] at hce
    exact himp ce hce
  have hcntC1 : edgeCount g1.discussedClient (g.nextId, ci) = 1 := by
    rw [D2]
    exact hcntC
  have hm1eq : g1.meetings
      = g.meetings ++ [(g.nextId, meetingNodeOf now1 mid1 a1)] :=
    A3.trans (A2.trans A1)
  have hi12 : g.nextId < g1.nextId :=
    Nat.lt_of_lt_of_le E1 (Nat.le_trans E2 E3)
  -- ------------------------------------------------------------------
  -- store 2
  obtain ⟨m3, m4, k2, gc2, gd2, T4, T5, F1, F2, F3, G1, G2, H1, H2, H3, H4,
    I1, I2, J1, J2, J3⟩ := store_stages hm2 h2
  rw [ht2] at T4 T5
  have hie2c : a2.mentionedClients.isEmpty = false := by
    cases hl : a2.mentionedClients with
    | nil => rw [hl] at hc2; exact absurd hc2 (List.not_mem_nil c)
    | cons x xs => rfl
  have hie2p : a2.mentionedProjects.isEmpty = false := by
    cases hl : a2.mentionedProjects with
    | nil => rw [hl] at hq2; exact absurd hq2 (List.not_mem_nil q)
    | cons x xs => rfl
  rw [hie2c] at T4
  rw [hie2p] at T5
  simp only [Bool.false_eq_true, if_false] at T4 T5
  have hmatch2 : matchedMeetingIds gc2 mid2 = [g1.nextId] := by
    unfold matchedMeetingIds
    rw [F1, hm1eq, List.filter_append, List.filter_append, hfresh2]
    simp [hbeq12, hbeq22]
  have huC2c : clientUnique c t ci gc2 := by
    obtain ⟨hlt, hfil, himp⟩ := huC1
    refine ⟨Nat.lt_trans hlt J1, by rw [G1]; exact hfil, ?_⟩
    intro ce hce
    rw [G1] at hce
    exact himp ce hce
  have hcnt0 : edgeCount gc2.discussedClient (g1.nextId, ci) = 0 := by
    rw [G2]
    unfold edgeCount
    rw [List.length_eq_zero, List.filter_eq_nil_iff]
    intro e he hbe
    have hee : e = (g1.nextId, ci) := beq_iff_eq.mp hbe
    have hlt := (hW1.dc_lt e he).1
    rw [hee] at hlt
    exact Nat.lt_irrefl _ hlt
  obtain ⟨huCf, hcntC2⟩ := runClients_relink T4 hmatch2
    (.inl ⟨hcne, hc2, huC2c, hcnt0⟩)
  have hpresC : edgeCount gd2.discussedClient (g.nextId, ci)
      = edgeCount gc2.discussedClient (g.nextId, ci) :=
    runClients_count_ne (Nat.ne_of_lt hi12) T4 hmatch2
  -- project side of store 2
  have hmatch2d : matchedMeetingIds gd2 mid2 = [g1.nextId] :=
    (matchedMeetingIds_congr mid2 F2).trans hmatch2
  have huP2d : projectUnique q t pj gd2 := by
    obtain ⟨hlt, hfil, himp⟩ := huP
    refine ⟨Nat.lt_of_lt_of_le (Nat.lt_trans hlt J1) J2,
      by rw [H3, H1]; exact hfil, ?_⟩
    intro pe hpe
    rw [H3, H1] at hpe
    exact himp pe hpe
  have hcnt0p : edgeCount gd2.relatesToProject (g1.nextId, pj) = 0 := by
    rw [H4, H2]
    unfold edgeCount
    rw [List.length_eq_zero, List.filter_eq_nil_iff]
    intro e he hbe
    have hee : e = (g1.nextId, pj) := beq_iff_eq.mp hbe
    have hlt := (hW1.rp_lt e he).1
    rw [hee] at hlt
    exact Nat.lt_irrefl _ hlt
  obtain ⟨huPf, hcntP2⟩ := runProjects_relink T5 hmatch2d
    (.inl ⟨hqne, hq2, huP2d, hcnt0p⟩)
  have hpresP : edgeCount g2.relatesToProject (g.nextId, pj)
      = edgeCount gd2.relatesToProject (g.nextId, pj) :=
    runProjects_count_ne (Nat.ne_of_lt hi12) T5 hmatch2d
  -- ------------------------------------------------------------------
  -- assemble
  have hm2eq : g2.meetings
      = (g.meetings ++ [(g.nextId, meetingNodeOf now1 mid1 a1)])
        ++ [(g1.nextId, meetingNodeOf now2 mid2 a2)] := by
    rw [F3, F2, F1, hm1eq]
  have hfilC : g2.clients.filter (entKey c t)
      = [(ci, (⟨c, some t⟩ : NamedEntity))] := by
    rw [I1]
    exact huCf.2.1
  have hfilP : g2.projects.filter (entKey q t)
      = [(pj, (⟨q, some t⟩ : NamedEntity))] :=
    huPf.2.1
  refine ⟨?_, ?_, ci, pj, hfilC, hfilP, ?_, ?_, ?_, ?_, ?_, ?_⟩
  · show (g2.clients.filter (entKey c t)).length = 1
    rw [hfilC]
    rfl
  · show (g2.projects.filter (entKey q t)).length = 1
    rw [hfilP]
    rfl
  · rw [hm2eq, List.filter_append, List.filter_append, hfresh1]
    simp [hbeq11, hbeq21]
  · rw [hm2eq, List.filter_append, List.filter_append, hfresh2]
    simp [hbeq12, hbeq22]
  · rw [I2, hpresC, G2]
    exact hcntC1
  · rw [I2]
    exact hcntC2
  · rw [hpresP, H4, H2]
    exact hcntP
  · exact hcntP2

theorem C7_witness :
    ("Acme" : String) ≠ ""
    ∧ "Acme" ∈ payCP1.mentionedClients
    ∧ "Acme" ∈ payCP2.mentionedClients
    ∧ countClient gCP2 "Acme" "t1" = 1
    ∧ countProject gCP2 "Phoenix" "t1" = 1 := by
  have hmain := C7_idempotent_merge "t1" "Acme" "Phoenix" "c1" "c2" "ts" "ts"
    noFault noFault payCP1 payCP2 Graph.empty gCP1 gCP2 WF_empty rfl rfl rfl rfl
    (by decide) rfl rfl (by decide) (by decide) (by decide) (by decide)
    (by decide) (by decide) rfl rfl
    (show store_meeting_data noFault "ts" payCP1 Graph.empty = (true, gCP1)
      from rfl)
    (show store_meeting_data noFault "ts" payCP2 gCP1 = (true, gCP2) from rfl)
  exact ⟨by decide, by decide, by decide, hmain.1, hmain.2.1⟩
